import Mathlib

/-!
# apex_containers: bounded vector and fixed-buffer strings

A shallow embedding of `apex_containers/static_vector.hpp`
(`single_allocator`, `static_vector`) and of the fixed-size string family
(`string/base_string.hpp`, `string/string_silent.hpp`,
`string/string_strict.hpp`), with the properties proved about them.

Conventions of the embedding:

* a C++ member function that mutates its object is a function from the
  object's state to an `Outcome`: the state of the object when the call
  returns or throws, and the exception thrown, if any;
* a constructor that can throw before the object exists returns `Except`;
* `size_t` / `size64_t` values are natural numbers; where the source relies on
  unsigned wrap-around or on a signed cast the model reduces modulo `2 ^ 64`
  explicitly.
-/

namespace apex

/-- The exception kinds thrown by the containers. -/
inductive Exn where
  | bad_alloc
  | length_error
  | out_of_range
  | overflow_error
  | invalid_argument
deriving DecidableEq

/-- State of an object after a member call, and the exception the call threw
(`none` when it returned normally). -/
structure Outcome (σ : Type) where
  state : σ
  thrown : Option Exn
deriving DecidableEq

/-! ## `single_allocator` -/

/-- The delegate `std::allocator<U>` kept in `m_alloc` (`base_type`). It is
stateless; the model records the two facts of the platform its calls depend
on: `max_size()` and the largest element count the free store can currently
provide (`avail`). -/
structure base_type where
  max_size : Nat
  avail : Nat
deriving DecidableEq

/-- Member `std::allocator<U>::allocate(n)`: throws `std::bad_alloc` when `n`
exceeds `max_size()` or the free store cannot provide the block. -/
def base_type.allocate (m : base_type) (n : Nat) : Option Exn :=
  if n ≤ m.max_size ∧ n ≤ m.avail then none else some Exn.bad_alloc

/-- Class `single_allocator<U>`: `m_size`, `m_consumed`, `m_alloc`.
The field `requests` is not in the source: it is a ghost trace recording the
argument of every `allocate` call made on the instance (or on the instance it
was copied from), used only to state facts about which calls were made. -/
structure single_allocator where
  m_size : Nat
  m_consumed : Bool
  m_alloc : base_type
  requests : List Nat
deriving DecidableEq

/-- Constructor `single_allocator(n)`: throws `std::bad_alloc` when `n` is more
than the base allocator supports. -/
def single_allocator.ctor (m_alloc : base_type) (n : Nat) : Except Exn single_allocator :=
  if n > m_alloc.max_size then Except.error Exn.bad_alloc
  else Except.ok { m_size := n, m_consumed := false, m_alloc := m_alloc, requests := [] }

/-- Member `single_allocator::allocate(n, hint)`. The returned pointer is not
modelled; a normal return means a block for `n` elements was handed out. -/
def single_allocator.allocate (a : single_allocator) (n : Nat) : Outcome single_allocator :=
  let a1 := { a with requests := a.requests ++ [n] }
  if n ≠ a.m_size ∨ a.m_consumed = true then
    { state := a1, thrown := some Exn.bad_alloc }
  else
    match a.m_alloc.allocate n with
    | some e => { state := a1, thrown := some e }
    | none => { state := { a1 with m_consumed := true }, thrown := none }

/-- Member `single_allocator::deallocate(ptr, n)`: forwards to the stateless
base allocator; no member of the allocator changes. -/
def single_allocator.deallocate (a : single_allocator) (_n : Nat) : single_allocator := a

/-- Member `single_allocator::max_size()`. -/
def single_allocator.max_size (a : single_allocator) : Nat := a.m_size

/-- A call made on a `single_allocator` by a client. -/
inductive AllocCall where
  | allocate (n : Nat)
  | deallocate (n : Nat)
deriving DecidableEq

/-- Runs a sequence of calls on one allocator instance; returns the final
state and, for every `allocate` call in order, what it threw (`none` when it
succeeded). -/
def single_allocator.run : single_allocator → List AllocCall →
    single_allocator × List (Option Exn)
  | a, [] => (a, [])
  | a, AllocCall.allocate n :: cs =>
    let r := a.allocate n
    let rest := single_allocator.run r.state cs
    (rest.1, r.thrown :: rest.2)
  | a, AllocCall.deallocate n :: cs => single_allocator.run (a.deallocate n) cs

/-! ## `std::vector<T, single_allocator<T>>`

`static_vector<T>` forwards to a `std::vector<T, single_allocator<T>>`. The
vector is the standard library's; the model below follows the GNU
implementation that the repository's tests run against, restricted to what
the allocator can observe: the element sequence, the capacity of the block
held, and the vector's copy of the allocator. -/

/-- State of a `std::vector<T, single_allocator<T>>`: the elements of
`[_M_start, _M_finish)`, the capacity `_M_end_of_storage - _M_start`, and the
allocator copy. -/
structure std_vector (α : Type) where
  elems : List α
  cap : Nat
  alloc : single_allocator
deriving DecidableEq

/-- Constructor `vector(const allocator_type&)`: empty, no storage. -/
def std_vector.ctor {α : Type} (a : single_allocator) : std_vector α :=
  { elems := [], cap := 0, alloc := a }

/-- Member `size()`. -/
def std_vector.size {α : Type} (v : std_vector α) : Nat := v.elems.length

/-- Member `capacity()`. -/
def std_vector.capacity {α : Type} (v : std_vector α) : Nat := v.cap

/-- Member `max_size()`: the smaller of `PTRDIFF_MAX / sizeof(T)` (the base
allocator's `max_size()`) and the allocator's own `max_size()`. -/
def std_vector.max_size {α : Type} (v : std_vector α) : Nat :=
  min v.alloc.m_alloc.max_size v.alloc.max_size

/-- Helper `_M_allocate(n)`: asks the allocator unless `n` is zero. -/
def std_vector._M_allocate {α : Type} (v : std_vector α) (n : Nat) : Outcome (std_vector α) :=
  if n = 0 then { state := v, thrown := none }
  else
    let r := v.alloc.allocate n
    { state := { v with alloc := r.state }, thrown := r.thrown }

/-- Helper `_M_check_len(n, msg)`: the new capacity for growing by `n`, or
`std::length_error` when `max_size() - size() < n` (in `size_t` arithmetic). -/
def std_vector._M_check_len {α : Type} (v : std_vector α) (n : Nat) : Except Exn Nat :=
  if (v.max_size + 2 ^ 64 - v.size) % 2 ^ 64 < n then Except.error Exn.length_error
  else
    let len := (v.size + max v.size n) % 2 ^ 64
    Except.ok (if len < v.size ∨ len > v.max_size then v.max_size else len)

/-- Sequencing of two steps on the same object: the second runs only when the
first returned normally. -/
def Outcome.andThen {σ : Type} (o : Outcome σ) (f : σ → Outcome σ) : Outcome σ :=
  match o.thrown with
  | some e => { state := o.state, thrown := some e }
  | none => f o.state

/-- Growth path shared by `push_back`, `emplace_back` and `resize`: obtains a
block of `_M_check_len(n)` elements, moves the old elements into it, appends
`extra`, and releases the old block. -/
def std_vector.realloc_append {α : Type} (v : std_vector α) (n : Nat) (extra : List α) :
    Outcome (std_vector α) :=
  match v._M_check_len n with
  | Except.error e => { state := v, thrown := some e }
  | Except.ok len =>
    (v._M_allocate len).andThen fun w =>
      { state := { elems := v.elems ++ extra, cap := len, alloc := w.alloc.deallocate v.cap },
        thrown := none }

/-- Member `reserve(n)`. -/
def std_vector.reserve {α : Type} (v : std_vector α) (n : Nat) : Outcome (std_vector α) :=
  if n > v.max_size then { state := v, thrown := some Exn.length_error }
  else if v.capacity < n then
    (v._M_allocate n).andThen fun w =>
      { state := { elems := v.elems, cap := n, alloc := w.alloc.deallocate v.cap },
        thrown := none }
  else { state := v, thrown := none }

/-- Member `push_back(x)`: constructs in place while `_M_finish` differs from
`_M_end_of_storage`, otherwise takes the growth path. -/
def std_vector.push_back {α : Type} (v : std_vector α) (x : α) : Outcome (std_vector α) :=
  if v.size ≠ v.cap then { state := { v with elems := v.elems ++ [x] }, thrown := none }
  else v.realloc_append 1 [x]

/-- Member `emplace_back(args...)`, for the element `x` built from `args`. -/
def std_vector.emplace_back {α : Type} (v : std_vector α) (x : α) : Outcome (std_vector α) :=
  if v.size ≠ v.cap then { state := { v with elems := v.elems ++ [x] }, thrown := none }
  else v.realloc_append 1 [x]

/-- Helper `_M_default_append(n)` of `resize`. -/
def std_vector._M_default_append {α : Type} [Inhabited α] (v : std_vector α) (n : Nat) :
    Outcome (std_vector α) :=
  if n = 0 then { state := v, thrown := none }
  else if v.cap - v.size ≥ n then
    { state := { v with elems := v.elems ++ List.replicate n default }, thrown := none }
  else v.realloc_append n (List.replicate n default)

/-- Member `resize(n)`. -/
def std_vector.resize {α : Type} [Inhabited α] (v : std_vector α) (n : Nat) :
    Outcome (std_vector α) :=
  if n > v.size then v._M_default_append (n - v.size)
  else if n < v.size then { state := { v with elems := v.elems.take n }, thrown := none }
  else { state := v, thrown := none }

/-- Move constructor `vector(vector&&)`: the new vector takes the storage and a
(move-constructed, hence equal) allocator; the source keeps its allocator and
holds no storage. Returns the new vector and the moved-from source. -/
def std_vector.move_ctor {α : Type} (other : std_vector α) : std_vector α × std_vector α :=
  ({ elems := other.elems, cap := other.cap, alloc := other.alloc },
   { elems := [], cap := 0, alloc := other.alloc })

/-- Move assignment `operator=(vector&&)`; the allocator propagates
(`propagate_on_container_move_assignment` is `true_type`), so the storage is
taken over, the old block is released and the source is left empty. Returns
the assigned vector and the moved-from source. -/
def std_vector.move_assign {α : Type} (self other : std_vector α) : std_vector α × std_vector α :=
  let _released := self.alloc.deallocate self.cap
  ({ elems := other.elems, cap := other.cap, alloc := other.alloc },
   { elems := [], cap := 0, alloc := other.alloc })

/-! ## `static_vector` -/

/-- A pair of iterators `(first, last)` passed to the range constructor, as
two positions in the sequence they iterate over. `(begin, end)` of a
container is `(0, length)`. -/
structure iter_pair (α : Type) where
  seq : List α
  first : Nat
  last : Nat
deriving DecidableEq

/-- The value of `std::distance(first, last)`, a signed `difference_type`. -/
def iter_pair.distance {α : Type} (r : iter_pair α) : Int := (r.last : Int) - (r.first : Int)

/-- The elements of `[first, last)`, as read by `std::copy(first, last, out)`. -/
def iter_pair.range {α : Type} (r : iter_pair α) : List α :=
  (r.seq.drop r.first).take (r.last - r.first)

/-- Conversion `static_cast<difference_type>(n)` of a `size_type`. -/
def to_difference_type (n : Nat) : Int :=
  if n % 2 ^ 64 < 2 ^ 63 then ((n % 2 ^ 64 : Nat) : Int)
  else ((n % 2 ^ 64 : Nat) : Int) - 2 ^ 64

/-- Implicit conversion of a `difference_type` to `size_type`. -/
def to_size_type (d : Int) : Nat := (d % 2 ^ 64).toNat

/-- Effect of `std::copy(first, last, m_v.begin())` on the elements. -/
def std_copy {α : Type} (xs : List α) (v : std_vector α) : std_vector α :=
  { v with elems := xs ++ v.elems.drop xs.length }

/-- Class `static_vector<T>`: the single member `m_v`. -/
structure static_vector (α : Type) where
  m_v : std_vector α
deriving DecidableEq

/-- Wraps the outcome of a call forwarded to `m_v`. -/
def static_vector.fwd {α : Type} (o : Outcome (std_vector α)) : Outcome (static_vector α) :=
  { state := { m_v := o.state }, thrown := o.thrown }

/-- Constructor `static_vector(capacity)`. The member initialiser builds the
allocator (an exception there leaves no object: `Except.error`); the body
calls `m_v.reserve(capacity)`. -/
def static_vector.ctor {α : Type} (m_alloc : base_type) (capacity : Nat) :
    Except Exn (Outcome (static_vector α)) :=
  match single_allocator.ctor m_alloc capacity with
  | Except.error e => Except.error e
  | Except.ok a => Except.ok (static_vector.fwd ((std_vector.ctor a).reserve capacity))

/-- Constructor `static_vector(capacity, first, last)`. When the body throws,
the outcome holds the state `m_v` had at the throw. -/
def static_vector.ctor_range {α : Type} [Inhabited α] (m_alloc : base_type) (capacity : Nat)
    (r : iter_pair α) : Except Exn (Outcome (static_vector α)) :=
  match single_allocator.ctor m_alloc capacity with
  | Except.error e => Except.error e
  | Except.ok a =>
    let m_v : std_vector α := std_vector.ctor a
    let dist := r.distance
    if dist > to_difference_type capacity then
      Except.ok { state := { m_v := m_v }, thrown := some Exn.length_error }
    else
      Except.ok (static_vector.fwd
        (((m_v.reserve capacity).andThen fun v => v.resize (to_size_type r.distance)).andThen
          fun v => { state := std_copy r.range v, thrown := none }))

/-- Constructor `static_vector(capacity, il)` from an initializer list. -/
def static_vector.ctor_il {α : Type} [Inhabited α] (m_alloc : base_type) (capacity : Nat)
    (il : List α) : Except Exn (Outcome (static_vector α)) :=
  match single_allocator.ctor m_alloc capacity with
  | Except.error e => Except.error e
  | Except.ok a =>
    let m_v : std_vector α := std_vector.ctor a
    if il.length > capacity then
      Except.ok { state := { m_v := m_v }, thrown := some Exn.length_error }
    else
      Except.ok (static_vector.fwd
        (((m_v.reserve capacity).andThen fun v => v.resize il.length).andThen
          fun v => { state := std_copy il v, thrown := none }))

/-- Move constructor `static_vector(static_vector&&)`: returns the new object
and the moved-from source. -/
def static_vector.move_ctor {α : Type} (other : static_vector α) :
    static_vector α × static_vector α :=
  ({ m_v := other.m_v.move_ctor.1 }, { m_v := other.m_v.move_ctor.2 })

/-- Move assignment `operator=(static_vector&&)`: returns the assigned object
and the moved-from source. -/
def static_vector.move_assign {α : Type} (self other : static_vector α) :
    static_vector α × static_vector α :=
  ({ m_v := (self.m_v.move_assign other.m_v).1 }, { m_v := (self.m_v.move_assign other.m_v).2 })

/-- Forwarded member `size()`. -/
def static_vector.size {α : Type} (s : static_vector α) : Nat := s.m_v.size

/-- Forwarded member `capacity()`. -/
def static_vector.capacity {α : Type} (s : static_vector α) : Nat := s.m_v.capacity

/-- Forwarded member `max_size()`. -/
def static_vector.max_size {α : Type} (s : static_vector α) : Nat := s.m_v.max_size

/-- Forwarded member `push_back(x)`. -/
def static_vector.push_back {α : Type} (s : static_vector α) (x : α) : Outcome (static_vector α) :=
  static_vector.fwd (s.m_v.push_back x)

/-- Forwarded member `emplace_back(x)`. -/
def static_vector.emplace_back {α : Type} (s : static_vector α) (x : α) :
    Outcome (static_vector α) :=
  static_vector.fwd (s.m_v.emplace_back x)

/-- An insertion at the end: the element and whether `emplace_back` (rather
than `push_back`) is used. -/
structure Insertion (α : Type) where
  value : α
  emplace : Bool
deriving DecidableEq

/-- Performs one insertion. -/
def static_vector.insert_one {α : Type} (s : static_vector α) (i : Insertion α) :
    Outcome (static_vector α) :=
  if i.emplace then s.emplace_back i.value else s.push_back i.value

/-- Performs insertions in order as long as they return normally; stops at the
first one that throws. Returns the number of insertions that succeeded with
the outcome of the last call made. -/
def static_vector.insert_all {α : Type} : static_vector α → List (Insertion α) →
    Nat × Outcome (static_vector α)
  | s, [] => (0, { state := s, thrown := none })
  | s, i :: is =>
    let r := s.insert_one i
    match r.thrown with
    | some e => (0, { state := r.state, thrown := some e })
    | none =>
      let rest := static_vector.insert_all r.state is
      (rest.1 + 1, rest.2)

/-- Copy assignment `single_allocator::operator=(const single_allocator &)`:
every member takes the value of `other`. -/
def single_allocator.copy_assign (_self other : single_allocator) : single_allocator := other

/-- Copy assignment `std::vector::operator=(const vector &)` for two distinct
objects. The allocator propagates (`propagate_on_container_copy_assignment`
is `true_type`); as any two `single_allocator`s compare equal the storage is
kept. A source longer than `capacity()` needs a new block, otherwise the
elements are copied into the block held. -/
def std_vector.copy_assign {α : Type} (self other : std_vector α) : Outcome (std_vector α) :=
  let self1 : std_vector α := { self with alloc := self.alloc.copy_assign other.alloc }
  let xlen := other.size
  if xlen > self1.capacity then
    (self1._M_allocate xlen).andThen fun w =>
      { state := { elems := other.elems, cap := xlen, alloc := w.alloc.deallocate self.cap },
        thrown := none }
  else { state := { self1 with elems := other.elems }, thrown := none }

/-- Member `pop_back()`; the vector must not be empty (the call is undefined
on an empty vector). -/
def std_vector.pop_back {α : Type} (v : std_vector α) : std_vector α :=
  { v with elems := v.elems.dropLast }

/-- Member `clear()`. -/
def std_vector.clear {α : Type} (v : std_vector α) : std_vector α :=
  { v with elems := [] }

/-- Copy assignment `static_vector::operator=(const static_vector &)`:
`m_v = other.m_v`. -/
def static_vector.copy_assign {α : Type} (self other : static_vector α) :
    Outcome (static_vector α) :=
  static_vector.fwd (self.m_v.copy_assign other.m_v)

/-- Forwarded member `reserve(n)`. -/
def static_vector.reserve {α : Type} (s : static_vector α) (n : Nat) : Outcome (static_vector α) :=
  static_vector.fwd (s.m_v.reserve n)

/-- Forwarded member `resize(n)`. -/
def static_vector.resize {α : Type} [Inhabited α] (s : static_vector α) (n : Nat) :
    Outcome (static_vector α) :=
  static_vector.fwd (s.m_v.resize n)

/-- Forwarded member `pop_back()`. -/
def static_vector.pop_back {α : Type} (s : static_vector α) : static_vector α :=
  { m_v := s.m_v.pop_back }

/-- Forwarded member `clear()`. -/
def static_vector.clear {α : Type} (s : static_vector α) : static_vector α :=
  { m_v := s.m_v.clear }

/-- Member `shrink_to_fit()`: the body is empty. -/
def static_vector.shrink_to_fit {α : Type} (s : static_vector α) : static_vector α := s

/-- A call of one of the capacity and size members of a `static_vector`. -/
inductive VecCall (α : Type) where
  | reserve (n : Nat)
  | resize (n : Nat)
  | push_back (x : α)
  | pop_back
  | clear
  | shrink_to_fit
deriving DecidableEq

/-- Performs one call. `none` stands for a call without defined behaviour
(`pop_back` on an empty vector). -/
def static_vector.call {α : Type} [Inhabited α] (s : static_vector α) :
    VecCall α → Option (Outcome (static_vector α))
  | VecCall.reserve n => some (s.reserve n)
  | VecCall.resize n => some (s.resize n)
  | VecCall.push_back x => some (s.push_back x)
  | VecCall.pop_back =>
    if s.size = 0 then none else some { state := s.pop_back, thrown := none }
  | VecCall.clear => some { state := s.clear, thrown := none }
  | VecCall.shrink_to_fit => some { state := s.shrink_to_fit, thrown := none }

/-- Performs a sequence of calls; the result is the final vector when every
call was defined and returned normally, and `none` otherwise. -/
def static_vector.run_calls {α : Type} [Inhabited α] :
    static_vector α → List (VecCall α) → Option (static_vector α)
  | s, [] => some s
  | s, c :: cs =>
    match s.call c with
    | none => none
    | some r =>
      match r.thrown with
      | some _ => none
      | none => static_vector.run_calls r.state cs

/-- The state a `static_vector` keeps through its constructors and members:
no more elements than the block holds, and an allocator that has handed out
its block or was declared for no elements. -/
def static_vector.valid {α : Type} (s : static_vector α) : Prop :=
  s.size ≤ s.capacity ∧ (s.m_v.alloc.m_consumed = true ∨ s.m_v.alloc.m_size = 0)

instance static_vector.decidableValid {α : Type} (s : static_vector α) : Decidable s.valid := by
  unfold static_vector.valid
  infer_instance

/-- A platform for the examples: room for a thousand elements. -/
def test_platform : base_type := { max_size := 1000, avail := 1000 }

/-- The vector `static_vector<int>(3)` of the tests, holding `xs`. -/
def test_vector_3 (xs : List Nat) : static_vector Nat :=
  { m_v := { elems := xs, cap := 3,
             alloc := { m_size := 3, m_consumed := true, m_alloc := test_platform,
                        requests := [3] } } }

/-! ## Fixed-buffer strings: `BaseString`, `String`, `StringStrict` -/

/-- A character `char8_t`, as its byte value. -/
abbrev char8_t := Fin 256

/-- The constant `npos` (`ULLONG_MAX`). -/
def npos : Nat := 2 ^ 64 - 1

/-- C library `strnlen(s, maxlen)` on the bytes readable from `s`: the number
of bytes before the first zero, at most `maxlen`. The end of the list stands
for a terminator. -/
def strnlen (s : List char8_t) (maxlen : Nat) : Nat :=
  ((s.take maxlen).takeWhile fun c => c != 0).length

/-- C library `strlen(s)`. -/
def strlen (s : List char8_t) : Nat := (s.takeWhile fun c => c != 0).length

/-- The text a C string holds: the bytes before its terminator. -/
def c_text (s : List char8_t) : List char8_t := s.takeWhile fun c => c != 0

/-- Overwrites `buf` from offset `off` on with `bytes`; a byte that would fall
outside the array is dropped, so the array keeps its size. -/
def poke (buf : List char8_t) (off : Nat) (bytes : List char8_t) : List char8_t :=
  buf.take off ++ bytes.take (buf.length - off) ++ buf.drop (off + bytes.length)

/-- Class `BaseString<BUFFER_SIZE>`: the array `char8_t m_string[BUFFER_SIZE]`.
`String<N>` and `StringStrict<N>` derive from it and add no member, so their
objects have this state too. -/
structure BaseString (N : Nat) where
  m_string : List char8_t
  hsize : m_string.length = N
deriving DecidableEq

/-- A `const char8_t *` argument: null, a pointer to bytes outside the object,
or a pointer into the object's own buffer (as `c_str()` of the object itself
gives), at an offset. -/
inductive char_ptr where
  | null
  | ext (bytes : List char8_t)
  | self (offset : Nat)
deriving DecidableEq

/-- The bytes readable from a pointer while the object is in state `s`;
`none` for the null pointer. -/
def char_ptr.deref {N : Nat} (p : char_ptr) (s : BaseString N) : Option (List char8_t) :=
  match p with
  | char_ptr.null => none
  | char_ptr.ext bytes => some bytes
  | char_ptr.self offset => some (s.m_string.drop offset)

/-- Default constructor `BaseString()`: the buffer is zero-filled. -/
def BaseString.ctor (N : Nat) : BaseString N :=
  { m_string := List.replicate N 0, hsize := by simp }

/-- Member `get_buffer_size()`. -/
def BaseString.get_buffer_size {N : Nat} (_s : BaseString N) : Nat := N

/-- Member `capacity()`: `get_buffer_size() - 1U`, for a buffer size of at
least one (one character is reserved for the terminating zero). -/
def BaseString.capacity {N : Nat} (s : BaseString N) : Nat := s.get_buffer_size - 1

/-- Member `size()`: `strnlen(m_string, capacity())`. -/
def BaseString.size {N : Nat} (s : BaseString N) : Nat := strnlen s.m_string s.capacity

/-- Member `length()`. -/
def BaseString.length {N : Nat} (s : BaseString N) : Nat := s.size

/-- The logical content: the `length()` bytes from the start of the buffer
(what `operator<<` writes). -/
def BaseString.text {N : Nat} (s : BaseString N) : List char8_t := s.m_string.take s.length

/-- Effect of `memset(&m_string[0], c, n)`. -/
def BaseString.memset {N : Nat} (s : BaseString N) (c : char8_t) (n : Nat) : BaseString N :=
  { m_string := poke s.m_string 0 (List.replicate n c),
    hsize := by have := s.hsize; simp [poke]; omega }

/-- Effect of `memmove(&m_string[off], src, n)`. -/
def BaseString.memmove {N : Nat} (s : BaseString N) (off : Nat) (src : List char8_t) (n : Nat) :
    BaseString N :=
  { m_string := poke s.m_string off (src.take n),
    hsize := by have := s.hsize; simp [poke]; omega }

/-- Effect of the store `m_string[idx] = c`. -/
def BaseString.store {N : Nat} (s : BaseString N) (idx : Nat) (c : char8_t) : BaseString N :=
  { m_string := s.m_string.set idx c, hsize := by have := s.hsize; simp [this] }

/-- Member `clear()`. -/
def BaseString.clear {N : Nat} (s : BaseString N) : BaseString N :=
  s.memset 0 s.get_buffer_size

/-- Member `String::operator+=(const char8_t * src)`. -/
def String.operator_plus_eq {N : Nat} (s : BaseString N) (src : char_ptr) :
    Outcome (BaseString N) :=
  match src.deref s with
  | some t =>
    let my_length := s.length
    if my_length < s.capacity then
      let their_length := strnlen t s.capacity
      if their_length > 0 then
        let max_copy_size := s.capacity - my_length
        let copy_size := if max_copy_size < their_length then max_copy_size else their_length
        { state := (s.memmove my_length t copy_size).store (my_length + copy_size) 0,
          thrown := none }
      else { state := s, thrown := none }
    else { state := s, thrown := none }
  | none => { state := s, thrown := none }

/-- Member `String::operator+=(const char8_t chr)`. -/
def String.operator_plus_eq_chr {N : Nat} (s : BaseString N) (chr : char8_t) :
    Outcome (BaseString N) :=
  let my_length := s.length
  if my_length < s.capacity then
    { state := (s.store my_length chr).store (my_length + 1) 0, thrown := none }
  else { state := s, thrown := none }

/-- Fill constructor `String(n, c)`. -/
def String.ctor_fill (N : Nat) (n : Nat) (c : char8_t) : BaseString N :=
  let this := BaseString.ctor N
  let chars_to_fill := if n < this.capacity then n else this.capacity
  this.memset c chars_to_fill

/-- Constructor `String(const char8_t * str)`. -/
def String.ctor_text (N : Nat) (str : char_ptr) : BaseString N :=
  (String.operator_plus_eq (BaseString.ctor N) str).state

/-- Member `String::operator=(const char8_t * src)`; the overloads taking a
`String`, another size of `String` or an `apex_string_t` run the same two
statements on the argument's `c_str()`. -/
def String.operator_assign {N : Nat} (s : BaseString N) (src : char_ptr) :
    Outcome (BaseString N) :=
  String.operator_plus_eq (s.memset 0 s.get_buffer_size) src

/-- Member `StringStrict::operator+=(const char8_t * src)`. -/
def StringStrict.operator_plus_eq {N : Nat} (s : BaseString N) (src : char_ptr) :
    Outcome (BaseString N) :=
  match src.deref s with
  | some t =>
    let my_length := s.length
    let their_length := strnlen t s.get_buffer_size
    if my_length + their_length + 1 ≤ s.get_buffer_size then
      { state := (s.memmove my_length t their_length).store (my_length + their_length) 0,
        thrown := none }
    else { state := s, thrown := some Exn.overflow_error }
  | none => { state := s, thrown := some Exn.invalid_argument }

/-- Member `StringStrict::operator+=(const char8_t chr)`. -/
def StringStrict.operator_plus_eq_chr {N : Nat} (s : BaseString N) (chr : char8_t) :
    Outcome (BaseString N) :=
  let my_length := s.length
  if my_length + 2 ≤ s.get_buffer_size then
    { state := (s.store my_length chr).store (my_length + 1) 0, thrown := none }
  else { state := s, thrown := some Exn.overflow_error }

/-- Fill constructor `StringStrict(n, c)`. -/
def StringStrict.ctor_fill (N : Nat) (n : Nat) (c : char8_t) : Except Exn (BaseString N) :=
  let this := BaseString.ctor N
  if n ≠ npos ∧ n > this.capacity then Except.error Exn.overflow_error
  else
    let chars_to_fill := if n < this.capacity then n else this.capacity
    Except.ok (this.memset c chars_to_fill)

/-- Constructor `StringStrict(const char8_t * str)`. -/
def StringStrict.ctor_text (N : Nat) (str : char_ptr) : Except Exn (BaseString N) :=
  let r := StringStrict.operator_plus_eq (BaseString.ctor N) str
  match r.thrown with
  | some e => Except.error e
  | none => Except.ok r.state

/-- Member `StringStrict::operator=(const char8_t * src)`; the overloads taking
a `BaseString` of the same or another size or an `apex_string_t` run the same
two statements on the argument's `c_str()`. -/
def StringStrict.operator_assign {N : Nat} (s : BaseString N) (src : char_ptr) :
    Outcome (BaseString N) :=
  StringStrict.operator_plus_eq (s.memset 0 s.get_buffer_size) src

/-- A mutating call on a string object. -/
inductive StrCall where
  | append (src : char_ptr)
  | append_chr (chr : char8_t)
  | assign (src : char_ptr)
  | clear
deriving DecidableEq

/-- A way of constructing a string object. -/
inductive StrCtor where
  | default
  | fill (n : Nat) (c : char8_t)
  | text (str : char_ptr)
deriving DecidableEq

/-- Construction of a `String<N>`. -/
def String.construct (N : Nat) : StrCtor → BaseString N
  | StrCtor.default => BaseString.ctor N
  | StrCtor.fill n c => String.ctor_fill N n c
  | StrCtor.text str => String.ctor_text N str

/-- Construction of a `StringStrict<N>`. -/
def StringStrict.construct (N : Nat) : StrCtor → Except Exn (BaseString N)
  | StrCtor.default => Except.ok (BaseString.ctor N)
  | StrCtor.fill n c => StringStrict.ctor_fill N n c
  | StrCtor.text str => StringStrict.ctor_text N str

/-- One mutating call on a `String<N>`. -/
def String.call {N : Nat} (s : BaseString N) : StrCall → Outcome (BaseString N)
  | StrCall.append src => String.operator_plus_eq s src
  | StrCall.append_chr chr => String.operator_plus_eq_chr s chr
  | StrCall.assign src => String.operator_assign s src
  | StrCall.clear => { state := s.clear, thrown := none }

/-- One mutating call on a `StringStrict<N>`. -/
def StringStrict.call {N : Nat} (s : BaseString N) : StrCall → Outcome (BaseString N)
  | StrCall.append src => StringStrict.operator_plus_eq s src
  | StrCall.append_chr chr => StringStrict.operator_plus_eq_chr s chr
  | StrCall.assign src => StringStrict.operator_assign s src
  | StrCall.clear => { state := s.clear, thrown := none }

/-- The state of a `String<N>` after a sequence of calls. -/
def String.run {N : Nat} (s : BaseString N) (calls : List StrCall) : BaseString N :=
  calls.foldl (fun t c => (String.call t c).state) s

/-- The state of a `StringStrict<N>` after a sequence of calls, each of which
may have returned or thrown (a caller that catches the exception goes on with
the object as the throwing call left it). -/
def StringStrict.run {N : Nat} (s : BaseString N) (calls : List StrCall) : BaseString N :=
  calls.foldl (fun t c => (StringStrict.call t c).state) s

/-- The null-termination invariant of a buffer: the logical length is at most
`N - 1`, the byte at index `length()` is zero, and the last byte is zero. -/
def BaseString.terminated {N : Nat} (s : BaseString N) : Prop :=
  s.length ≤ N - 1 ∧ s.m_string[s.length]? = some 0 ∧ s.m_string[N - 1]? = some 0

instance BaseString.decidableTerminated {N : Nat} (s : BaseString N) : Decidable s.terminated := by
  unfold BaseString.terminated
  infer_instance

/-- The constant `APEX_STRING_SIZE`. -/
def APEX_STRING_SIZE : Nat := 256

/-- C library `strncmp(a, b, n)` on the bytes readable from `a` and `b`: the
difference of the first pair of bytes (as `unsigned char`) that differ among
the first `n`, and zero when there is none before `n` bytes or before a
terminator. The end of a list stands for a terminator. -/
def strncmp : List char8_t → List char8_t → Nat → Int
  | _, _, 0 => 0
  | a, b, n + 1 =>
    if a.headD 0 ≠ b.headD 0 then ((a.headD 0).val : Int) - ((b.headD 0).val : Int)
    else if a.headD 0 = 0 then 0
    else strncmp a.tail b.tail n

/-- Member `c_str()`, as a pointer handed to another object. -/
def BaseString.c_str {N : Nat} (s : BaseString N) : char_ptr := char_ptr.ext s.m_string

/-- Member `compare(pos1, count1, s, count2)`. -/
def BaseString.compare {N : Nat} (this : BaseString N) (pos1 count1 : Nat) (s : char_ptr)
    (count2 : Nat) : Except Exn Int :=
  match s.deref this with
  | none => Except.error Exn.invalid_argument
  | some t =>
    let my_size := this.length
    if pos1 > my_size then Except.error Exn.out_of_range
    else
      let _count1 := if npos = count1 then my_size else count1
      let n_str := if npos = count2 then strnlen t APEX_STRING_SIZE else count2
      let rlen := min _count1 (my_size - pos1)
      let cmp_retval := strncmp (this.m_string.drop pos1) t (min rlen n_str)
      let cmp_retval1 := if cmp_retval = 0 ∧ rlen < n_str then -1 else cmp_retval
      let cmp_retval2 := if cmp_retval = 0 ∧ rlen > n_str then 1 else cmp_retval1
      Except.ok cmp_retval2

/-- A right-hand comparand of the `compare` overloads and of the relational
operators: a `const char8_t *`, a `BaseString<LEN>` or a `std::string` (its
characters). -/
inductive Comparand where
  | text (s : char_ptr)
  | fixed (LEN : Nat) (str : BaseString LEN)
  | std_string (str : List char8_t)

/-- The pointer the overloads pass on: the argument itself, or `str.c_str()`. -/
def Comparand.c_str : Comparand → char_ptr
  | Comparand.text s => s
  | Comparand.fixed _ str => str.c_str
  | Comparand.std_string str => char_ptr.ext (str ++ [0])

/-- Members `compare(pos1, count1, str)` for a `BaseString<LEN>` or a
`std::string`: `compare(pos1, count1, str.c_str())`, `count2` defaulting to
`npos`. -/
def BaseString.compare_sub {N : Nat} (this : BaseString N) (pos1 count1 : Nat)
    (str : Comparand) : Except Exn Int :=
  this.compare pos1 count1 str.c_str npos

/-- Members `compare(s)` and `compare(str)`: `compare(0U, npos, ...)`. -/
def BaseString.compare_all {N : Nat} (this : BaseString N) (rhs : Comparand) : Except Exn Int :=
  this.compare_sub 0 npos rhs

/-- Members `operator==`: `compare(...) == 0`. -/
def BaseString.operator_eq {N : Nat} (this : BaseString N) (rhs : Comparand) :
    Except Exn Bool :=
  match this.compare_all rhs with
  | Except.error e => Except.error e
  | Except.ok cmp_retval => Except.ok (decide (cmp_retval = 0))

/-- Members `operator!=`: `!operator==(rhs)`. -/
def BaseString.operator_ne {N : Nat} (this : BaseString N) (rhs : Comparand) :
    Except Exn Bool :=
  match this.operator_eq rhs with
  | Except.error e => Except.error e
  | Except.ok b => Except.ok (!b)

/-- Members `operator<`: `compare(...) < 0`. -/
def BaseString.operator_lt {N : Nat} (this : BaseString N) (rhs : Comparand) :
    Except Exn Bool :=
  match this.compare_all rhs with
  | Except.error e => Except.error e
  | Except.ok cmp_retval => Except.ok (decide (cmp_retval < 0))

/-- Members `operator>`: `compare(...) > 0`. -/
def BaseString.operator_gt {N : Nat} (this : BaseString N) (rhs : Comparand) :
    Except Exn Bool :=
  match this.compare_all rhs with
  | Except.error e => Except.error e
  | Except.ok cmp_retval => Except.ok (decide (cmp_retval > 0))

/-- Members `operator<=`: `!operator>(rhs)`. -/
def BaseString.operator_le {N : Nat} (this : BaseString N) (rhs : Comparand) :
    Except Exn Bool :=
  match this.operator_gt rhs with
  | Except.error e => Except.error e
  | Except.ok b => Except.ok (!b)

/-- Members `operator>=`: `!operator<(rhs)`. -/
def BaseString.operator_ge {N : Nat} (this : BaseString N) (rhs : Comparand) :
    Except Exn Bool :=
  match this.operator_lt rhs with
  | Except.error e => Except.error e
  | Except.ok b => Except.ok (!b)

/-- Lexicographic comparison of two byte sequences, bytes compared as
unsigned values; a proper prefix sorts first. -/
def lex_compare : List char8_t → List char8_t → Ordering
  | [], [] => Ordering.eq
  | [], _ :: _ => Ordering.lt
  | _ :: _, [] => Ordering.gt
  | a :: as, b :: bs =>
    if a < b then Ordering.lt else if b < a then Ordering.gt else lex_compare as bs

/-- Member `substr(pos, len)`. -/
def BaseString.substr {N : Nat} (this : BaseString N) (pos len : Nat) :
    Except Exn (BaseString N) :=
  let retval := BaseString.ctor N
  let my_size := this.size
  if pos > my_size then Except.error Exn.out_of_range
  else if pos ≠ my_size then
    let chars_to_copy := min (my_size - pos) len
    Except.ok (retval.memmove 0 (this.m_string.drop pos) chars_to_copy)
  else Except.ok retval

/-- Members `operator[](idx)`, as the value read. -/
def BaseString.operator_index {N : Nat} (this : BaseString N) (idx : Nat) :
    Except Exn char8_t :=
  if idx ≥ this.get_buffer_size then Except.error Exn.out_of_range
  else Except.ok (this.m_string.getD idx 0)

/-- A `size64_t` result: reduction modulo `2 ^ 64`. -/
def wrap64 (n : Nat) : Nat := n % 2 ^ 64

/-- The loop of `std::hash<apex::BaseString<SizeN>>::operator()`, from index
`idx` with the current `seed`, for at most `fuel` iterations. `none` stands
for a loop that is not finished when the fuel is used up, or for the call of
`std::terminate` an exception in this `noexcept` function would cause. -/
def std_hash_loop {N : Nat} (str : BaseString N) : Nat → Nat → Nat → Option Nat
  | 0, idx, seed => if idx < str.size then none else some seed
  | fuel + 1, idx, seed =>
    if idx < str.size then
      match str.operator_index idx with
      | Except.error _ => none
      | Except.ok c =>
        std_hash_loop str fuel (idx + 1)
          (seed ^^^ wrap64 (wrap64 (wrap64 (c.val + 0x9e3779b9) + wrap64 (seed <<< 6)) +
            (seed >>> 2)))
    else some seed

/-- The function `std::hash<apex::BaseString<SizeN>>::operator()(str)`. -/
def std_hash {N : Nat} (str : BaseString N) : Option Nat :=
  std_hash_loop str str.size 0 str.size

/-- The hash of a text as the specification words it: starting from the
length, each byte in order replaces the seed by
`seed xor (byte + 0x9e3779b9 + (seed << 6) + (seed >> 2))`, the sum taken
modulo `2 ^ 64`. -/
def hash_of_text (t : List char8_t) : Nat :=
  t.foldl (fun seed c => seed ^^^ ((c.val + 0x9e3779b9 + (seed <<< 6) + (seed >>> 2)) % 2 ^ 64))
    t.length

/-- The part of this string `compare` looks at, as the specification words
it: the bytes of the text in `[pos1, pos1 + min(count1, L - pos1))`, a
`count1` of `npos` meaning to the end. -/
def spec_compare_lhs (text : List char8_t) (pos1 count1 : Nat) : List char8_t :=
  (text.drop pos1).take (min (if count1 = npos then text.length else count1) (text.length - pos1))

/-- The part of the C text `s` that `compare` looks at, as the specification
words it: the first `count2` bytes of the text, all of it for `npos`. -/
def spec_compare_rhs (s : List char8_t) (count2 : Nat) : List char8_t :=
  if count2 = npos then c_text s else (c_text s).take count2

/-- A text of 257 letters `a`, one more than `APEX_STRING_SIZE`. -/
def test_a257 : List char8_t := List.replicate 257 97

/-- The object `String<258>` constructed from `test_a257`, as
`String<2>("a") + str` of a full `String<256>` would give. -/
def test_string_258 : BaseString 258 := String.ctor_text 258 (char_ptr.ext test_a257)

/-- Non-const member `operator[](idx)`: the reference it returns, as the
offset of the cell of `m_string` it designates. -/
def BaseString.operator_index_ref {N : Nat} (this : BaseString N) (idx : Nat) :
    Except Exn Nat :=
  if idx ≥ this.get_buffer_size then Except.error Exn.out_of_range
  else Except.ok idx

/-- The type `apex_ret_t`, an `int32_t`. -/
abbrev apex_ret_t := Int

/-- The constant `APEX_RET_OK`. -/
def APEX_RET_OK : apex_ret_t := 0

/-- The constant `APEX_RET_ERROR`. -/
def APEX_RET_ERROR : apex_ret_t := -1

/-- C struct `apex_string_t`: the array `char8_t c_str[APEX_STRING_SIZE]`. -/
structure apex_string_t where
  c_str : List char8_t
  hsize : c_str.length = APEX_STRING_SIZE
deriving DecidableEq

/-- Function `apex_string_create()`: a zero-filled object. -/
def apex_string_create : apex_string_t :=
  { c_str := List.replicate APEX_STRING_SIZE 0, hsize := by simp }

/-- C library `strncat(dest, src, n)` on the array `dest`: at most `n` bytes of
the text of `src` are written from the terminator of `dest` on, and a
terminator after them. -/
def strncat (dest src : List char8_t) (n : Nat) : List char8_t :=
  poke dest (strlen dest) (src.take (strnlen src n) ++ [0])

/-- Function `apex_string_add_strict(dst, src)`: the value returned and the
object `dst` points to afterwards; `none` is a `NULL` pointer. -/
def apex_string_add_strict (dst : Option apex_string_t) (src : Option (List char8_t)) :
    apex_ret_t × Option apex_string_t :=
  match dst, src with
  | some d, some s =>
    let my_length := strnlen d.c_str APEX_STRING_SIZE
    let their_length := strnlen s APEX_STRING_SIZE
    if my_length + their_length + 1 ≤ APEX_STRING_SIZE then
      (APEX_RET_OK,
        some { c_str := (strncat d.c_str s their_length).set (my_length + their_length) 0,
               hsize := by have := d.hsize; simp [strncat, poke]; omega })
    else (APEX_RET_ERROR, dst)
  | _, _ => (APEX_RET_ERROR, dst)

/-- Functions `apex_string_add2_strict` to `apex_string_add10_strict`, which
are each the previous one followed, when it returned `APEX_RET_OK`, by
`apex_string_add_strict` on the last source: the general step. -/
def apex_string_add_next_strict (previous : apex_ret_t × Option apex_string_t)
    (src : Option (List char8_t)) : apex_ret_t × Option apex_string_t :=
  if previous.1 = APEX_RET_OK then apex_string_add_strict previous.2 src else previous

/-- Function `apex_string_add2_strict(dst, src1, src2)`. -/
def apex_string_add2_strict (dst : Option apex_string_t) (src1 src2 : Option (List char8_t)) :
    apex_ret_t × Option apex_string_t :=
  apex_string_add_next_strict (apex_string_add_strict dst src1) src2

/-- Function `apex_string_add3_strict(dst, src1, src2, src3)`. -/
def apex_string_add3_strict (dst : Option apex_string_t)
    (src1 src2 src3 : Option (List char8_t)) : apex_ret_t × Option apex_string_t :=
  apex_string_add_next_strict (apex_string_add2_strict dst src1 src2) src3

/-- Function `apex_string_add4_strict`. -/
def apex_string_add4_strict (dst : Option apex_string_t)
    (src1 src2 src3 src4 : Option (List char8_t)) : apex_ret_t × Option apex_string_t :=
  apex_string_add_next_strict (apex_string_add3_strict dst src1 src2 src3) src4

/-- Function `apex_string_add5_strict`. -/
def apex_string_add5_strict (dst : Option apex_string_t)
    (src1 src2 src3 src4 src5 : Option (List char8_t)) : apex_ret_t × Option apex_string_t :=
  apex_string_add_next_strict (apex_string_add4_strict dst src1 src2 src3 src4) src5

/-- Function `apex_string_add6_strict`. -/
def apex_string_add6_strict (dst : Option apex_string_t)
    (src1 src2 src3 src4 src5 src6 : Option (List char8_t)) :
    apex_ret_t × Option apex_string_t :=
  apex_string_add_next_strict (apex_string_add5_strict dst src1 src2 src3 src4 src5) src6

/-- Function `apex_string_add7_strict`. -/
def apex_string_add7_strict (dst : Option apex_string_t)
    (src1 src2 src3 src4 src5 src6 src7 : Option (List char8_t)) :
    apex_ret_t × Option apex_string_t :=
  apex_string_add_next_strict
    (apex_string_add6_strict dst src1 src2 src3 src4 src5 src6) src7

/-- Function `apex_string_add8_strict`. -/
def apex_string_add8_strict (dst : Option apex_string_t)
    (src1 src2 src3 src4 src5 src6 src7 src8 : Option (List char8_t)) :
    apex_ret_t × Option apex_string_t :=
  apex_string_add_next_strict
    (apex_string_add7_strict dst src1 src2 src3 src4 src5 src6 src7) src8

/-- Function `apex_string_add9_strict`. -/
def apex_string_add9_strict (dst : Option apex_string_t)
    (src1 src2 src3 src4 src5 src6 src7 src8 src9 : Option (List char8_t)) :
    apex_ret_t × Option apex_string_t :=
  apex_string_add_next_strict
    (apex_string_add8_strict dst src1 src2 src3 src4 src5 src6 src7 src8) src9

/-- Function `apex_string_add10_strict`. -/
def apex_string_add10_strict (dst : Option apex_string_t)
    (src1 src2 src3 src4 src5 src6 src7 src8 src9 src10 : Option (List char8_t)) :
    apex_ret_t × Option apex_string_t :=
  apex_string_add_next_strict
    (apex_string_add9_strict dst src1 src2 src3 src4 src5 src6 src7 src8 src9) src10

/-- The text `"a"`. -/
def test_a : List char8_t := [97]

/-- A text of 255 letters `b`: it fills an `apex_string_t` on its own. -/
def test_b255 : List char8_t := List.replicate 255 98

/-- The table `g_decimal_digits`. -/
def g_decimal_digits : List char8_t := [48, 49, 50, 51, 52, 53, 54, 55, 56, 57]

/-- The locals of `templated_unsingned_to_string`: the array
`retval_m_string[STR_TYPE::get_buffer_size_static()]`, `digit_happened` and
`str_idx`. -/
structure to_string_locals (N : Nat) where
  retval_m_string : BaseString N
  digit_happened : Bool
  str_idx : Nat

/-- One iteration, for the index `i`, of the loop of
`templated_unsingned_to_string`. -/
def templated_unsingned_to_string_body {N : Nat} (value : Nat) (dividers : List Nat)
    (MAX_DIVIDERS : Nat) (st : to_string_locals N) (i : Nat) : to_string_locals N :=
  let digit := (value / dividers.getD i 0) % 10
  if digit ≠ 0 ∨ i = MAX_DIVIDERS - 1 ∨ st.digit_happened = true then
    { retval_m_string :=
        (st.retval_m_string.store st.str_idx (g_decimal_digits.getD digit 0)).store
          (st.str_idx + 1) 0,
      digit_happened := true,
      str_idx := st.str_idx + 1 }
  else st

/-- Function `templated_unsingned_to_string<STR_TYPE, VAL_TYPE>(value,
dividers, MAX_DIVIDERS)` for `STR_TYPE = String<N>`. The local array is not
initialised: `uninitialised` is whatever it holds on entry. -/
def templated_unsingned_to_string (N : Nat) (uninitialised : BaseString N) (value : Nat)
    (dividers : List Nat) (MAX_DIVIDERS : Nat) : BaseString N :=
  let st := (List.range MAX_DIVIDERS).foldl
    (templated_unsingned_to_string_body value dividers MAX_DIVIDERS)
    { retval_m_string := uninitialised, digit_happened := false, str_idx := 0 }
  String.ctor_text N (char_ptr.ext st.retval_m_string.m_string)

/-- The array `dividers` of `apex::to_string(const uint32_t)`. -/
def dividers_uint32 : List Nat :=
  [1000000000, 100000000, 10000000, 1000000, 100000, 10000, 1000, 100, 10, 1]

/-- The array `dividers` of `apex::to_string(const uint64_t)`. -/
def dividers_uint64 : List Nat :=
  [10000000000000000000, 1000000000000000000, 100000000000000000, 10000000000000000,
   1000000000000000, 100000000000000, 10000000000000, 1000000000000, 100000000000,
   10000000000, 1000000000, 100000000, 10000000, 1000000, 100000, 10000, 1000, 100, 10, 1]

/-- Function `apex::to_string(const uint32_t value)`, returning `string16_t`;
`value` is below `2 ^ 32`. -/
def to_string_uint32 (uninitialised : BaseString 32) (value : Nat) : BaseString 16 :=
  (String.operator_assign (BaseString.ctor 16)
    (templated_unsingned_to_string 32 uninitialised value dividers_uint32 10).c_str).state

/-- Function `apex::to_string(const uint8_t value)`. -/
def to_string_uint8 (uninitialised : BaseString 32) (value : Nat) : BaseString 16 :=
  to_string_uint32 uninitialised (value % 2 ^ 32)

/-- Function `apex::to_string(const uint16_t value)`. -/
def to_string_uint16 (uninitialised : BaseString 32) (value : Nat) : BaseString 16 :=
  to_string_uint32 uninitialised (value % 2 ^ 32)

/-- Function `apex::to_string(const uint64_t value)`, returning `string32_t`;
`value` is below `2 ^ 64`. -/
def to_string_uint64 (uninitialised : BaseString 32) (value : Nat) : BaseString 32 :=
  (String.operator_assign (BaseString.ctor 32)
    (templated_unsingned_to_string 32 uninitialised value dividers_uint64 20).c_str).state

/-- The value of a signed integer expression in a type of `BITS` bits, by
two's-complement wraparound. -/
def wrap_signed (BITS : Nat) (x : Int) : Int :=
  (x + 2 ^ (BITS - 1)) % 2 ^ BITS - 2 ^ (BITS - 1)

/-- The conversion `static_cast<U_TYPE>(value)` to an unsigned type of `BITS`
bits. -/
def to_unsigned (BITS : Nat) (x : Int) : Nat := (x % 2 ^ BITS).toNat

/-- Function `templated_signed_to_string<STR_TYPE, U_TYPE, VAL_TYPE>(value)`
for `STR_TYPE = String<N>` and types of `BITS` bits; `to_string_unsigned` is
the overload of `apex::to_string` for `U_TYPE`. -/
def templated_signed_to_string (N M BITS : Nat) (to_string_unsigned : Nat → BaseString M)
    (value : Int) : BaseString N :=
  let retval := BaseString.ctor N
  let retval1 := if value < 0 then (String.operator_plus_eq_chr retval 45).state else retval
  let value1 := if value < 0 then wrap_signed BITS (-value) else value
  let uvalue := to_unsigned BITS value1
  (String.operator_plus_eq retval1 (to_string_unsigned uvalue).c_str).state

/-- Function `apex::to_string(const int32_t value)`. -/
def to_string_int32 (uninitialised : BaseString 32) (value : Int) : BaseString 16 :=
  templated_signed_to_string 16 16 32 (to_string_uint32 uninitialised) value

/-- Function `apex::to_string(const int8_t value)`. -/
def to_string_int8 (uninitialised : BaseString 32) (value : Int) : BaseString 16 :=
  to_string_int32 uninitialised value

/-- Function `apex::to_string(const int16_t value)`. -/
def to_string_int16 (uninitialised : BaseString 32) (value : Int) : BaseString 16 :=
  to_string_int32 uninitialised value

/-- Function `apex::to_string(const int64_t value)`. -/
def to_string_int64 (uninitialised : BaseString 32) (value : Int) : BaseString 32 :=
  templated_signed_to_string 32 32 64 (to_string_uint64 uninitialised) value

/-- The decimal digits of `v`, most significant first and none for zero;
`fuel` bounds the number of digits. -/
def decimal_digits : Nat → Nat → List char8_t
  | 0, _ => []
  | fuel + 1, v =>
    if v = 0 then [] else decimal_digits fuel (v / 10) ++ [⟨48 + v % 10, by omega⟩]

/-- The minimal decimal representation of `v`, as `std::to_string` writes an
unsigned value: `"0"` for zero, otherwise its digits without leading zeros. -/
def decimal_text (v : Nat) : List char8_t :=
  if v = 0 then [48] else decimal_digits v v

/-- The decimal representation of a signed value, as `std::to_string` writes
it: `-` and the digits of the absolute value when negative. -/
def signed_decimal_text (v : Int) : List char8_t :=
  if v < 0 then 45 :: decimal_text v.natAbs else decimal_text v.toNat

/-- The number a sequence of decimal digit characters denotes. -/
def digits_value (ds : List char8_t) : Nat :=
  ds.foldl (fun acc c => acc * 10 + (c.val - 48)) 0

/-- The digits `templated_unsingned_to_string` has written after `i` of its
`k` iterations on `v`: those of `v` without its last `k - i` decimal places,
and `"0"` at the end for zero. -/
def written_digits (v k i : Nat) : List char8_t :=
  if i = k ∧ v = 0 then [48]
  else decimal_digits (v / 10 ^ (k - i)) (v / 10 ^ (k - i))

/-- The locals of `templated_unsingned_to_string` hold the digits `W`: the
array starts with them, a terminator follows once there is a digit, `str_idx`
is their number and `digit_happened` says whether there is one. -/
def to_string_locals.written {N : Nat} (st : to_string_locals N) (W : List char8_t) : Prop :=
  st.str_idx = W.length ∧ st.retval_m_string.m_string.take W.length = W ∧
  (W ≠ [] → st.retval_m_string.m_string[W.length]? = some 0) ∧
  (st.digit_happened = true ↔ W ≠ [])

/-- Some bytes standing for an array that was never written. -/
def test_stack : BaseString 32 :=
  { m_string := List.replicate 32 0xAA, hsize := by simp }

/-- Static member `StringStrict<N>::to_string(const uint32_t value)`: the
result of `apex::to_string(value)` converted by the constructor from a
`BaseString<LEN>`. -/
def StringStrict.to_string (N : Nat) (uninitialised : BaseString 32) (value : Nat) :
    Except Exn (BaseString N) :=
  StringStrict.ctor_text N (to_string_uint32 uninitialised value).c_str

/-- Static member `String<N>::to_string(const uint32_t value)`. -/
def String.to_string (N : Nat) (uninitialised : BaseString 32) (value : Nat) :
    Except Exn (BaseString N) :=
  let result := to_string_uint32 uninitialised value
  if result.size ≥ N then Except.error Exn.overflow_error
  else Except.ok (String.ctor_text N result.c_str)

/-- C library `isspace` in the C locale: space and the controls `\t` to `\r`. -/
def isspace (c : char8_t) : Bool := c.val = 32 || (9 ≤ c.val && c.val ≤ 13)

/-- C library `isdigit`. -/
def isdigit (c : char8_t) : Bool := 48 ≤ c.val && c.val ≤ 57

/-- The subject sequence the C library functions `strtol`, `strtoul`,
`strtoll` and `strtoull` find in `nptr` for base 10: after leading white
space, an optional sign and the longest run of decimal digits. The result
says whether the sign is `-` and gives the digits, none when there is no
number to convert. -/
def strto_subject (nptr : List char8_t) : Bool × List char8_t :=
  let s := nptr.dropWhile isspace
  if s.head? = some 45 then (true, s.tail.takeWhile isdigit)
  else if s.head? = some 43 then (false, s.tail.takeWhile isdigit)
  else (false, s.takeWhile isdigit)

/-- C library `strtol(nptr, nullptr, 10)` and `strtoll(nptr, nullptr, 10)`
for a result type of `BITS` bits: the value of the subject sequence, zero
when there is none, and the nearest limit of the type when the value is out
of its range. -/
def strto_signed (BITS : Nat) (nptr : List char8_t) : Int :=
  let subject := strto_subject nptr
  let v : Int := digits_value subject.2
  if subject.1 then max (-(2 ^ (BITS - 1))) (-v) else min (2 ^ (BITS - 1) - 1) v

/-- C library `strtoul(nptr, nullptr, 10)` and `strtoull(nptr, nullptr, 10)`
for a result type of `BITS` bits: the value of the subject sequence, negated
in the result type after a `-`, zero when there is none, and the largest
value of the type when the digits denote more than that. -/
def strto_unsigned (BITS : Nat) (nptr : List char8_t) : Nat :=
  let subject := strto_subject nptr
  let v := digits_value subject.2
  if v > 2 ^ BITS - 1 then 2 ^ BITS - 1
  else if subject.1 then (2 ^ BITS - v) % 2 ^ BITS
  else v

/-- The constant `INT32_MIN`. -/
def INT32_MIN : Int := -2147483648

/-- The constant `INT32_MAX`. -/
def INT32_MAX : Int := 2147483647

/-- The constant `UINT32_MAX`. -/
def UINT32_MAX : Nat := 4294967295

/-- Function `apex::stol(str)`; `LONG_BITS` is the width of the platform's
`long`, whose `strtol` result is stored in an `int64_t`. -/
def stol {N : Nat} (LONG_BITS : Nat) (str : BaseString N) : Int :=
  let value := wrap_signed 64 (strto_signed LONG_BITS str.m_string)
  let value1 := if value < INT32_MIN then INT32_MIN else value
  let value2 := if value1 > INT32_MAX then INT32_MAX else value1
  wrap_signed 32 value2

/-- Function `apex::stoll(str)`. -/
def stoll {N : Nat} (str : BaseString N) : Int :=
  wrap_signed 64 (strto_signed 64 str.m_string)

/-- Function `apex::stoul(str)`; `LONG_BITS` is the width of the platform's
`unsigned long`, whose `strtoul` result is stored in a `uint64_t`. -/
def stoul {N : Nat} (LONG_BITS : Nat) (str : BaseString N) : Nat :=
  let value := strto_unsigned LONG_BITS str.m_string % 2 ^ 64
  let value1 := if value > UINT32_MAX then UINT32_MAX else value
  (value1 &&& UINT32_MAX) % 2 ^ 32

/-- Function `apex::stoull(str)`. -/
def stoull {N : Nat} (str : BaseString N) : Nat :=
  strto_unsigned 64 str.m_string % 2 ^ 64

/-- The text `"4294967298"`. -/
def test_4294967298 : List char8_t := [52, 50, 57, 52, 57, 54, 55, 50, 57, 56]

/-- The text `"-2147483649"`. -/
def test_minus_2147483649 : List char8_t := [45, 50, 49, 52, 55, 52, 56, 51, 54, 52, 57]

/-- The text `"????"`. -/
def test_question_marks : List char8_t := [63, 63, 63, 63]

/-- The text `"<nullptr>"`. -/
def test_nullptr : List char8_t := [60, 110, 117, 108, 108, 112, 116, 114, 62]

/-- Function `apex::to_string(const char8_t * const c_text_ptr)`, returning
`string256_t`. -/
def to_string_text (c_text_ptr : char_ptr) : BaseString 256 :=
  let retval := BaseString.ctor 256
  match c_text_ptr with
  | char_ptr.null => (String.operator_assign retval (char_ptr.ext test_nullptr)).state
  | p => (String.operator_assign retval p).state

/-- A text of 512 characters `*`. -/
def test_stars512 : List char8_t := List.replicate 512 42

/-- An argument of a parameter pack, given by the string that
`apex::to_string(arg)` returns for it: a `String<LEN>` for some `LEN`. -/
structure converted_arg where
  LEN : Nat
  str : BaseString LEN

/-- The locals of `varargs_to_string`: `result_str` and `counter`. -/
structure varargs_locals where
  result_str : BaseString 256
  counter : Nat

/-- The pack expansion of `varargs_to_string` for one argument:
`result_str += apex::to_string(args)`, then
`result_str += (counter < (argc - 1U)) ? " " : ""`, then `counter++`. -/
def varargs_to_string_element (argc : Nat) (st : varargs_locals) (arg : converted_arg) :
    varargs_locals :=
  let result1 := (String.operator_plus_eq st.result_str arg.str.c_str).state
  let separator : List char8_t := if st.counter < argc - 1 then [32, 0] else [0]
  { result_str := (String.operator_plus_eq result1 (char_ptr.ext separator)).state,
    counter := st.counter + 1 }

/-- Function `varargs_to_string(args...)`. -/
def varargs_to_string (args : List converted_arg) : BaseString 256 :=
  (args.foldl (varargs_to_string_element args.length)
    { result_str := BaseString.ctor 256, counter := 0 }).result_str

/-- Function `varargs_to_string(no_separator, args...)`. -/
def varargs_to_string_no_separator (args : List converted_arg) : BaseString 256 :=
  args.foldl (fun result_str arg => (String.operator_plus_eq result_str arg.str.c_str).state)
    (BaseString.ctor 256)

/-- The texts joined with exactly one space between consecutive elements and
none after the last. -/
def joined_with_spaces : List (List char8_t) → List char8_t
  | [] => []
  | [a] => a
  | a :: b :: rest => a ++ 32 :: joined_with_spaces (b :: rest)

/-- The texts one after the other. -/
def joined_plain : List (List char8_t) → List char8_t
  | [] => []
  | a :: rest => a ++ joined_plain rest

/-- The text `"Hello"`. -/
def test_Hello : List char8_t := [72, 101, 108, 108, 111]

/-- The text `"world"`. -/
def test_world : List char8_t := [119, 111, 114, 108, 100]

/-- The text `"!"`. -/
def test_exclamation : List char8_t := [33]

/-- The text `"My lucky number is"`. -/
def test_lucky : List char8_t :=
  [77, 121, 32, 108, 117, 99, 107, 121, 32, 110, 117, 109, 98, 101, 114, 32, 105, 115]

/-- The text `"Hello world ! My lucky number is 42"`. -/
def test_lucky_sentence : List char8_t :=
  [72, 101, 108, 108, 111, 32, 119, 111, 114, 108, 100, 32, 33, 32, 77, 121, 32, 108, 117,
   99, 107, 121, 32, 110, 117, 109, 98, 101, 114, 32, 105, 115, 32, 52, 50]

/-- Function `apex_string_add(dst, src)`: the number of characters copied and
the object `dst` points to afterwards; `none` is a `NULL` pointer. -/
def apex_string_add (dst : Option apex_string_t) (src : Option (List char8_t)) :
    Nat × Option apex_string_t :=
  match dst, src with
  | some d, some s =>
    let my_length := strnlen d.c_str APEX_STRING_SIZE
    if my_length < APEX_STRING_SIZE - 1 then
      let their_length := strnlen s APEX_STRING_SIZE
      if their_length > 0 then
        let max_copy_size := (APEX_STRING_SIZE - 1) - my_length
        let copy_size := if max_copy_size < their_length then max_copy_size else their_length
        (copy_size,
          some { c_str := (poke d.c_str my_length (s.take copy_size)).set
                   (my_length + copy_size) 0,
                 hsize := by have := d.hsize; simp [poke]; omega })
      else (0, dst)
    else (0, dst)
  | _, _ => (0, dst)

/-- Functions `apex_string_add2` to `apex_string_add10`, which are each the
previous one followed by `apex_string_add` on the last source, the counts
added as `size64_t`: the general step. -/
def apex_string_add_next (previous : Nat × Option apex_string_t)
    (src : Option (List char8_t)) : Nat × Option apex_string_t :=
  ((previous.1 + (apex_string_add previous.2 src).1) % 2 ^ 64,
    (apex_string_add previous.2 src).2)

/-- Function `apex_string_add2(dst, src1, src2)`. -/
def apex_string_add2 (dst : Option apex_string_t) (src1 src2 : Option (List char8_t)) :
    Nat × Option apex_string_t :=
  apex_string_add_next (apex_string_add dst src1) src2

/-- Function `apex_string_add3`. -/
def apex_string_add3 (dst : Option apex_string_t) (src1 src2 src3 : Option (List char8_t)) :
    Nat × Option apex_string_t :=
  apex_string_add_next (apex_string_add2 dst src1 src2) src3

/-- Function `apex_string_add4`. -/
def apex_string_add4 (dst : Option apex_string_t)
    (src1 src2 src3 src4 : Option (List char8_t)) : Nat × Option apex_string_t :=
  apex_string_add_next (apex_string_add3 dst src1 src2 src3) src4

/-- Function `apex_string_add5`. -/
def apex_string_add5 (dst : Option apex_string_t)
    (src1 src2 src3 src4 src5 : Option (List char8_t)) : Nat × Option apex_string_t :=
  apex_string_add_next (apex_string_add4 dst src1 src2 src3 src4) src5

/-- Function `apex_string_add6`. -/
def apex_string_add6 (dst : Option apex_string_t)
    (src1 src2 src3 src4 src5 src6 : Option (List char8_t)) : Nat × Option apex_string_t :=
  apex_string_add_next (apex_string_add5 dst src1 src2 src3 src4 src5) src6

/-- Function `apex_string_add7`. -/
def apex_string_add7 (dst : Option apex_string_t)
    (src1 src2 src3 src4 src5 src6 src7 : Option (List char8_t)) :
    Nat × Option apex_string_t :=
  apex_string_add_next (apex_string_add6 dst src1 src2 src3 src4 src5 src6) src7

/-- Function `apex_string_add8`. -/
def apex_string_add8 (dst : Option apex_string_t)
    (src1 src2 src3 src4 src5 src6 src7 src8 : Option (List char8_t)) :
    Nat × Option apex_string_t :=
  apex_string_add_next (apex_string_add7 dst src1 src2 src3 src4 src5 src6 src7) src8

/-- Function `apex_string_add9`. -/
def apex_string_add9 (dst : Option apex_string_t)
    (src1 src2 src3 src4 src5 src6 src7 src8 src9 : Option (List char8_t)) :
    Nat × Option apex_string_t :=
  apex_string_add_next (apex_string_add8 dst src1 src2 src3 src4 src5 src6 src7 src8) src9

/-- Function `apex_string_add10`. -/
def apex_string_add10 (dst : Option apex_string_t)
    (src1 src2 src3 src4 src5 src6 src7 src8 src9 src10 : Option (List char8_t)) :
    Nat × Option apex_string_t :=
  apex_string_add_next
    (apex_string_add9 dst src1 src2 src3 src4 src5 src6 src7 src8 src9) src10

/-- Sequential appends with `apex_string_add`, one per source: the sum of the
counts they return and the object afterwards. -/
def sequential_adds (dst : Option apex_string_t) (srcs : List (Option (List char8_t))) :
    Nat × Option apex_string_t :=
  srcs.foldl (fun acc src => (acc.1 + (apex_string_add acc.2 src).1,
    (apex_string_add acc.2 src).2)) (0, dst)

/-- The object of type `apex_string_t` as the buffer of a `String<256>` or
`StringStrict<256>` with the same bytes. -/
def apex_string_t.as_string (d : apex_string_t) : BaseString 256 :=
  { m_string := d.c_str, hsize := d.hsize }

/-- The pointer `rhs.c_str()` when `rhs` is the object itself: the start of
its own buffer. -/
def BaseString.c_str_self {N : Nat} (_s : BaseString N) : char_ptr := char_ptr.self 0

/-- Member `String<N>::operator+(const String<LEN> & rhs)`, returning a
`String<N + LEN>`: a copy of this string, then `retval += rhs.c_str()`. -/
def String.operator_plus {N LEN : Nat} (this : BaseString N) (rhs : BaseString LEN) :
    BaseString (N + LEN) :=
  let retval := String.ctor_text (N + LEN) this.c_str
  (String.operator_plus_eq retval rhs.c_str).state

/-- Member `StringStrict<N>::operator+(const StringStrict<LEN> & rhs)`,
returning a `StringStrict<N + LEN>`: a copy of this string, then
`retval += rhs.c_str()`. -/
def StringStrict.operator_plus {N LEN : Nat} (this : BaseString N) (rhs : BaseString LEN) :
    Except Exn (BaseString (N + LEN)) :=
  match StringStrict.ctor_text (N + LEN) this.c_str with
  | Except.error e => Except.error e
  | Except.ok retval =>
    let r := StringStrict.operator_plus_eq retval rhs.c_str
    match r.thrown with
    | some e => Except.error e
    | none => Except.ok r.state

/-- The text `"00"`. -/
def test_00 : List char8_t := [48, 48]

/-- The text `"1"`. -/
def test_1 : List char8_t := [49]

/-- The text `"2562"`. -/
def test_2562 : List char8_t := [50, 53, 54, 50]

/-- The iterator pair `(st.end(), st.begin())` of
`TEST(static_vector, special_constructors)`: reversed, over five elements. -/
def test_reversed : iter_pair Nat := { seq := [234, 25, 235, 53, 24], first := 5, last := 0 }

/-- Member `at(n)` of `std::vector`: `_M_range_check(n)` throws
`std::out_of_range` when `n >= size()`; otherwise the element at `n`. -/
def std_vector.at {α : Type} (v : std_vector α) (n : Nat) : Except Exn α :=
  if h : n ≥ v.size then Except.error Exn.out_of_range
  else Except.ok (v.elems.get ⟨n, Nat.lt_of_not_ge h⟩)

/-- Forwarded member `at(n)`. -/
def static_vector.at {α : Type} (s : static_vector α) (n : Nat) : Except Exn α := s.m_v.at n

/-- Calls `push_back` with each value in turn on the same object, whatever the
previous call did; returns the final state and what each call threw. -/
def static_vector.push_back_each {α : Type} : static_vector α → List α →
    static_vector α × List (Option Exn)
  | s, [] => (s, [])
  | s, x :: xs =>
    let r := s.push_back x
    let rest := static_vector.push_back_each r.state xs
    (rest.1, r.thrown :: rest.2)

/-- The vector `static_vector<int>(0)`, as its constructor leaves it. -/
def test_vector_0 : static_vector Nat :=
  { m_v := { elems := [], cap := 0,
             alloc := { m_size := 0, m_consumed := false, m_alloc := test_platform,
                        requests := [] } } }

/-! ## Floating point to text: the special values

`ieee754_to_s` decides its first branches with `std::isinf`, `std::isnan` and
two comparisons only. The source asserts `is_iec559`, so a value is modelled
by the bit fields of its IEEE-754 encoding, and classification, comparison,
negation and the widening conversion are those of IEEE-754. -/

/-- Type `float64_t` (IEEE-754 binary64): sign bit, 11-bit biased exponent,
52-bit fraction. -/
structure float64_t where
  sign : Bool
  exponent : Nat
  fraction : Nat
  hexponent : exponent < 2048
  hfraction : fraction < 2 ^ 52
deriving DecidableEq

/-- Type `float32_t` (IEEE-754 binary32): sign bit, 8-bit biased exponent,
23-bit fraction. -/
structure float32_t where
  sign : Bool
  exponent : Nat
  fraction : Nat
  hexponent : exponent < 256
  hfraction : fraction < 2 ^ 23
deriving DecidableEq

/-- Function `std::isinf`. -/
def float64_t.isinf (x : float64_t) : Bool := decide (x.exponent = 2047 ∧ x.fraction = 0)

/-- Function `std::isnan`. -/
def float64_t.isnan (x : float64_t) : Bool := decide (x.exponent = 2047 ∧ x.fraction ≠ 0)

/-- Position of a value that is not a NaN in the order of the numbers: the
encoding without the sign bit, read as an integer, with the sign applied.
Both zeros are at position zero. -/
def float64_t.ordinal (x : float64_t) : Int :=
  if x.sign then -((x.exponent * 2 ^ 52 + x.fraction : Nat) : Int)
  else ((x.exponent * 2 ^ 52 + x.fraction : Nat) : Int)

/-- Comparison `x < y`: false when an operand is a NaN. -/
def float64_t.lt (x y : float64_t) : Bool :=
  !x.isnan && !y.isnan && decide (x.ordinal < y.ordinal)

/-- Unary minus: flips the sign bit. -/
def float64_t.neg (x : float64_t) : float64_t := { x with sign := !x.sign }

/-- The literal `0.0`. -/
def float64_zero : float64_t :=
  { sign := false, exponent := 0, fraction := 0, hexponent := by decide, hfraction := by decide }

/-- Conversion `static_cast<float64_t>(x)` of a `float32_t`; it is exact. An
infinity and a zero keep their sign, a NaN stays a NaN (made quiet), a
subnormal number becomes a normal one. -/
def float32_t.to_float64 (x : float32_t) : float64_t :=
  if x.exponent = 255 then
    if x.fraction = 0 then
      { sign := x.sign, exponent := 2047, fraction := 0,
        hexponent := by decide, hfraction := by decide }
    else
      { sign := x.sign, exponent := 2047,
        fraction := (x.fraction * 2 ^ 29 % 2 ^ 51 + 2 ^ 51) % 2 ^ 52,
        hexponent := by decide, hfraction := Nat.mod_lt _ (by decide) }
  else if x.exponent = 0 then
    if x.fraction = 0 then
      { sign := x.sign, exponent := 0, fraction := 0,
        hexponent := by decide, hfraction := by decide }
    else
      { sign := x.sign, exponent := (Nat.log2 x.fraction + 874) % 2048,
        fraction := x.fraction * 2 ^ (52 - Nat.log2 x.fraction) % 2 ^ 52,
        hexponent := Nat.mod_lt _ (by decide), hfraction := Nat.mod_lt _ (by decide) }
  else
    { sign := x.sign, exponent := (x.exponent + 896) % 2048,
      fraction := x.fraction * 2 ^ 29 % 2 ^ 52,
      hexponent := Nat.mod_lt _ (by decide), hfraction := Nat.mod_lt _ (by decide) }

/-- Conversion `static_cast<float64_t>(x)` of a `float64_t`. -/
def float64_t.to_float64 (x : float64_t) : float64_t := x

/-- Value `std::numeric_limits<float32_t>::denorm_min()`. -/
def denorm_min_float32 : float32_t :=
  { sign := false, exponent := 0, fraction := 1, hexponent := by decide, hfraction := by decide }

/-- Value `std::numeric_limits<float64_t>::denorm_min()`. -/
def denorm_min_float64 : float64_t :=
  { sign := false, exponent := 0, fraction := 1, hexponent := by decide, hfraction := by decide }

/-- The text `"-inf"`. -/
def text_minus_inf : List char8_t := [45, 105, 110, 102]

/-- The text `"inf"`. -/
def text_inf : List char8_t := [105, 110, 102]

/-- The text `"nan"`. -/
def text_nan : List char8_t := [110, 97, 110]

/-- Function template `ieee754_to_s<STR_TYPE, POS_AFTER_DP, VAL_TYPE>` for
`STR_TYPE = String<N>`. The last branch (steps 3 to 10 of the source, which
go through `std::log10`, `std::pow` and floating-point division) is not
modelled: `scientific retval value` stands for the string it leaves, given
the string so far and the value, then at least `denorm_min`. -/
def ieee754_to_s {VAL_TYPE : Type} (N : Nat) (to_float64 : VAL_TYPE → float64_t)
    (denorm_min : VAL_TYPE) (scientific : BaseString N → float64_t → BaseString N)
    (denom_value : VAL_TYPE) : BaseString N :=
  let value := to_float64 denom_value
  let retval := BaseString.ctor N
  if value.isinf && value.lt float64_zero then
    (String.operator_assign retval (char_ptr.ext text_minus_inf)).state
  else if value.isinf then
    (String.operator_assign retval (char_ptr.ext text_inf)).state
  else if value.isnan then
    (String.operator_assign retval (char_ptr.ext text_nan)).state
  else
    let negative := value.lt float64_zero
    let retval1 :=
      if negative then (String.operator_plus_eq retval (char_ptr.ext [45])).state else retval
    let value1 := if negative then value.neg else value
    if value1.lt (to_float64 denorm_min) then
      (String.operator_plus_eq retval1 (char_ptr.ext [48])).state
    else scientific retval1 value1

/-- Function `apex::to_string(const float32_t value)`, returning `string16_t`. -/
def to_string_float32 (scientific : BaseString 16 → float64_t → BaseString 16)
    (value : float32_t) : BaseString 16 :=
  (String.operator_assign (BaseString.ctor 16)
    (ieee754_to_s 16 float32_t.to_float64 denorm_min_float32 scientific value).c_str).state

/-- Function `apex::to_string(const float64_t value)`, returning `string32_t`. -/
def to_string_float64 (scientific : BaseString 32 → float64_t → BaseString 32)
    (value : float64_t) : BaseString 32 :=
  (String.operator_assign (BaseString.ctor 32)
    (ieee754_to_s 32 float64_t.to_float64 denorm_min_float64 scientific value).c_str).state

/-- The value `-std::numeric_limits<float32_t>::quiet_NaN()` of the tests. -/
def test_minus_nan32 : float32_t :=
  { sign := true, exponent := 255, fraction := 4194304,
    hexponent := by decide, hfraction := by decide }

/-- The value `-std::numeric_limits<double>::quiet_NaN()` of the tests. -/
def test_minus_nan64 : float64_t :=
  { sign := true, exponent := 2047, fraction := 2251799813685248,
    hexponent := by decide, hfraction := by decide }

/-- The value `-0.0F`. -/
def test_minus_zero32 : float32_t :=
  { sign := true, exponent := 0, fraction := 0, hexponent := by decide, hfraction := by decide }

/-- The value `-0.0`. -/
def test_minus_zero64 : float64_t :=
  { sign := true, exponent := 0, fraction := 0, hexponent := by decide, hfraction := by decide }

/-- The implicitly-declared copy assignment
`StringStrict::operator=(const StringStrict &)`. `StringStrict` declares
assignment from a `BaseString`, from a text and from an `apex_string_t`
only, so `s = t` for two `StringStrict<N>` objects selects this operator:
the buffer of `rhs` is copied member by member. It does not throw. -/
def StringStrict.operator_assign_copy {N : Nat} (_this rhs : BaseString N) :
    Outcome (BaseString N) :=
  { state := { m_string := rhs.m_string, hsize := rhs.hsize }, thrown := none }

/-- The vector `static_vector<int>(2)` of `TEST(static_vector, copy_assignment)`,
holding `xs`. -/
def test_vector_2 (xs : List Nat) : static_vector Nat :=
  { m_v := { elems := xs, cap := 2,
             alloc := { m_size := 2, m_consumed := true, m_alloc := test_platform,
                        requests := [2] } } }

/-- The text `"hello"` of the string tests, as bytes. -/
def test_hello : List char8_t := [104, 101, 108, 108, 111]

/-- The text `"abc"`, as bytes. -/
def test_abc : List char8_t := [97, 98, 99]

/-- The text `"123"` of the string tests, as bytes. -/
def test_123 : List char8_t := [49, 50, 51]

/-- The text `"12"`, as bytes. -/
def test_12 : List char8_t := [49, 50]

/-! # Properties -/

/-! ## `single_allocator` -/

theorem single_allocator.allocate_thrown (a : single_allocator) (n : Nat) :
    (a.allocate n).thrown = none ∨ (a.allocate n).thrown = some Exn.bad_alloc := by
  unfold single_allocator.allocate base_type.allocate
  by_cases h : n ≠ a.m_size ∨ a.m_consumed = true
  · simp [h]
  · by_cases g : n ≤ a.m_alloc.max_size ∧ n ≤ a.m_alloc.avail <;> simp [h, g]

theorem single_allocator.allocate_success_iff (a : single_allocator) (n : Nat) :
    (a.allocate n).thrown = none ↔
      n = a.m_size ∧ a.m_consumed = false ∧ a.m_alloc.allocate n = none := by
  unfold single_allocator.allocate
  by_cases h : n ≠ a.m_size ∨ a.m_consumed = true
  · simp only [h, if_true]
    constructor
    · intro c; cases c
    · rintro ⟨h1, h2, -⟩
      rcases h with h | h
      · exact absurd h1 h
      · rw [h2] at h; cases h
  · simp only [h, if_false]
    have h1 : n = a.m_size := by by_contra c; exact h (Or.inl c)
    have h2 : a.m_consumed = false := by
      cases hc : a.m_consumed
      · rfl
      · exact absurd (Or.inr hc) h
    cases g : a.m_alloc.allocate n <;> simp [h1, h2, g]

theorem single_allocator.allocate_state (a : single_allocator) (n : Nat) :
    (a.allocate n).state.m_size = a.m_size ∧ (a.allocate n).state.m_alloc = a.m_alloc ∧
    (a.allocate n).state.requests = a.requests ++ [n] ∧
    ((a.allocate n).thrown = none → (a.allocate n).state.m_consumed = true) ∧
    ((a.allocate n).thrown ≠ none → (a.allocate n).state.m_consumed = a.m_consumed) := by
  unfold single_allocator.allocate
  by_cases h : n ≠ a.m_size ∨ a.m_consumed = true
  · simp [h]
  · cases g : a.m_alloc.allocate n <;> simp [h, g]

theorem single_allocator.run_consumed (cs : List AllocCall) (a : single_allocator)
    (h : a.m_consumed = true) :
    (a.run cs).1.m_consumed = true ∧ ∀ r ∈ (a.run cs).2, r = some Exn.bad_alloc := by
  induction cs generalizing a with
  | nil => simp [single_allocator.run, h]
  | cons c cs ih =>
    cases c with
    | allocate n =>
      have hfail : (a.allocate n).thrown ≠ none := by
        intro hs
        have := ((single_allocator.allocate_success_iff a n).1 hs).2.1
        rw [h] at this; cases this
      have hthrown : (a.allocate n).thrown = some Exn.bad_alloc := by
        rcases single_allocator.allocate_thrown a n with h1 | h1
        · exact absurd h1 hfail
        · exact h1
      have hst : (a.allocate n).state.m_consumed = true := by
        rw [(single_allocator.allocate_state a n).2.2.2.2 hfail]; exact h
      have := ih (a.allocate n).state hst
      simp only [single_allocator.run, List.mem_cons]
      refine ⟨this.1, ?_⟩
      intro r hr
      rcases hr with hr | hr
      · rw [hr]; exact hthrown
      · exact this.2 r hr
    | deallocate n =>
      simpa [single_allocator.run, single_allocator.deallocate] using ih a h

theorem single_allocator.run_count (cs : List AllocCall) (a : single_allocator) :
    (a.run cs).2.count none ≤ 1 := by
  induction cs generalizing a with
  | nil => simp [single_allocator.run]
  | cons c cs ih =>
    cases c with
    | allocate n =>
      simp only [single_allocator.run]
      cases hs : (a.allocate n).thrown with
      | none =>
        have hst := (single_allocator.allocate_state a n).2.2.2.1 hs
        have hall := (single_allocator.run_consumed cs _ hst).2
        have h0 : ((a.allocate n).state.run cs).2.count none = 0 := by
          rw [List.count_eq_zero]
          intro hmem
          have := hall none hmem
          cases this
        simp [h0]
      | some e =>
        have := ih (a.allocate n).state
        simpa using this
    | deallocate n =>
      simpa [single_allocator.run, single_allocator.deallocate] using ih a

theorem single_allocator.run_history (cs : List AllocCall) (a : single_allocator) :
    (a.run cs).1.m_size = a.m_size ∧ (a.run cs).1.m_alloc = a.m_alloc ∧
    ((a.run cs).1.m_consumed = true ↔ (a.m_consumed = true ∨ none ∈ (a.run cs).2)) := by
  induction cs generalizing a with
  | nil => simp [single_allocator.run]
  | cons c cs ih =>
    cases c with
    | allocate n =>
      have hst := single_allocator.allocate_state a n
      have h := ih (a.allocate n).state
      simp only [single_allocator.run, List.mem_cons]
      refine ⟨by rw [h.1, hst.1], by rw [h.2.1, hst.2.1], ?_⟩
      rw [h.2.2]
      cases hs : (a.allocate n).thrown with
      | none =>
        have hc := hst.2.2.2.1 hs
        simp [hc]
      | some e =>
        have hc := hst.2.2.2.2 (by rw [hs]; simp)
        rw [hc]
        simp
    | deallocate n =>
      simpa [single_allocator.run, single_allocator.deallocate] using ih a

/-- C1. `single_allocator::allocate(n)` can only succeed when `n` equals the
declared capacity and no earlier allocation succeeded, and it does succeed
then whenever the delegate `std::allocator` provides the block; every failure
is `std::bad_alloc` and leaves the declared capacity and the consumed flag as
they were; a success sets the consumed flag. The last part states the same
over the history of an instance: after any calls `cs` on an allocator
constructed for `cap` elements, `allocate(n)` succeeds exactly when `n` is
`cap` and no `allocate` of `cs` succeeded. -/
theorem single_allocator.allocate_contract (a : single_allocator) (n : Nat) :
    ((a.allocate n).thrown = none → n = a.m_size ∧ a.m_consumed = false) ∧
    (a.m_alloc.allocate a.m_size = none →
      ((a.allocate n).thrown = none ↔ n = a.m_size ∧ a.m_consumed = false)) ∧
    ((a.allocate n).thrown ≠ none →
      (a.allocate n).thrown = some Exn.bad_alloc ∧
      (a.allocate n).state.m_size = a.m_size ∧
      (a.allocate n).state.m_consumed = a.m_consumed ∧
      (a.allocate n).state.m_alloc = a.m_alloc) ∧
    ((a.allocate n).thrown = none →
      (a.allocate n).state.m_consumed = true ∧ (a.allocate n).state.m_size = a.m_size) ∧
    (∀ (m_alloc : base_type) (cap : Nat) (cs : List AllocCall),
      single_allocator.ctor m_alloc cap = Except.ok a → m_alloc.allocate cap = none →
      (((a.run cs).1.allocate n).thrown = none ↔ n = cap ∧ none ∉ (a.run cs).2)) := by
  have hiff := single_allocator.allocate_success_iff a n
  have hst := single_allocator.allocate_state a n
  refine ⟨fun hs => ⟨(hiff.1 hs).1, (hiff.1 hs).2.1⟩, ?_, ?_,
    fun hs => ⟨hst.2.2.2.1 hs, hst.1⟩, ?_⟩
  · intro hmem
    constructor
    · intro hs; exact ⟨(hiff.1 hs).1, (hiff.1 hs).2.1⟩
    · rintro ⟨h1, h2⟩
      exact hiff.2 ⟨h1, h2, by rw [h1]; exact hmem⟩
  · intro hf
    refine ⟨?_, hst.1, hst.2.2.2.2 hf, hst.2.1⟩
    rcases single_allocator.allocate_thrown a n with h1 | h1
    · exact absurd h1 hf
    · exact h1
  · intro m_alloc cap cs hctor hmem
    unfold single_allocator.ctor at hctor
    split at hctor
    · cases hctor
    · simp only [Except.ok.injEq] at hctor
      have hrun := single_allocator.run_history cs a
      have hsz : a.m_size = cap := by rw [← hctor]
      have hal : a.m_alloc = m_alloc := by rw [← hctor]
      have hco : a.m_consumed = false := by rw [← hctor]
      rw [single_allocator.allocate_success_iff, hrun.1, hrun.2.1, hsz, hal]
      have hflag : (a.run cs).1.m_consumed = false ↔ none ∉ (a.run cs).2 := by
        have h := hrun.2.2
        rw [hco] at h
        cases hc : (a.run cs).1.m_consumed
        · rw [hc] at h
          simp only [Bool.false_eq_true, false_or, false_iff] at h
          simp [h]
        · rw [hc] at h
          simp only [Bool.false_eq_true, false_or, true_iff] at h
          simp [h]
      rw [hflag]
      constructor
      · rintro ⟨h1, h2, -⟩; exact ⟨h1, h2⟩
      · rintro ⟨h1, h2⟩; exact ⟨h1, h2, by rw [h1]; exact hmem⟩

/-- Witness for C1: an allocator declared for three elements on a platform that
can provide them grants exactly the request for three, and after an
`allocate`, `deallocate` history it grants nothing. -/
theorem single_allocator.allocate_contract_witness :
    base_type.allocate test_platform 3 = none ∧
    ((single_allocator.allocate
        { m_size := 3, m_consumed := false, m_alloc := test_platform, requests := [] }
        3).thrown = none ↔ 3 = 3 ∧ false = false) ∧
    (((single_allocator.run
        { m_size := 3, m_consumed := false, m_alloc := test_platform, requests := [] }
        [AllocCall.allocate 3, AllocCall.deallocate 3]).1.allocate 3).thrown = none ↔
      3 = 3 ∧ none ∉ (single_allocator.run
        { m_size := 3, m_consumed := false, m_alloc := test_platform, requests := [] }
        [AllocCall.allocate 3, AllocCall.deallocate 3]).2) :=
  ⟨by decide,
   (single_allocator.allocate_contract
      { m_size := 3, m_consumed := false, m_alloc := test_platform, requests := [] }
      3).2.1 (by decide),
   (single_allocator.allocate_contract
      { m_size := 3, m_consumed := false, m_alloc := test_platform, requests := [] }
      3).2.2.2.2 test_platform 3 [AllocCall.allocate 3, AllocCall.deallocate 3] rfl
      (by decide)⟩

/-- C2. In every sequence of `allocate` and `deallocate` calls on one
`single_allocator` at most one `allocate` succeeds; `deallocate` leaves the
consumed flag alone, and after a successful `allocate` every later one throws
`std::bad_alloc`, whatever calls come in between. -/
theorem single_allocator.one_shot (a : single_allocator) (cs : List AllocCall) :
    (a.run cs).2.count none ≤ 1 ∧
    (∀ n, (a.deallocate n).m_consumed = a.m_consumed) ∧
    (∀ (pre post : List AllocCall) (n : Nat),
      cs = pre ++ AllocCall.allocate n :: post →
      ((a.run pre).1.allocate n).thrown = none →
      ∀ r ∈ (((a.run pre).1.allocate n).state.run post).2, r = some Exn.bad_alloc) := by
  refine ⟨single_allocator.run_count cs a, fun n => rfl, ?_⟩
  intro pre post n _ hs
  exact (single_allocator.run_consumed post _
    ((single_allocator.allocate_state _ n).2.2.2.1 hs)).2

/-- Witness for C2: allocate, deallocate, allocate again on an allocator for
three elements; the second `allocate` throws `std::bad_alloc`. -/
theorem single_allocator.one_shot_witness :
    (single_allocator.run
        { m_size := 3, m_consumed := false, m_alloc := { max_size := 10, avail := 10 },
          requests := [] }
        [AllocCall.allocate 3, AllocCall.deallocate 3, AllocCall.allocate 3]).2
      = [none, some Exn.bad_alloc] ∧
    (some Exn.bad_alloc : Option Exn) = some Exn.bad_alloc :=
  ⟨by decide,
   (single_allocator.one_shot
      { m_size := 3, m_consumed := false, m_alloc := { max_size := 10, avail := 10 },
        requests := [] }
      [AllocCall.allocate 3, AllocCall.deallocate 3, AllocCall.allocate 3]).2.2
    [] [AllocCall.deallocate 3, AllocCall.allocate 3] 3 rfl (by decide)
    (some Exn.bad_alloc) (by decide)⟩

/-! ## Fixed-buffer strings -/

theorem c_text_ne_zero (t : List char8_t) : ∀ c ∈ c_text t, (c != 0) = true := by
  intro c hc
  unfold c_text at hc
  exact List.mem_takeWhile_imp (p := fun c => c != 0) hc

theorem strnlen_eq_min (t : List char8_t) (m : Nat) : strnlen t m = min m (strlen t) := by
  unfold strnlen strlen
  rw [← List.take_takeWhile, List.length_take]

theorem strnlen_le (t : List char8_t) (m : Nat) : strnlen t m ≤ m := by
  rw [strnlen_eq_min]; omega

theorem strlen_le_length (t : List char8_t) : strlen t ≤ t.length := by
  unfold strlen
  have h := congrArg List.length (List.takeWhile_append_dropWhile (fun c => c != 0) t)
  rw [List.length_append] at h
  omega

theorem take_strlen (t : List char8_t) : t.take (strlen t) = c_text t := by
  unfold strlen c_text
  have h := List.takeWhile_append_dropWhile (fun c => c != 0) t
  have h2 : (t.takeWhile (fun c => c != 0) ++ t.dropWhile (fun c => c != 0)).take
      (t.takeWhile (fun c => c != 0)).length = t.takeWhile (fun c => c != 0) :=
    List.take_left' rfl
  rwa [h] at h2

theorem take_strnlen (t : List char8_t) (m : Nat) : t.take (strnlen t m) = (c_text t).take m := by
  rw [strnlen_eq_min, ← List.take_take, take_strlen]

theorem take_le_strlen (t : List char8_t) (n : Nat) (h : n ≤ strlen t) :
    t.take n = (c_text t).take n := by
  rw [← take_strlen, List.take_take, Nat.min_eq_left h]

theorem strnlen_append (p q : List char8_t) (m : Nat) (hp : ∀ c ∈ p, (c != 0) = true) :
    strnlen (p ++ q) m = min m p.length + strnlen q (m - p.length) := by
  unfold strnlen
  rw [List.take_append_eq_append_take, List.takeWhile_append_of_pos, List.length_append,
    List.length_take]
  intro c hc
  exact hp c (List.mem_of_mem_take hc)

theorem strnlen_zero_cons (q : List char8_t) (m : Nat) : strnlen (0 :: q) m = 0 := by
  unfold strnlen
  cases m <;> simp

theorem poke_eq (buf : List char8_t) (off : Nat) (bytes : List char8_t)
    (h : off + bytes.length ≤ buf.length) :
    poke buf off bytes = buf.take off ++ bytes ++ buf.drop (off + bytes.length) := by
  unfold poke
  have h1 : bytes.take (buf.length - off) = bytes := List.take_of_length_le (by omega)
  rw [h1]

theorem poke_terminate (buf : List char8_t) (off : Nat) (bytes : List char8_t)
    (h : off + bytes.length < buf.length) :
    (poke buf off bytes).set (off + bytes.length) 0 =
      buf.take off ++ bytes ++ 0 :: buf.drop (off + bytes.length + 1) := by
  rw [poke_eq buf off bytes (by omega), List.set_eq_take_append_cons_drop]
  have hl : (buf.take off ++ bytes).length = off + bytes.length := by
    rw [List.length_append, List.length_take]; omega
  have hlen : off + bytes.length <
      (buf.take off ++ bytes ++ buf.drop (off + bytes.length)).length := by
    rw [List.length_append, hl, List.length_drop]; omega
  rw [if_pos hlen]
  congr 1
  · exact List.take_left' hl
  · congr 1
    have hd : (buf.take off ++ bytes ++ buf.drop (off + bytes.length)).drop (off + bytes.length)
        = buf.drop (off + bytes.length) := List.drop_left' hl
    rw [← List.drop_drop, hd, List.drop_drop]

theorem poke_getElem?_of_le (buf : List char8_t) (off : Nat) (bytes : List char8_t) (i : Nat)
    (h : off + bytes.length ≤ i) : (poke buf off bytes)[i]? = buf[i]? := by
  unfold poke
  by_cases hi : i < buf.length
  · have h1 : (buf.take off).length = off := by rw [List.length_take]; omega
    have h2 : (bytes.take (buf.length - off)).length = bytes.length := by
      rw [List.length_take]; omega
    rw [List.getElem?_append_right (by rw [List.length_append, h1, h2]; omega),
      List.getElem?_drop, List.length_append, h1, h2]
    congr 1
    omega
  · have hlen : (buf.take off ++ bytes.take (buf.length - off) ++
        buf.drop (off + bytes.length)).length ≤ i := by
      simp only [List.length_append, List.length_take, List.length_drop]
      omega
    rw [List.getElem?_eq_none hlen, List.getElem?_eq_none (by omega)]

theorem BaseString.length_le {N : Nat} (s : BaseString N) : s.length ≤ N - 1 := by
  unfold BaseString.length BaseString.size BaseString.capacity BaseString.get_buffer_size
  exact strnlen_le _ _

theorem BaseString.text_eq {N : Nat} (s : BaseString N) :
    s.text = (c_text s.m_string).take (N - 1) := by
  unfold BaseString.text BaseString.length BaseString.size BaseString.capacity
    BaseString.get_buffer_size
  exact take_strnlen _ _

theorem BaseString.text_ne_zero {N : Nat} (s : BaseString N) :
    ∀ c ∈ s.text, (c != 0) = true := by
  intro c hc
  rw [BaseString.text_eq] at hc
  exact c_text_ne_zero _ c (List.mem_of_mem_take hc)

theorem BaseString.length_text {N : Nat} (s : BaseString N) : s.text.length = s.length := by
  unfold BaseString.text
  rw [List.length_take]
  have h1 := s.length_le
  have h2 := s.hsize
  omega

/-- The effect of copying `n` non-zero bytes behind the content and storing
the terminator after them. -/
theorem BaseString.append_result {N : Nat} (s : BaseString N) (src : List char8_t) (n : Nat)
    (hn : n ≤ src.length) (hnz : ∀ c ∈ src.take n, (c != 0) = true)
    (hfit : s.length + n < N) :
    ((s.memmove s.length src n).store (s.length + n) 0).m_string =
        s.text ++ src.take n ++ 0 :: s.m_string.drop (s.length + n + 1) ∧
    ((s.memmove s.length src n).store (s.length + n) 0).length = s.length + n ∧
    ((s.memmove s.length src n).store (s.length + n) 0).text = s.text ++ src.take n := by
  have hlen : (src.take n).length = n := by rw [List.length_take]; omega
  have hbuf : ((s.memmove s.length src n).store (s.length + n) 0).m_string =
      s.text ++ src.take n ++ 0 :: s.m_string.drop (s.length + n + 1) := by
    have h := poke_terminate s.m_string s.length (src.take n)
      (by rw [hlen, s.hsize]; exact hfit)
    rw [hlen] at h
    simpa [BaseString.store, BaseString.memmove, BaseString.text] using h
  have hp : ∀ c ∈ s.text ++ src.take n, (c != 0) = true := by
    intro c hc
    rcases List.mem_append.1 hc with h | h
    · exact s.text_ne_zero c h
    · exact hnz c h
  have hpl : (s.text ++ src.take n).length = s.length + n := by
    rw [List.length_append, s.length_text, hlen]
  have hl : ((s.memmove s.length src n).store (s.length + n) 0).length = s.length + n := by
    have hdef : ((s.memmove s.length src n).store (s.length + n) 0).length =
        strnlen ((s.memmove s.length src n).store (s.length + n) 0).m_string (N - 1) := rfl
    rw [hdef, hbuf, strnlen_append _ _ _ hp, strnlen_zero_cons, hpl]
    omega
  refine ⟨hbuf, hl, ?_⟩
  unfold BaseString.text
  rw [hl, hbuf, ← hpl]
  exact List.take_left' rfl

theorem BaseString.ext_m_string {N : Nat} (a b : BaseString N) (h : a.m_string = b.m_string) :
    a = b := by
  cases a; cases b; cases h; rfl

theorem BaseString.memset_zero_all {N : Nat} (s : BaseString N) :
    s.memset 0 s.get_buffer_size = BaseString.ctor N := by
  apply BaseString.ext_m_string
  have h := s.hsize
  simp [BaseString.memset, BaseString.ctor, BaseString.get_buffer_size, poke, h]

theorem strlen_getElem? (t : List char8_t) (h : strlen t < t.length) :
    t[strlen t]? = some 0 := by
  induction t with
  | nil => simp at h
  | cons c r ih =>
    by_cases hc : c = 0
    · subst hc
      simp [strlen]
    · have hb : (c != 0) = true := by simpa using hc
      have hs : strlen (c :: r) = strlen r + 1 := by
        simp [strlen, List.takeWhile_cons, hb]
      rw [hs] at h ⊢
      simp only [List.length_cons, Nat.add_lt_add_iff_right] at h
      simpa using ih h

theorem BaseString.terminated_of_last {N : Nat} (hN : 0 < N) (s : BaseString N)
    (h : s.m_string[N - 1]? = some 0) : s.terminated := by
  refine ⟨s.length_le, ?_, h⟩
  have hl : s.length = min (N - 1) (strlen s.m_string) := strnlen_eq_min _ _
  by_cases hc : strlen s.m_string < N - 1
  · have : s.length = strlen s.m_string := by omega
    rw [this]
    exact strlen_getElem? _ (by rw [s.hsize]; omega)
  · have : s.length = N - 1 := by omega
    rw [this]
    exact h

theorem BaseString.last_ctor {N : Nat} (hN : 0 < N) :
    (BaseString.ctor N).m_string[N - 1]? = some 0 := by
  simp [BaseString.ctor, List.getElem?_replicate, hN]

theorem BaseString.last_memset {N : Nat} (s : BaseString N) (c : char8_t) (n : Nat)
    (h : n ≤ N - 1) (hz : s.m_string[N - 1]? = some 0) :
    (s.memset c n).m_string[N - 1]? = some 0 := by
  have := poke_getElem?_of_le s.m_string 0 (List.replicate n c) (N - 1) (by simpa using h)
  simpa [BaseString.memset, hz] using this

theorem BaseString.last_append {N : Nat} (hN : 0 < N) (s : BaseString N) (off n : Nat)
    (src : List char8_t) (h : off + n ≤ N - 1) (hz : s.m_string[N - 1]? = some 0) :
    ((s.memmove off src n).store (off + n) 0).m_string[N - 1]? = some 0 := by
  have hlen := (s.memmove off src n).hsize
  simp only [BaseString.store, List.getElem?_set, hlen]
  by_cases he : off + n = N - 1
  · rw [if_pos he, if_pos (by omega)]
  · rw [if_neg he]
    have := poke_getElem?_of_le s.m_string off (src.take n) (N - 1)
      (by rw [List.length_take]; omega)
    simpa [BaseString.memmove, hz] using this

theorem BaseString.last_store_chr {N : Nat} (hN : 0 < N) (s : BaseString N) (i : Nat)
    (c : char8_t) (h : i + 1 ≤ N - 1) (hz : s.m_string[N - 1]? = some 0) :
    ((s.store i c).store (i + 1) 0).m_string[N - 1]? = some 0 := by
  have hlen := (s.store i c).hsize
  simp only [BaseString.store, List.getElem?_set, s.hsize] at hlen ⊢
  by_cases he : i + 1 = N - 1
  · rw [if_pos he, if_pos (by rw [List.length_set, s.hsize]; omega)]
  · rw [if_neg he, if_neg (by omega)]
    exact hz

theorem String.silent_append_last {N : Nat} (hN : 0 < N) (s : BaseString N) (src : char_ptr)
    (hz : s.m_string[N - 1]? = some 0) :
    (String.operator_plus_eq s src).state.m_string[N - 1]? = some 0 := by
  unfold String.operator_plus_eq
  cases src.deref s with
  | none => exact hz
  | some t =>
    simp only [BaseString.capacity, BaseString.get_buffer_size]
    split
    · split
      · apply BaseString.last_append hN s _ _ _ _ hz
        split <;> omega
      · exact hz
    · exact hz

theorem String.silent_append_chr_last {N : Nat} (hN : 0 < N) (s : BaseString N)
    (chr : char8_t) (hz : s.m_string[N - 1]? = some 0) :
    (String.operator_plus_eq_chr s chr).state.m_string[N - 1]? = some 0 := by
  unfold String.operator_plus_eq_chr
  simp only [BaseString.capacity, BaseString.get_buffer_size]
  split
  · exact BaseString.last_store_chr hN s _ _ (by omega) hz
  · exact hz

theorem StringStrict.strict_append_last {N : Nat} (hN : 0 < N) (s : BaseString N)
    (src : char_ptr) (hz : s.m_string[N - 1]? = some 0) :
    (StringStrict.operator_plus_eq s src).state.m_string[N - 1]? = some 0 := by
  unfold StringStrict.operator_plus_eq
  cases src.deref s with
  | none => exact hz
  | some t =>
    simp only [BaseString.get_buffer_size]
    split
    · exact BaseString.last_append hN s _ _ _ (by omega) hz
    · exact hz

theorem StringStrict.strict_append_chr_last {N : Nat} (hN : 0 < N) (s : BaseString N)
    (chr : char8_t) (hz : s.m_string[N - 1]? = some 0) :
    (StringStrict.operator_plus_eq_chr s chr).state.m_string[N - 1]? = some 0 := by
  unfold StringStrict.operator_plus_eq_chr
  simp only [BaseString.get_buffer_size]
  split
  · exact BaseString.last_store_chr hN s _ _ (by omega) hz
  · exact hz

theorem String.silent_call_last {N : Nat} (hN : 0 < N) (s : BaseString N) (c : StrCall)
    (hz : s.m_string[N - 1]? = some 0) :
    (String.call s c).state.m_string[N - 1]? = some 0 := by
  cases c with
  | append src => exact String.silent_append_last hN s src hz
  | append_chr chr => exact String.silent_append_chr_last hN s chr hz
  | assign src =>
    simp only [String.call, String.operator_assign, BaseString.memset_zero_all]
    exact String.silent_append_last hN _ src (BaseString.last_ctor hN)
  | clear =>
    simp only [String.call, BaseString.clear, BaseString.memset_zero_all]
    exact BaseString.last_ctor hN

theorem StringStrict.strict_call_last {N : Nat} (hN : 0 < N) (s : BaseString N) (c : StrCall)
    (hz : s.m_string[N - 1]? = some 0) :
    (StringStrict.call s c).state.m_string[N - 1]? = some 0 := by
  cases c with
  | append src => exact StringStrict.strict_append_last hN s src hz
  | append_chr chr => exact StringStrict.strict_append_chr_last hN s chr hz
  | assign src =>
    simp only [StringStrict.call, StringStrict.operator_assign, BaseString.memset_zero_all]
    exact StringStrict.strict_append_last hN _ src (BaseString.last_ctor hN)
  | clear =>
    simp only [StringStrict.call, BaseString.clear, BaseString.memset_zero_all]
    exact BaseString.last_ctor hN

theorem String.silent_run_last {N : Nat} (hN : 0 < N) (calls : List StrCall) (s : BaseString N)
    (hz : s.m_string[N - 1]? = some 0) :
    (String.run s calls).m_string[N - 1]? = some 0 := by
  induction calls generalizing s with
  | nil => exact hz
  | cons c cs ih => exact ih _ (String.silent_call_last hN s c hz)

theorem StringStrict.strict_run_last {N : Nat} (hN : 0 < N) (calls : List StrCall) (s : BaseString N)
    (hz : s.m_string[N - 1]? = some 0) :
    (StringStrict.run s calls).m_string[N - 1]? = some 0 := by
  induction calls generalizing s with
  | nil => exact hz
  | cons c cs ih => exact ih _ (StringStrict.strict_call_last hN s c hz)

theorem String.silent_construct_last {N : Nat} (hN : 0 < N) (k : StrCtor) :
    (String.construct N k).m_string[N - 1]? = some 0 := by
  cases k with
  | default => exact BaseString.last_ctor hN
  | fill n c =>
    simp only [String.construct, String.ctor_fill, BaseString.capacity,
      BaseString.get_buffer_size]
    exact BaseString.last_memset _ c _ (by split <;> omega) (BaseString.last_ctor hN)
  | text str => exact String.silent_append_last hN _ str (BaseString.last_ctor hN)

theorem StringStrict.strict_construct_last {N : Nat} (hN : 0 < N) (k : StrCtor) (s : BaseString N)
    (h : StringStrict.construct N k = Except.ok s) : s.m_string[N - 1]? = some 0 := by
  cases k with
  | default =>
    simp only [StringStrict.construct, Except.ok.injEq] at h
    rw [← h]; exact BaseString.last_ctor hN
  | fill n c =>
    simp only [StringStrict.construct, StringStrict.ctor_fill, BaseString.capacity,
      BaseString.get_buffer_size] at h
    split at h
    · cases h
    · simp only [Except.ok.injEq] at h
      rw [← h]
      exact BaseString.last_memset _ c _ (by split <;> omega) (BaseString.last_ctor hN)
  | text str =>
    simp only [StringStrict.construct, StringStrict.ctor_text] at h
    split at h
    · cases h
    · simp only [Except.ok.injEq] at h
      rw [← h]
      exact StringStrict.strict_append_last hN _ str (BaseString.last_ctor hN)

/-- C3. `StringStrict<N>::operator+=(src)`: a null `src` throws
`std::invalid_argument`; otherwise `std::overflow_error` is thrown exactly when
the current length plus the length of `src` (measured up to `N` bytes, or
in full: the two agree on this) is more than `N - 1`; a throwing call leaves
the object as it was; a returning call leaves the old content followed by all
of `src`. -/
theorem StringStrict.strict_append_spec {N : Nat} (hN : 0 < N) (s : BaseString N)
    (src : char_ptr) :
    (src.deref s = none →
      StringStrict.operator_plus_eq s src =
        { state := s, thrown := some Exn.invalid_argument }) ∧
    (∀ t, src.deref s = some t →
      ((StringStrict.operator_plus_eq s src).thrown = some Exn.overflow_error ↔
        s.length + strnlen t N > N - 1) ∧
      (s.length + strnlen t N > N - 1 ↔ s.length + strlen t > N - 1) ∧
      (s.length + strnlen t N > N - 1 →
        StringStrict.operator_plus_eq s src =
          { state := s, thrown := some Exn.overflow_error }) ∧
      (¬ s.length + strnlen t N > N - 1 →
        (StringStrict.operator_plus_eq s src).thrown = none ∧
        (StringStrict.operator_plus_eq s src).state.text = s.text ++ c_text t)) := by
  constructor
  · intro h
    simp [StringStrict.operator_plus_eq, h]
  · intro t ht
    have hmin := strnlen_eq_min t N
    have hll := s.length_le
    by_cases hfit : s.length + strnlen t N + 1 ≤ N
    · have hno : ¬ s.length + strnlen t N > N - 1 := by omega
      have hlt : strnlen t N = strlen t := by omega
      have hres := s.append_result t (strnlen t N)
        (by rw [hlt]; exact strlen_le_length t)
        (by
          intro c hc
          rw [take_strnlen] at hc
          exact c_text_ne_zero t c (List.mem_of_mem_take hc))
        (by omega)
      have htake : t.take (strnlen t N) = c_text t := by rw [hlt]; exact take_strlen t
      refine ⟨?_, ?_, fun h => absurd h hno, fun _ => ⟨?_, ?_⟩⟩
      · simp [StringStrict.operator_plus_eq, ht, BaseString.get_buffer_size, hfit, hno]
      · constructor <;> intro h <;> omega
      · simp [StringStrict.operator_plus_eq, ht, BaseString.get_buffer_size, hfit]
      · simp only [StringStrict.operator_plus_eq, ht, BaseString.get_buffer_size, hfit, if_true]
        rw [hres.2.2, htake]
    · have hyes : s.length + strnlen t N > N - 1 := by omega
      refine ⟨?_, ?_, fun _ => ?_, fun h => absurd hyes h⟩
      · simp [StringStrict.operator_plus_eq, ht, BaseString.get_buffer_size, hfit, hyes]
      · constructor <;> intro h <;> omega
      · simp [StringStrict.operator_plus_eq, ht, BaseString.get_buffer_size, hfit]

/-- C4. `String<N>::operator+=(src)` never throws; a null `src` leaves the
object as it was; otherwise the content afterwards is the first
`min(L + |src|, N - 1)` bytes of the old content followed by `src`. -/
theorem String.silent_append_spec {N : Nat} (hN : 0 < N) (s : BaseString N)
    (src : char_ptr) :
    (String.operator_plus_eq s src).thrown = none ∧
    (src.deref s = none → (String.operator_plus_eq s src).state = s) ∧
    (∀ t, src.deref s = some t →
      (String.operator_plus_eq s src).state.text =
        (s.text ++ c_text t).take (min (s.length + strlen t) (N - 1)) ∧
      (String.operator_plus_eq s src).state.length = min (s.length + strlen t) (N - 1)) := by
  have hll := s.length_le
  have hlt := s.length_text
  refine ⟨?_, ?_, ?_⟩
  · unfold String.operator_plus_eq
    cases src.deref s with
    | none => rfl
    | some t =>
      simp only
      split
      · split <;> rfl
      · rfl
  · intro h
    simp [String.operator_plus_eq, h]
  · intro t ht
    have hmin := strnlen_eq_min t (N - 1)
    simp only [String.operator_plus_eq, ht, BaseString.capacity, BaseString.get_buffer_size]
    by_cases h1 : s.length < N - 1
    · rw [if_pos h1]
      by_cases h2 : strnlen t (N - 1) > 0
      · rw [if_pos h2]
        have hcopy : (if N - 1 - s.length < strnlen t (N - 1) then N - 1 - s.length
            else strnlen t (N - 1)) = min (s.length + strlen t) (N - 1) - s.length := by
          split <;> omega
        rw [hcopy]
        have hle : min (s.length + strlen t) (N - 1) - s.length ≤ strlen t := by omega
        have hres := s.append_result t (min (s.length + strlen t) (N - 1) - s.length)
          (le_trans hle (strlen_le_length t))
          (by
            intro c hc
            rw [take_le_strlen t _ hle] at hc
            exact c_text_ne_zero t c (List.mem_of_mem_take hc))
          (by omega)
        have e1 : s.text.take (min (s.length + strlen t) (N - 1)) = s.text :=
          List.take_of_length_le (by omega)
        refine ⟨?_, ?_⟩
        · rw [hres.2.2, List.take_append_eq_append_take, hlt, e1, take_le_strlen t _ hle]
        · rw [hres.2.1]; omega
      · rw [if_neg h2]
        have h0 : strlen t = 0 := by omega
        have hc : c_text t = [] := by
          rw [← take_strlen, h0]; rfl
        have e1 : s.text.take (min (s.length + strlen t) (N - 1)) = s.text :=
          List.take_of_length_le (by omega)
        dsimp only
        refine ⟨?_, ?_⟩
        · rw [hc, List.append_nil, e1]
        · omega
    · rw [if_neg h1]
      have e1 : s.text.take (min (s.length + strlen t) (N - 1)) = s.text :=
        List.take_of_length_le (by omega)
      have e2 : min (s.length + strlen t) (N - 1) - s.length = 0 := by omega
      dsimp only
      refine ⟨?_, ?_⟩
      · rw [List.take_append_eq_append_take, hlt, e2, List.take_zero, List.append_nil, e1]
      · omega

/-- Witness for C3: `"abc"` does not fit behind `"hello"` in a `StringStrict<8>`;
the call throws `std::overflow_error`. -/
theorem StringStrict.strict_append_spec_witness :
    (0 < 8) ∧
    (String.ctor_text 8 (char_ptr.ext test_hello)).length + strnlen test_abc 8 > 8 - 1 ∧
    (StringStrict.operator_plus_eq (String.ctor_text 8 (char_ptr.ext test_hello))
      (char_ptr.ext test_abc)).thrown = some Exn.overflow_error :=
  ⟨by decide, by decide,
   ((StringStrict.strict_append_spec (by decide)
      (String.ctor_text 8 (char_ptr.ext test_hello)) (char_ptr.ext test_abc)).2
        test_abc rfl).1.2 (by decide)⟩

/-- Witness for C4: appending `"abc"` to `"hello"` in a `String<8>` keeps the
first seven bytes of `"helloabc"`. -/
theorem String.silent_append_spec_witness :
    (0 < 8) ∧
    (String.operator_plus_eq (String.ctor_text 8 (char_ptr.ext test_hello))
      (char_ptr.ext test_abc)).state.text =
      ((String.ctor_text 8 (char_ptr.ext test_hello)).text ++ c_text test_abc).take
        (min ((String.ctor_text 8 (char_ptr.ext test_hello)).length + strlen test_abc) (8 - 1)) :=
  ⟨by decide,
   ((String.silent_append_spec (by decide)
      (String.ctor_text 8 (char_ptr.ext test_hello)) (char_ptr.ext test_abc)).2.2
        test_abc rfl).1⟩

/-- C5. Null termination. Every `String<N>` and `StringStrict<N>` object, as
built by any constructor and after any sequence of appends (text or
character), assignments and `clear()` calls, whether they returned or threw,
has a logical length of at most `N - 1`, a zero byte at index `length()` and a
zero last byte. Each call keeps the invariant, and an assignment or `clear()`
establishes it whatever the buffer held before. -/
theorem BaseString.null_termination {N : Nat} (hN : 0 < N) (k : StrCtor)
    (calls : List StrCall) :
    (String.run (String.construct N k) calls).terminated ∧
    (∀ s, StringStrict.construct N k = Except.ok s → (StringStrict.run s calls).terminated) ∧
    (∀ (s : BaseString N) (c : StrCall), s.terminated →
      (String.call s c).state.terminated ∧ (StringStrict.call s c).state.terminated) ∧
    (∀ (s : BaseString N) (src : char_ptr),
      (String.operator_assign s src).state.terminated ∧
      (StringStrict.operator_assign s src).state.terminated ∧
      s.clear.terminated) := by
  refine ⟨?_, ?_, ?_, ?_⟩
  · exact BaseString.terminated_of_last hN _
      (String.silent_run_last hN calls _ (String.silent_construct_last hN k))
  · intro s hs
    exact BaseString.terminated_of_last hN _
      (StringStrict.strict_run_last hN calls _ (StringStrict.strict_construct_last hN k s hs))
  · intro s c hs
    exact ⟨BaseString.terminated_of_last hN _ (String.silent_call_last hN s c hs.2.2),
      BaseString.terminated_of_last hN _ (StringStrict.strict_call_last hN s c hs.2.2)⟩
  · intro s src
    refine ⟨BaseString.terminated_of_last hN _ ?_, BaseString.terminated_of_last hN _ ?_,
      BaseString.terminated_of_last hN _ ?_⟩
    · simp only [String.operator_assign, BaseString.memset_zero_all]
      exact String.silent_append_last hN _ src (BaseString.last_ctor hN)
    · simp only [StringStrict.operator_assign, BaseString.memset_zero_all]
      exact StringStrict.strict_append_last hN _ src (BaseString.last_ctor hN)
    · simp only [BaseString.clear, BaseString.memset_zero_all]
      exact BaseString.last_ctor hN

/-- Witness for C5: an eight-byte string built from `"hello"`, then appended
to (with overflow), assigned from its own buffer and appended to again. -/
theorem BaseString.null_termination_witness :
    (0 < 8) ∧
    (String.run (String.construct 8 (StrCtor.text (char_ptr.ext test_hello)))
      [StrCall.append (char_ptr.ext test_abc), StrCall.append_chr 33,
       StrCall.assign (char_ptr.self 0), StrCall.append (char_ptr.ext test_abc)]).terminated ∧
    (StringStrict.run (String.construct 8 (StrCtor.text (char_ptr.ext test_hello)))
      [StrCall.append (char_ptr.ext test_abc), StrCall.append_chr 33,
       StrCall.assign (char_ptr.self 0), StrCall.append (char_ptr.ext test_abc)]).terminated :=
  ⟨by decide,
   (BaseString.null_termination (by decide) (StrCtor.text (char_ptr.ext test_hello))
      [StrCall.append (char_ptr.ext test_abc), StrCall.append_chr 33,
       StrCall.assign (char_ptr.self 0), StrCall.append (char_ptr.ext test_abc)]).1,
   (BaseString.null_termination (by decide) (StrCtor.text (char_ptr.ext test_hello))
      [StrCall.append (char_ptr.ext test_abc), StrCall.append_chr 33,
       StrCall.assign (char_ptr.self 0), StrCall.append (char_ptr.ext test_abc)]).2.1
      (String.construct 8 (StrCtor.text (char_ptr.ext test_hello))) rfl⟩

/-! ## `static_vector` -/

/-- The state `static_vector(capacity)` builds when its allocation succeeds. -/
theorem static_vector.ctor_eq {α : Type} (m_alloc : base_type) (C : Nat)
    (hmax : C ≤ m_alloc.max_size) (havail : C ≤ m_alloc.avail) :
    static_vector.ctor (α := α) m_alloc C = Except.ok
      { state := { m_v := { elems := [], cap := C,
                            alloc := { m_size := C, m_consumed := decide (C ≠ 0),
                                       m_alloc := m_alloc,
                                       requests := if C = 0 then [] else [C] } } },
        thrown := none } := by
  have h1 : ¬ C > m_alloc.max_size := by omega
  by_cases hC : C = 0
  · subst hC
    simp [static_vector.ctor, single_allocator.ctor, std_vector.ctor, std_vector.reserve,
      std_vector.max_size, single_allocator.max_size, std_vector.capacity, static_vector.fwd]
  · have hpos : 0 < C := Nat.pos_of_ne_zero hC
    simp [static_vector.ctor, single_allocator.ctor, std_vector.ctor, std_vector.reserve,
      std_vector.max_size, single_allocator.max_size, std_vector.capacity, static_vector.fwd,
      std_vector._M_allocate, single_allocator.allocate, base_type.allocate, Outcome.andThen,
      single_allocator.deallocate, h1, hC, hpos, hmax, havail]

theorem static_vector.insert_one_room {α : Type} (s : static_vector α) (i : Insertion α)
    (h : s.size < s.capacity) :
    s.insert_one i =
      { state := { m_v := { s.m_v with elems := s.m_v.elems ++ [i.value] } }, thrown := none } := by
  have hne : s.m_v.elems.length ≠ s.m_v.cap := by
    simp only [static_vector.size, static_vector.capacity, std_vector.size,
      std_vector.capacity] at h
    omega
  cases hi : i.emplace <;>
    simp [static_vector.insert_one, static_vector.push_back, static_vector.emplace_back,
      std_vector.push_back, std_vector.emplace_back, static_vector.fwd, std_vector.size, hi, hne]

theorem static_vector.insert_one_full {α : Type} (s : static_vector α) (i : Insertion α)
    (h : s.size = s.capacity) (hm : s.capacity = s.max_size) :
    s.insert_one i = { state := s, thrown := some Exn.length_error } := by
  simp only [static_vector.size, static_vector.capacity, static_vector.max_size,
    std_vector.size, std_vector.capacity] at h hm
  have hchk : s.m_v._M_check_len 1 = Except.error Exn.length_error := by
    unfold std_vector._M_check_len
    have : (s.m_v.max_size + 2 ^ 64 - s.m_v.size) % 2 ^ 64 = 0 := by
      rw [← hm, std_vector.size, h]
      simp
    rw [if_pos (by rw [this]; exact Nat.one_pos)]
  cases hi : i.emplace <;>
    simp [static_vector.insert_one, static_vector.push_back, static_vector.emplace_back,
      std_vector.push_back, std_vector.emplace_back, static_vector.fwd, std_vector.size, hi, h,
      std_vector.realloc_append, hchk]

theorem static_vector.insert_all_fits {α : Type} (is : List (Insertion α)) (s : static_vector α)
    (h : s.size + is.length ≤ s.capacity) :
    s.insert_all is =
      (is.length,
       { state := { m_v := { s.m_v with elems := s.m_v.elems ++ is.map Insertion.value } },
         thrown := none }) := by
  induction is generalizing s with
  | nil => simp [static_vector.insert_all]
  | cons i is ih =>
    have hroom : s.size < s.capacity := by simp only [List.length_cons] at h; omega
    have h1 := static_vector.insert_one_room s i hroom
    have hnext : (static_vector.mk { s.m_v with elems := s.m_v.elems ++ [i.value] }).size
        + is.length ≤ (static_vector.mk { s.m_v with elems := s.m_v.elems ++ [i.value] }).capacity := by
      simp only [static_vector.size, static_vector.capacity, std_vector.size,
        std_vector.capacity, List.length_append, List.length_cons, List.length_nil] at h ⊢
      omega
    have h2 := ih _ hnext
    simp [static_vector.insert_all, h1, h2]

theorem static_vector.insert_all_overflow {α : Type} (is : List (Insertion α))
    (s : static_vector α) (hm : s.capacity = s.max_size) (hle : s.size ≤ s.capacity)
    (h : s.capacity < s.size + is.length) :
    s.insert_all is =
      (s.capacity - s.size,
       { state := { m_v := { s.m_v with
          elems := s.m_v.elems ++ (is.take (s.capacity - s.size)).map Insertion.value } },
         thrown := some Exn.length_error }) := by
  induction is generalizing s with
  | nil => simp at h; omega
  | cons i is ih =>
    by_cases hfull : s.size = s.capacity
    · have h1 := static_vector.insert_one_full s i hfull hm
      simp [static_vector.insert_all, h1, hfull]
    · have hroom : s.size < s.capacity := by omega
      have h1 := static_vector.insert_one_room s i hroom
      simp only [static_vector.size, static_vector.capacity, static_vector.max_size,
        std_vector.size, std_vector.capacity, std_vector.max_size, List.length_cons] at h hm hle hroom
      have h2 := ih (static_vector.mk { s.m_v with elems := s.m_v.elems ++ [i.value] })
        (by simpa [static_vector.capacity, static_vector.max_size, std_vector.capacity,
              std_vector.max_size] using hm)
        (by simp only [static_vector.size, static_vector.capacity, std_vector.size,
              std_vector.capacity, List.length_append, List.length_cons, List.length_nil]; omega)
        (by simp only [static_vector.size, static_vector.capacity, std_vector.size,
              std_vector.capacity, List.length_append, List.length_cons, List.length_nil]; omega)
      have hk : s.m_v.cap - s.m_v.elems.length = (s.m_v.cap - (s.m_v.elems.length + 1)) + 1 := by
        omega
      simp only [static_vector.insert_all, h1, h2]
      simp only [static_vector.size, static_vector.capacity, std_vector.size,
        std_vector.capacity, List.length_append, List.length_cons, List.length_nil]
      rw [hk]
      simp [List.take_succ_cons]

theorem std_vector.reserve_fresh {α : Type} (m_alloc : base_type) (C : Nat)
    (hmax : C ≤ m_alloc.max_size) (havail : C ≤ m_alloc.avail) :
    (std_vector.ctor (α := α)
        { m_size := C, m_consumed := false, m_alloc := m_alloc, requests := [] }).reserve C =
      { state := { elems := [], cap := C,
                   alloc := { m_size := C, m_consumed := decide (C ≠ 0), m_alloc := m_alloc,
                              requests := if C = 0 then [] else [C] } },
        thrown := none } := by
  by_cases hC : C = 0
  · subst hC
    simp [std_vector.ctor, std_vector.reserve, std_vector.max_size, single_allocator.max_size,
      std_vector.capacity]
  · have hpos : 0 < C := Nat.pos_of_ne_zero hC
    simp [std_vector.ctor, std_vector.reserve, std_vector.max_size, single_allocator.max_size,
      std_vector.capacity, std_vector._M_allocate, single_allocator.allocate,
      base_type.allocate, Outcome.andThen, single_allocator.deallocate, hC, hpos, hmax, havail]

theorem std_vector.resize_empty {α : Type} [Inhabited α] (v : std_vector α) (k : Nat)
    (he : v.elems = []) (hk : k ≤ v.cap) :
    v.resize k = { state := { v with elems := List.replicate k default }, thrown := none } := by
  by_cases h0 : k = 0
  · subst h0
    simp [std_vector.resize, std_vector.size, he]
    cases v; simp_all
  · have hpos : 0 < k := Nat.pos_of_ne_zero h0
    simp [std_vector.resize, std_vector.size, he, hpos, std_vector._M_default_append, h0, hk]

theorem to_difference_type_of_lt (C : Nat) (h : C < 2 ^ 63) : to_difference_type C = (C : Int) := by
  have h1 : C % 2 ^ 64 = C := Nat.mod_eq_of_lt (by omega)
  unfold to_difference_type
  rw [h1, if_pos h]

theorem to_difference_type_le (C : Nat) : to_difference_type C ≤ (C : Int) := by
  unfold to_difference_type
  have h1 : C % 2 ^ 64 ≤ C := Nat.mod_le _ _
  split <;> omega

theorem to_size_type_of_lt (k : Nat) (h : k < 2 ^ 64) : to_size_type (k : Int) = k := by
  unfold to_size_type
  have : ((k : Int) % 2 ^ 64) = (k : Int) := Int.emod_eq_of_lt (by omega) (by exact_mod_cast h)
  rw [this]; simp

theorem std_vector.reserve_fresh_ok {α : Type} (m_alloc : base_type) (C : Nat)
    (hC : ¬ C > m_alloc.max_size)
    (h : ((std_vector.ctor (α := α)
      { m_size := C, m_consumed := false, m_alloc := m_alloc, requests := [] }).reserve
        C).thrown = none) :
    ((std_vector.ctor (α := α)
      { m_size := C, m_consumed := false, m_alloc := m_alloc, requests := [] }).reserve
        C).state.elems = [] ∧
    ((std_vector.ctor (α := α)
      { m_size := C, m_consumed := false, m_alloc := m_alloc, requests := [] }).reserve
        C).state.cap = C ∧
    ((std_vector.ctor (α := α)
      { m_size := C, m_consumed := false, m_alloc := m_alloc, requests := [] }).reserve
        C).state.max_size = C := by
  have hmx : (std_vector.ctor (α := α)
      { m_size := C, m_consumed := false, m_alloc := m_alloc, requests := [] }).max_size
      = C := by
    simp only [std_vector.max_size, std_vector.ctor, single_allocator.max_size]
    omega
  unfold std_vector.reserve at h ⊢
  rw [hmx, if_neg (Nat.lt_irrefl C)] at h ⊢
  by_cases h0 : (std_vector.ctor (α := α)
      { m_size := C, m_consumed := false, m_alloc := m_alloc, requests := [] }).capacity < C
  · rw [if_pos h0] at h ⊢
    unfold Outcome.andThen at h ⊢
    cases hal : ((std_vector.ctor (α := α)
        { m_size := C, m_consumed := false, m_alloc := m_alloc,
          requests := [] })._M_allocate C).thrown with
    | some e =>
      rw [hal] at h
      cases h
    | none =>
      have hw := (single_allocator.allocate_state
        { m_size := C, m_consumed := false, m_alloc := m_alloc, requests := [] } C)
      have hC0 : C ≠ 0 := by
        intro hc
        simp [std_vector.capacity, std_vector.ctor, hc] at h0
      simp only [std_vector.max_size, single_allocator.max_size, single_allocator.deallocate,
        std_vector.ctor, std_vector._M_allocate, hC0, if_false, hw.1, hw.2.1]
      refine ⟨trivial, trivial, ?_⟩
      omega
  · rw [if_neg h0]
    have hC0 : C = 0 := by
      simp only [std_vector.capacity, std_vector.ctor] at h0
      omega
    simp [std_vector.max_size, single_allocator.max_size, std_vector.ctor, hC0]

theorem to_difference_type_lt (C : Nat) : to_difference_type C < 2 ^ 63 := by
  unfold to_difference_type
  split <;> omega

theorem static_vector.ctor_ok_state {α : Type} (m_alloc : base_type) (C : Nat)
    (s : static_vector α)
    (h : static_vector.ctor m_alloc C = Except.ok { state := s, thrown := none }) :
    s.m_v.elems = [] ∧ s.capacity = C ∧ s.max_size = C := by
  unfold static_vector.ctor single_allocator.ctor at h
  by_cases h1 : C > m_alloc.max_size
  · rw [if_pos h1] at h
    cases h
  · rw [if_neg h1] at h
    simp only [Except.ok.injEq, static_vector.fwd, Outcome.mk.injEq] at h
    obtain ⟨hst, hth⟩ := h
    have hok := std_vector.reserve_fresh_ok (α := α) m_alloc C h1 hth
    rw [← hst]
    exact hok

theorem static_vector.ctor_range_ok_state {α : Type} [Inhabited α] (m_alloc : base_type)
    (C : Nat) (r : iter_pair α) (s : static_vector α)
    (hfirst : r.first ≤ r.last) (hlast : r.last ≤ r.seq.length)
    (h : static_vector.ctor_range m_alloc C r = Except.ok { state := s, thrown := none }) :
    s.capacity = C ∧ s.size = r.last - r.first ∧ s.m_v.elems = r.range := by
  unfold static_vector.ctor_range single_allocator.ctor at h
  by_cases h1 : C > m_alloc.max_size
  · rw [if_pos h1] at h
    cases h
  · rw [if_neg h1] at h
    simp only at h
    by_cases hd : r.distance > to_difference_type C
    · rw [if_pos hd] at h
      simp only [Except.ok.injEq, Outcome.mk.injEq] at h
      cases h.2
    · rw [if_neg hd] at h
      simp only [Except.ok.injEq, static_vector.fwd, Outcome.mk.injEq] at h
      obtain ⟨hst, hth⟩ := h
      have hdist : r.distance = ((r.last - r.first : Nat) : Int) := by
        unfold iter_pair.distance
        omega
      have hk : r.last - r.first ≤ C := by
        have := to_difference_type_le C
        rw [hdist] at hd
        omega
      have hsz : to_size_type r.distance = r.last - r.first := by
        rw [hdist]
        have := to_difference_type_lt C
        rw [hdist] at hd
        exact to_size_type_of_lt _ (by omega)
      have hlen : r.range.length = r.last - r.first := by
        unfold iter_pair.range
        rw [List.length_take, List.length_drop]
        omega
      rw [hsz] at hst hth
      cases hres : ((std_vector.ctor (α := α)
          { m_size := C, m_consumed := false, m_alloc := m_alloc, requests := [] }).reserve
            C).thrown with
      | some e =>
        simp [Outcome.andThen, hres] at hth
      | none =>
        obtain ⟨he, hc, -⟩ := std_vector.reserve_fresh_ok (α := α) m_alloc C h1 hres
        have hrz := std_vector.resize_empty _ (r.last - r.first) he (by rw [hc]; exact hk)
        simp only [Outcome.andThen, hres, hrz] at hst
        rw [← hst]
        simp [static_vector.capacity, static_vector.size, std_vector.capacity, std_vector.size,
          std_copy, hlen, hc]

theorem static_vector.ctor_il_ok_state {α : Type} [Inhabited α] (m_alloc : base_type)
    (C : Nat) (il : List α) (s : static_vector α)
    (h : static_vector.ctor_il m_alloc C il = Except.ok { state := s, thrown := none }) :
    s.capacity = C ∧ s.size = il.length ∧ s.m_v.elems = il := by
  unfold static_vector.ctor_il single_allocator.ctor at h
  by_cases h1 : C > m_alloc.max_size
  · rw [if_pos h1] at h
    cases h
  · rw [if_neg h1] at h
    simp only at h
    by_cases hd : il.length > C
    · rw [if_pos hd] at h
      simp only [Except.ok.injEq, Outcome.mk.injEq] at h
      cases h.2
    · rw [if_neg hd] at h
      simp only [Except.ok.injEq, static_vector.fwd, Outcome.mk.injEq] at h
      obtain ⟨hst, hth⟩ := h
      cases hres : ((std_vector.ctor (α := α)
          { m_size := C, m_consumed := false, m_alloc := m_alloc, requests := [] }).reserve
            C).thrown with
      | some e =>
        simp [Outcome.andThen, hres] at hth
      | none =>
        obtain ⟨he, hc, -⟩ := std_vector.reserve_fresh_ok (α := α) m_alloc C h1 hres
        have hrz := std_vector.resize_empty _ il.length he (by rw [hc]; omega)
        simp only [Outcome.andThen, hres, hrz] at hst
        rw [← hst]
        simp [static_vector.capacity, static_vector.size, std_vector.capacity, std_vector.size,
          std_copy, hc]

/-- C6, as the code behaves: a `static_vector` constructed with capacity `C`
takes `C` insertions (`push_back` or `emplace_back`, in any mix), every one of
them returning normally, and the insertion after them throws
`std::length_error`, leaving the `C` elements in place. -/
theorem static_vector.insertions_to_capacity {α : Type} (m_alloc : base_type) (C : Nat)
    (s : static_vector α) (is : List (Insertion α))
    (hctor : static_vector.ctor m_alloc C = Except.ok { state := s, thrown := none })
    (hlen : is.length = C + 1) :
    (∀ k, k ≤ C →
      (s.insert_all (is.take k)).1 = k ∧ (s.insert_all (is.take k)).2.thrown = none ∧
      (s.insert_all (is.take k)).2.state.m_v.elems = (is.take k).map Insertion.value) ∧
    (s.insert_all is).1 = C ∧
    (s.insert_all is).2.thrown = some Exn.length_error ∧
    (s.insert_all is).2.state.m_v.elems = (is.take C).map Insertion.value := by
  obtain ⟨hel, hcap, hmax⟩ := static_vector.ctor_ok_state m_alloc C s hctor
  have hsz : s.size = 0 := by simp [static_vector.size, std_vector.size, hel]
  refine ⟨?_, ?_⟩
  · intro k hk
    have hl : (is.take k).length = k := by rw [List.length_take]; omega
    rw [static_vector.insert_all_fits _ _ (by rw [hsz, hcap, hl]; omega)]
    simp [hl, hel]
  · rw [static_vector.insert_all_overflow _ _ (by rw [hcap, hmax]) (by rw [hsz]; omega)
      (by rw [hsz, hcap, hlen]; omega)]
    simp [hsz, hcap, hel]

/-- Witness for C6: capacity three, four insertions. -/
theorem static_vector.insertions_to_capacity_witness :
    ((test_vector_3 []).insert_all
      [Insertion.mk 7 false, Insertion.mk 8 true, Insertion.mk 9 false,
       Insertion.mk 10 true]).1 = 3 ∧
    ((test_vector_3 []).insert_all
      [Insertion.mk 7 false, Insertion.mk 8 true, Insertion.mk 9 false,
       Insertion.mk 10 true]).2.thrown = some Exn.length_error ∧
    ((test_vector_3 []).insert_all
      [Insertion.mk 7 false, Insertion.mk 8 true, Insertion.mk 9 false,
       Insertion.mk 10 true]).2.state.m_v.elems =
      (List.take 3 [Insertion.mk 7 false, Insertion.mk 8 true, Insertion.mk 9 false,
        Insertion.mk 10 true]).map Insertion.value :=
  (static_vector.insertions_to_capacity test_platform 3 (test_vector_3 [])
    [Insertion.mk 7 false, Insertion.mk 8 true, Insertion.mk 9 false, Insertion.mk 10 true]
    rfl rfl).2

/-- C6, as stated, fails: on a vector of capacity three the fourth `push_back`
throws `std::length_error`, not `std::bad_alloc`. -/
theorem static_vector.fourth_push_back_counterexample :
    static_vector.ctor (α := Nat) test_platform 3 =
      Except.ok { state := test_vector_3 [], thrown := none } ∧
    ((test_vector_3 []).insert_all
        [Insertion.mk 5 false, Insertion.mk 5 false, Insertion.mk 5 false,
         Insertion.mk 5 false]).1 = 3 ∧
    ((test_vector_3 []).insert_all
        [Insertion.mk 5 false, Insertion.mk 5 false, Insertion.mk 5 false,
         Insertion.mk 5 false]).2.thrown = some Exn.length_error ∧
    ((test_vector_3 []).insert_all
        [Insertion.mk 5 false, Insertion.mk 5 false, Insertion.mk 5 false,
         Insertion.mk 5 false]).2.thrown ≠ some Exn.bad_alloc := by
  refine ⟨rfl, ?_, ?_, ?_⟩ <;> decide

/-- C8. When the range `[first, last)` or the initializer list is longer than
the capacity `C` (a capacity the allocator can be declared with, as is every
`C` below the length of a sequence held in memory), the constructor throws
`std::length_error` while `m_v` is still as the member initialiser left it:
empty, without storage, its allocator unconsumed and with no `allocate` call
recorded. -/
theorem static_vector.ctor_length_error {α : Type} [Inhabited α] (m_alloc : base_type) (C : Nat)
    (r : iter_pair α) (il : List α) (hC : C ≤ m_alloc.max_size)
    (hr : C < r.last - r.first) (hil : C < il.length) :
    static_vector.ctor_range m_alloc C r = Except.ok
      { state := { m_v := { elems := [], cap := 0,
                            alloc := { m_size := C, m_consumed := false, m_alloc := m_alloc,
                                       requests := [] } } },
        thrown := some Exn.length_error } ∧
    static_vector.ctor_il m_alloc C il = Except.ok
      { state := { m_v := { elems := [], cap := 0,
                            alloc := { m_size := C, m_consumed := false, m_alloc := m_alloc,
                                       requests := [] } } },
        thrown := some Exn.length_error } := by
  have h1 : ¬ C > m_alloc.max_size := by omega
  constructor
  · have hd : r.distance > to_difference_type C := by
      have := to_difference_type_le C
      unfold iter_pair.distance
      omega
    simp [static_vector.ctor_range, single_allocator.ctor, h1, hd, std_vector.ctor]
  · simp [static_vector.ctor_il, single_allocator.ctor, h1, hil, std_vector.ctor]

/-- Witness for C8: the two calls of `TEST(static_vector, out_of_range_constructors)`,
scaled down: four elements into capacity three, six into capacity five. -/
theorem static_vector.ctor_length_error_witness :
    static_vector.ctor_range test_platform 3 (iter_pair.mk [1, 2, 3, 4] 0 4) = Except.ok
      { state := { m_v := { elems := [], cap := 0,
                            alloc := { m_size := 3, m_consumed := false,
                                       m_alloc := test_platform, requests := [] } } },
        thrown := some Exn.length_error } ∧
    static_vector.ctor_il test_platform 3 [1, 2, 3, 4, 5, 6] = Except.ok
      { state := { m_v := { elems := [], cap := 0,
                            alloc := { m_size := 3, m_consumed := false,
                                       m_alloc := test_platform, requests := [] } } },
        thrown := some Exn.length_error } :=
  static_vector.ctor_length_error test_platform 3 (iter_pair.mk [1, 2, 3, 4] 0 4)
    [1, 2, 3, 4, 5, 6] (by decide) (by decide) (by decide)

theorem static_vector.ctor_range_eq {α : Type} [Inhabited α] (m_alloc : base_type) (C : Nat)
    (r : iter_pair α) (hmax : C ≤ m_alloc.max_size) (havail : C ≤ m_alloc.avail)
    (hptr : C < 2 ^ 63) (hfirst : r.first ≤ r.last) (hlast : r.last ≤ r.seq.length)
    (hr : r.last - r.first ≤ C) :
    static_vector.ctor_range m_alloc C r = Except.ok
      { state := { m_v := { elems := r.range, cap := C,
                            alloc := { m_size := C, m_consumed := decide (C ≠ 0),
                                       m_alloc := m_alloc,
                                       requests := if C = 0 then [] else [C] } } },
        thrown := none } := by
  have h1 : ¬ C > m_alloc.max_size := by omega
  have hres := std_vector.reserve_fresh (α := α) m_alloc C hmax havail
  have hd : ¬ r.distance > to_difference_type C := by
    rw [to_difference_type_of_lt C hptr]
    unfold iter_pair.distance
    omega
  have hdist : r.distance = ((r.last - r.first : Nat) : Int) := by
    unfold iter_pair.distance
    omega
  have hsz : to_size_type r.distance = r.last - r.first := by
    rw [hdist]
    exact to_size_type_of_lt _ (by omega)
  have hlen : r.range.length = r.last - r.first := by
    unfold iter_pair.range
    rw [List.length_take, List.length_drop]
    omega
  simp only [static_vector.ctor_range, single_allocator.ctor, h1, if_false, hd, hres,
    Outcome.andThen, hsz, static_vector.fwd]
  rw [std_vector.resize_empty _ _ rfl hr]
  simp [std_copy, hlen]

theorem static_vector.ctor_il_eq {α : Type} [Inhabited α] (m_alloc : base_type) (C : Nat)
    (il : List α) (hmax : C ≤ m_alloc.max_size) (havail : C ≤ m_alloc.avail)
    (hil : il.length ≤ C) :
    static_vector.ctor_il m_alloc C il = Except.ok
      { state := { m_v := { elems := il, cap := C,
                            alloc := { m_size := C, m_consumed := decide (C ≠ 0),
                                       m_alloc := m_alloc,
                                       requests := if C = 0 then [] else [C] } } },
        thrown := none } := by
  have h1 : ¬ C > m_alloc.max_size := by omega
  have hres := std_vector.reserve_fresh (α := α) m_alloc C hmax havail
  have hd : ¬ il.length > C := by omega
  simp only [static_vector.ctor_il, single_allocator.ctor, h1, if_false, hd, hres,
    Outcome.andThen, static_vector.fwd]
  rw [std_vector.resize_empty _ _ rfl hil]
  simp [std_copy]

/-- C9. Successful construction. Whenever `static_vector(C)` returns normally
the vector has size zero and `capacity() == C`; whenever the constructor from
a range `[first, last)` or from an initializer list returns normally the
vector has `capacity() == C`, as many elements as the input, and the input
elements in order. The constructors do return normally when the platform
provides the block for `C` elements and the input has `k ≤ C` elements. -/
theorem static_vector.ctor_success {α : Type} [Inhabited α] (m_alloc : base_type) (C : Nat)
    (r : iter_pair α) (il : List α)
    (hfirst : r.first ≤ r.last) (hlast : r.last ≤ r.seq.length) :
    (∀ s : static_vector α,
      static_vector.ctor m_alloc C = Except.ok { state := s, thrown := none } →
      s.size = 0 ∧ s.capacity = C) ∧
    (∀ s : static_vector α,
      static_vector.ctor_range m_alloc C r = Except.ok { state := s, thrown := none } →
      s.capacity = C ∧ s.size = r.last - r.first ∧ s.m_v.elems = r.range) ∧
    (∀ s : static_vector α,
      static_vector.ctor_il m_alloc C il = Except.ok { state := s, thrown := none } →
      s.capacity = C ∧ s.size = il.length ∧ s.m_v.elems = il) ∧
    (C ≤ m_alloc.max_size → C ≤ m_alloc.avail →
      (∃ s : static_vector α,
        static_vector.ctor m_alloc C = Except.ok { state := s, thrown := none }) ∧
      (C < 2 ^ 63 → r.last - r.first ≤ C → ∃ s : static_vector α,
        static_vector.ctor_range m_alloc C r = Except.ok { state := s, thrown := none }) ∧
      (il.length ≤ C → ∃ s : static_vector α,
        static_vector.ctor_il m_alloc C il = Except.ok { state := s, thrown := none })) := by
  refine ⟨?_, ?_, ?_, ?_⟩
  · intro s h
    obtain ⟨he, hc, -⟩ := static_vector.ctor_ok_state m_alloc C s h
    exact ⟨by simp [static_vector.size, std_vector.size, he], hc⟩
  · intro s h
    exact static_vector.ctor_range_ok_state m_alloc C r s hfirst hlast h
  · intro s h
    exact static_vector.ctor_il_ok_state m_alloc C il s h
  · intro hmax havail
    exact ⟨⟨_, static_vector.ctor_eq m_alloc C hmax havail⟩,
      fun hptr hr => ⟨_, static_vector.ctor_range_eq m_alloc C r hmax havail hptr hfirst hlast hr⟩,
      fun hil => ⟨_, static_vector.ctor_il_eq m_alloc C il hmax havail hil⟩⟩

/-- Witness for C9: the constructions of `TEST(static_vector, special_constructors)`,
with capacity 35. -/
theorem static_vector.ctor_success_witness :
    (∃ s : static_vector Nat,
      static_vector.ctor_range test_platform 35 (iter_pair.mk [234, 25, 235, 53, 24] 0 5) =
        Except.ok { state := s, thrown := none } ∧
      s.capacity = 35 ∧ s.size = 5 - 0 ∧
      s.m_v.elems = (iter_pair.mk [234, 25, 235, 53, 24] 0 5).range) ∧
    (∃ s : static_vector Nat,
      static_vector.ctor_il test_platform 35 [234, 25, 235, 53, 24] =
        Except.ok { state := s, thrown := none } ∧
      s.capacity = 35 ∧ s.size = [234, 25, 235, 53, 24].length ∧
      s.m_v.elems = [234, 25, 235, 53, 24]) :=
  have h := static_vector.ctor_success test_platform 35
    (iter_pair.mk [234, 25, 235, 53, 24] 0 5) [234, 25, 235, 53, 24] (by decide) (by decide)
  ⟨(((h.2.2.2 (by decide) (by decide)).2.1 (by norm_num) (by decide)).imp
      fun s hs => ⟨hs, h.2.1 s hs⟩),
   (((h.2.2.2 (by decide) (by decide)).2.2 (by decide)).imp
      fun s hs => ⟨hs, h.2.2.1 s hs⟩)⟩

/-- C10. Move construction and move assignment leave the source with size zero
and give the destination the size and the element sequence the source had. -/
theorem static_vector.move_spec {α : Type} (src dst : static_vector α) :
    (src.move_ctor.2.size = 0 ∧ src.move_ctor.1.size = src.size ∧
      src.move_ctor.1.m_v.elems = src.m_v.elems) ∧
    ((dst.move_assign src).2.size = 0 ∧ (dst.move_assign src).1.size = src.size ∧
      (dst.move_assign src).1.m_v.elems = src.m_v.elems) := by
  simp [static_vector.move_ctor, static_vector.move_assign, std_vector.move_ctor,
    std_vector.move_assign, static_vector.size, std_vector.size]

/-! ## `static_vector`: copy assignment and the capacity invariant -/

/-- What the members keep fixed on a vector constructed with capacity `C`. -/
theorem static_vector.call_keeps {α : Type} [Inhabited α] (C : Nat) (hC : C < 2 ^ 64)
    (s : static_vector α) (c : VecCall α) (r : Outcome (static_vector α))
    (hcap : s.capacity = C) (hmax : s.max_size = C) (hsize : s.size ≤ C)
    (hcall : s.call c = some r) (hret : r.thrown = none) :
    r.state.capacity = C ∧ r.state.max_size = C ∧ r.state.size ≤ C ∧
    r.state.m_v.alloc = s.m_v.alloc := by
  simp only [static_vector.capacity, static_vector.max_size, static_vector.size,
    std_vector.capacity, std_vector.size] at hcap hmax hsize
  have hchk : ∀ k, C - s.m_v.elems.length < k →
      s.m_v._M_check_len k = Except.error Exn.length_error := by
    intro k hk
    unfold std_vector._M_check_len
    have : (s.m_v.max_size + 2 ^ 64 - s.m_v.size) % 2 ^ 64 = C - s.m_v.elems.length := by
      rw [hmax, std_vector.size]
      have h1 : C + 2 ^ 64 - s.m_v.elems.length = (C - s.m_v.elems.length) + 2 ^ 64 := by omega
      rw [h1, Nat.add_mod_right]
      exact Nat.mod_eq_of_lt (by omega)
    rw [if_pos (by rw [this]; exact hk)]
  cases c with
  | reserve n =>
    simp only [static_vector.call, Option.some.injEq] at hcall
    subst hcall
    simp only [static_vector.reserve, static_vector.fwd, std_vector.reserve,
      std_vector.capacity, hmax, hcap] at hret ⊢
    by_cases hn : n > C
    · rw [if_pos hn] at hret; cases hret
    · rw [if_neg hn, if_neg (by omega)]
      exact ⟨hcap, hmax, hsize, rfl⟩
  | resize n =>
    simp only [static_vector.call, Option.some.injEq] at hcall
    subst hcall
    simp only [static_vector.resize, static_vector.fwd, std_vector.resize,
      std_vector.size] at hret ⊢
    by_cases h1 : n > s.m_v.elems.length
    · rw [if_pos h1] at hret ⊢
      unfold std_vector._M_default_append at hret ⊢
      rw [if_neg (by omega)] at hret ⊢
      by_cases h2 : s.m_v.cap - s.m_v.size ≥ n - s.m_v.elems.length
      · rw [if_pos h2]
        simp only [std_vector.size] at h2
        refine ⟨hcap, hmax, ?_, rfl⟩
        show (s.m_v.elems ++ List.replicate (n - s.m_v.elems.length) default).length ≤ C
        rw [List.length_append, List.length_replicate]
        omega
      · rw [if_neg h2] at hret
        simp only [std_vector.size] at h2
        have hk : C - s.m_v.elems.length < n - s.m_v.elems.length := by omega
        simp only [std_vector.realloc_append, hchk (n - s.m_v.elems.length) hk] at hret
        cases hret
    · rw [if_neg h1]
      by_cases h2 : n < s.m_v.elems.length
      · rw [if_pos h2]
        refine ⟨hcap, hmax, ?_, rfl⟩
        show (s.m_v.elems.take n).length ≤ C
        rw [List.length_take]
        omega
      · rw [if_neg h2]
        exact ⟨hcap, hmax, hsize, rfl⟩
  | push_back x =>
    simp only [static_vector.call, Option.some.injEq] at hcall
    subst hcall
    simp only [static_vector.push_back, static_vector.fwd, std_vector.push_back,
      std_vector.size] at hret ⊢
    by_cases h1 : s.m_v.elems.length ≠ s.m_v.cap
    · rw [if_pos h1]
      refine ⟨hcap, hmax, ?_, rfl⟩
      show (s.m_v.elems ++ [x]).length ≤ C
      rw [List.length_append, List.length_singleton]
      omega
    · rw [if_neg h1] at hret
      have hk : C - s.m_v.elems.length < 1 := by omega
      simp only [std_vector.realloc_append, hchk 1 hk] at hret
      cases hret
  | pop_back =>
    simp only [static_vector.call] at hcall
    split at hcall
    · cases hcall
    · simp only [Option.some.injEq] at hcall
      subst hcall
      refine ⟨hcap, hmax, ?_, rfl⟩
      show s.m_v.elems.dropLast.length ≤ C
      rw [List.length_dropLast]
      omega
  | clear =>
    simp only [static_vector.call, Option.some.injEq] at hcall
    subst hcall
    exact ⟨hcap, hmax, Nat.zero_le _, rfl⟩
  | shrink_to_fit =>
    simp only [static_vector.call, Option.some.injEq] at hcall
    subst hcall
    exact ⟨hcap, hmax, hsize, rfl⟩

theorem static_vector.run_calls_keeps {α : Type} [Inhabited α] (C : Nat) (hC : C < 2 ^ 64)
    (calls : List (VecCall α)) (s t : static_vector α)
    (hcap : s.capacity = C) (hmax : s.max_size = C) (hsize : s.size ≤ C)
    (hrun : s.run_calls calls = some t) :
    t.capacity = C ∧ t.max_size = C ∧ t.size ≤ C ∧ t.m_v.alloc = s.m_v.alloc := by
  induction calls generalizing s with
  | nil =>
    simp only [static_vector.run_calls, Option.some.injEq] at hrun
    subst hrun
    exact ⟨hcap, hmax, hsize, rfl⟩
  | cons c cs ih =>
    simp only [static_vector.run_calls] at hrun
    cases hcall : s.call c with
    | none => rw [hcall] at hrun; cases hrun
    | some r =>
      rw [hcall] at hrun
      simp only at hrun
      cases hth : r.thrown with
      | some e => rw [hth] at hrun; cases hrun
      | none =>
        rw [hth] at hrun
        simp only at hrun
        obtain ⟨h1, h2, h3, h4⟩ :=
          static_vector.call_keeps C hC s c r hcap hmax hsize hcall hth
        obtain ⟨g1, g2, g3, g4⟩ := ih r.state h1 h2 h3 hrun
        exact ⟨g1, g2, g3, g4.trans h4⟩

theorem std_vector.reserve_fresh_alloc {α : Type} (m_alloc : base_type) (C : Nat)
    (hC : ¬ C > m_alloc.max_size)
    (h : ((std_vector.ctor (α := α)
      { m_size := C, m_consumed := false, m_alloc := m_alloc, requests := [] }).reserve
        C).thrown = none) :
    ((std_vector.ctor (α := α)
      { m_size := C, m_consumed := false, m_alloc := m_alloc, requests := [] }).reserve
        C).state.alloc.m_consumed = true ∨
    ((std_vector.ctor (α := α)
      { m_size := C, m_consumed := false, m_alloc := m_alloc, requests := [] }).reserve
        C).state.alloc.m_size = 0 := by
  have hmx : (std_vector.ctor (α := α)
      { m_size := C, m_consumed := false, m_alloc := m_alloc, requests := [] }).max_size
      = C := by
    simp only [std_vector.max_size, std_vector.ctor, single_allocator.max_size]
    omega
  unfold std_vector.reserve at h ⊢
  rw [hmx, if_neg (Nat.lt_irrefl C)] at h ⊢
  by_cases h0 : (std_vector.ctor (α := α)
      { m_size := C, m_consumed := false, m_alloc := m_alloc, requests := [] }).capacity < C
  · rw [if_pos h0] at h ⊢
    unfold Outcome.andThen at h ⊢
    cases hal : ((std_vector.ctor (α := α)
        { m_size := C, m_consumed := false, m_alloc := m_alloc,
          requests := [] })._M_allocate C).thrown with
    | some e =>
      rw [hal] at h
      cases h
    | none =>
      have hC0 : C ≠ 0 := by
        intro hc
        simp [std_vector.capacity, std_vector.ctor, hc] at h0
      simp only [std_vector._M_allocate, hC0, if_false, std_vector.ctor] at hal
      have hw := (single_allocator.allocate_state
        { m_size := C, m_consumed := false, m_alloc := m_alloc, requests := [] } C).2.2.2.1 hal
      left
      simp only [single_allocator.deallocate, std_vector.ctor, std_vector._M_allocate, hC0,
        if_false]
      exact hw
  · rw [if_neg h0]
    have hC0 : C = 0 := by
      simp only [std_vector.capacity, std_vector.ctor] at h0
      omega
    right
    simp [std_vector.ctor, hC0]

theorem static_vector.ctor_ok_alloc {α : Type} (m_alloc : base_type) (C : Nat)
    (s : static_vector α)
    (h : static_vector.ctor m_alloc C = Except.ok { state := s, thrown := none }) :
    s.m_v.alloc.m_consumed = true ∨ s.m_v.alloc.m_size = 0 := by
  unfold static_vector.ctor single_allocator.ctor at h
  by_cases h1 : C > m_alloc.max_size
  · rw [if_pos h1] at h
    cases h
  · rw [if_neg h1] at h
    simp only [Except.ok.injEq, static_vector.fwd, Outcome.mk.injEq] at h
    obtain ⟨hst, hth⟩ := h
    have hok := std_vector.reserve_fresh_alloc (α := α) m_alloc C h1 hth
    rw [← hst]
    exact hok

/-- The outcome of a copy assignment from a source whose allocator cannot
hand out another block. -/
theorem static_vector.copy_assign_eq {α : Type} (dst src : static_vector α)
    (hsrc : src.m_v.alloc.m_consumed = true ∨ src.m_v.alloc.m_size = 0) :
    (src.size > dst.capacity → (dst.copy_assign src).thrown = some Exn.bad_alloc) ∧
    (¬ src.size > dst.capacity →
      dst.copy_assign src =
        { state := { m_v := { elems := src.m_v.elems, cap := dst.m_v.cap,
                              alloc := src.m_v.alloc } },
          thrown := none }) := by
  simp only [static_vector.size, static_vector.capacity, std_vector.capacity, std_vector.size]
  constructor
  · intro hgt
    have hne : src.m_v.elems.length ≠ 0 := by omega
    have hfail : (src.m_v.alloc.allocate src.m_v.elems.length).thrown = some Exn.bad_alloc := by
      rcases single_allocator.allocate_thrown src.m_v.alloc src.m_v.elems.length with h | h
      · have := (single_allocator.allocate_success_iff _ _).1 h
        rcases hsrc with hc | hz
        · rw [hc] at this; cases this.2.1
        · rw [hz] at this; exact absurd this.1 hne
      · exact h
    simp [static_vector.copy_assign, static_vector.fwd, std_vector.copy_assign,
      single_allocator.copy_assign, std_vector.capacity, std_vector.size, hgt,
      std_vector._M_allocate, hne, Outcome.andThen, hfail]
  · intro hle
    simp [static_vector.copy_assign, static_vector.fwd, std_vector.copy_assign,
      single_allocator.copy_assign, std_vector.capacity, std_vector.size, hle]

/-- C11. Copy assignment `dst = src`, for a source whose allocator has handed
out its block or was declared for no elements (as the allocator of every
vector that was constructed and then used through its members is): the call
throws `std::bad_alloc` exactly when `src.size()` exceeds `dst.capacity()`;
otherwise it returns normally, `dst` holds the elements of `src` in order and
`dst.capacity()` is unchanged. -/
theorem static_vector.copy_assign_spec {α : Type} [Inhabited α] (dst : static_vector α) :
    (∀ src : static_vector α,
      (src.m_v.alloc.m_consumed = true ∨ src.m_v.alloc.m_size = 0) →
      ((dst.copy_assign src).thrown = some Exn.bad_alloc ↔ src.size > dst.capacity) ∧
      (¬ src.size > dst.capacity →
        (dst.copy_assign src).thrown = none ∧
        (dst.copy_assign src).state.m_v.elems = src.m_v.elems ∧
        (dst.copy_assign src).state.capacity = dst.capacity)) ∧
    (∀ (m_alloc : base_type) (C : Nat) (s0 src : static_vector α) (calls : List (VecCall α)),
      C < 2 ^ 64 →
      static_vector.ctor m_alloc C = Except.ok { state := s0, thrown := none } →
      s0.run_calls calls = some src →
      ((dst.copy_assign src).thrown = some Exn.bad_alloc ↔ src.size > dst.capacity) ∧
      (¬ src.size > dst.capacity →
        (dst.copy_assign src).thrown = none ∧
        (dst.copy_assign src).state.m_v.elems = src.m_v.elems ∧
        (dst.copy_assign src).state.capacity = dst.capacity)) := by
  have key : ∀ src : static_vector α,
      (src.m_v.alloc.m_consumed = true ∨ src.m_v.alloc.m_size = 0) →
      ((dst.copy_assign src).thrown = some Exn.bad_alloc ↔ src.size > dst.capacity) ∧
      (¬ src.size > dst.capacity →
        (dst.copy_assign src).thrown = none ∧
        (dst.copy_assign src).state.m_v.elems = src.m_v.elems ∧
        (dst.copy_assign src).state.capacity = dst.capacity) := by
    intro src hsrc
    obtain ⟨h1, h2⟩ := static_vector.copy_assign_eq dst src hsrc
    refine ⟨⟨fun hth => ?_, h1⟩, fun hle => ?_⟩
    · by_contra hle
      rw [h2 hle] at hth
      cases hth
    · rw [h2 hle]
      exact ⟨rfl, rfl, rfl⟩
  refine ⟨key, ?_⟩
  intro m_alloc C s0 src calls hC hctor hrun
  obtain ⟨hel, hcap, hmax⟩ := static_vector.ctor_ok_state m_alloc C s0 hctor
  have hal := static_vector.ctor_ok_alloc m_alloc C s0 hctor
  have hsz : s0.size ≤ C := by simp [static_vector.size, std_vector.size, hel]
  obtain ⟨-, -, -, h4⟩ := static_vector.run_calls_keeps C hC calls s0 src hcap hmax hsz hrun
  exact key src (by rw [h4]; exact hal)

/-- Witness for C11: `TEST(static_vector, copy_assignment)`: a vector of
capacity two assigned from a vector holding three elements. -/
theorem static_vector.copy_assign_spec_witness :
    (test_vector_3 [5, 5, 5]).size > (test_vector_2 []).capacity ∧
    ((test_vector_2 []).copy_assign (test_vector_3 [5, 5, 5])).thrown = some Exn.bad_alloc ∧
    ((test_vector_3 []).copy_assign (test_vector_2 [7, 8])).state.m_v.elems = [7, 8] :=
  ⟨by decide,
   (((static_vector.copy_assign_spec (test_vector_2 [])).1 (test_vector_3 [5, 5, 5])
      (Or.inl rfl)).1).2 (by decide),
   (((static_vector.copy_assign_spec (test_vector_3 [])).2 test_platform 2 (test_vector_2 [])
      (test_vector_2 [7, 8]) [VecCall.push_back 7, VecCall.push_back 8] (by norm_num) rfl
      rfl).2 (by decide)).2.1⟩

/-- C12. Capacity invariant. A `static_vector` constructed with capacity `C`
has, after any sequence of `reserve`, `resize`, `push_back`, `pop_back`,
`clear` and `shrink_to_fit` calls that all returned normally, `capacity()`
still equal to `C` and `size()` at most `C`. On it `reserve(n)` and
`resize(n)` return normally exactly for `n ≤ C`, and `shrink_to_fit()`
changes nothing. -/
theorem static_vector.capacity_invariant {α : Type} [Inhabited α] (m_alloc : base_type)
    (C : Nat) (s0 s : static_vector α) (calls : List (VecCall α)) (hC : C < 2 ^ 64)
    (hctor : static_vector.ctor m_alloc C = Except.ok { state := s0, thrown := none })
    (hrun : s0.run_calls calls = some s) :
    s.capacity = C ∧ s.size ≤ C ∧
    (∀ n, (s.reserve n).thrown = none ↔ n ≤ C) ∧
    (∀ n, (s.resize n).thrown = none ↔ n ≤ C) ∧
    s.shrink_to_fit = s ∧
    s.run_calls [VecCall.shrink_to_fit] = some s := by
  obtain ⟨hel, hcap0, hmax0⟩ := static_vector.ctor_ok_state m_alloc C s0 hctor
  have hsz0 : s0.size ≤ C := by simp [static_vector.size, std_vector.size, hel]
  obtain ⟨hcap, hmax, hsize, -⟩ :=
    static_vector.run_calls_keeps C hC calls s0 s hcap0 hmax0 hsz0 hrun
  refine ⟨hcap, hsize, ?_, ?_, rfl, rfl⟩
  · intro n
    constructor
    · intro hth
      by_contra hn
      have hgt : n > s.m_v.max_size := by
        have : s.m_v.max_size = C := hmax
        omega
      simp [static_vector.reserve, static_vector.fwd, std_vector.reserve, hgt] at hth
    · intro hn
      have h1 : ¬ n > s.m_v.max_size := by
        have : s.m_v.max_size = C := hmax
        omega
      have h2 : ¬ s.m_v.capacity < n := by
        have : s.m_v.capacity = C := hcap
        omega
      simp [static_vector.reserve, static_vector.fwd, std_vector.reserve, h1, h2]
  · intro n
    constructor
    · intro hth
      have h := static_vector.call_keeps C hC s (VecCall.resize n) (s.resize n) hcap hmax
        hsize rfl hth
      by_contra hn
      have hsz : (s.resize n).state.size ≤ C := h.2.2.1
      have hlen : s.m_v.elems.length ≤ C := hsize
      have hcp : s.m_v.cap = C := hcap
      have h1 : n > s.m_v.elems.length := by omega
      have h2 : ¬ s.m_v.cap - s.m_v.elems.length ≥ n - s.m_v.elems.length := by omega
      have h3 : n - s.m_v.elems.length ≠ 0 := by omega
      simp only [static_vector.resize, static_vector.fwd, std_vector.resize, std_vector.size,
        h1, if_true, std_vector._M_default_append, h3, if_false, h2] at hth
      unfold std_vector.realloc_append at hth
      cases hck : s.m_v._M_check_len (n - s.m_v.elems.length) with
      | error e =>
        rw [hck] at hth
        cases hth
      | ok len =>
        have hm : s.m_v.max_size = C := hmax
        unfold std_vector._M_check_len at hck
        have : (s.m_v.max_size + 2 ^ 64 - s.m_v.size) % 2 ^ 64 = C - s.m_v.elems.length := by
          rw [hm, std_vector.size]
          have h1 : C + 2 ^ 64 - s.m_v.elems.length = (C - s.m_v.elems.length) + 2 ^ 64 := by
            omega
          rw [h1, Nat.add_mod_right]
          exact Nat.mod_eq_of_lt (by omega)
        rw [if_pos (by rw [this]; omega)] at hck
        cases hck
    · intro hn
      have hlen : s.m_v.elems.length ≤ C := hsize
      have hcp : s.m_v.cap = C := hcap
      simp only [static_vector.resize, static_vector.fwd, std_vector.resize, std_vector.size]
      by_cases h1 : n > s.m_v.elems.length
      · have h2 : s.m_v.cap - s.m_v.elems.length ≥ n - s.m_v.elems.length := by omega
        have h3 : n - s.m_v.elems.length ≠ 0 := by omega
        simp [h1, std_vector._M_default_append, h3, h2, std_vector.size]
      · rw [if_neg h1]
        split <;> rfl

/-- Witness for C12: the calls of one round of `test_reserve` followed by two
insertions and a removal, on a vector of capacity three. -/
theorem static_vector.capacity_invariant_witness :
    (test_vector_3 []).run_calls
      [VecCall.reserve 2, VecCall.resize 2, VecCall.clear, VecCall.reserve 1,
       VecCall.shrink_to_fit, VecCall.push_back 7, VecCall.push_back 8, VecCall.pop_back]
      = some (test_vector_3 [7]) ∧
    (test_vector_3 [7]).capacity = 3 ∧ (test_vector_3 [7]).size ≤ 3 :=
  ⟨rfl,
   (static_vector.capacity_invariant test_platform 3 (test_vector_3 []) (test_vector_3 [7])
      [VecCall.reserve 2, VecCall.resize 2, VecCall.clear, VecCall.reserve 1,
       VecCall.shrink_to_fit, VecCall.push_back 7, VecCall.push_back 8, VecCall.pop_back]
      (by norm_num) rfl rfl).1,
   (static_vector.capacity_invariant test_platform 3 (test_vector_3 []) (test_vector_3 [7])
      [VecCall.reserve 2, VecCall.resize 2, VecCall.clear, VecCall.reserve 1,
       VecCall.shrink_to_fit, VecCall.push_back 7, VecCall.push_back 8, VecCall.pop_back]
      (by norm_num) rfl rfl).2.1⟩

/-! ## Fixed-buffer strings: comparison, substrings, hashing -/

theorem lex_compare_eq_iff (A B : List char8_t) : lex_compare A B = Ordering.eq ↔ A = B := by
  induction A generalizing B with
  | nil => cases B <;> simp [lex_compare]
  | cons a A ih =>
    cases B with
    | nil => simp [lex_compare]
    | cons b B =>
      simp only [lex_compare, List.cons.injEq]
      by_cases h1 : a < b
      · rw [if_pos h1]
        simp only [reduceCtorEq, false_iff, not_and]
        intro h; rw [h] at h1; exact absurd h1 (lt_irrefl _)
      · rw [if_neg h1]
        by_cases h2 : b < a
        · rw [if_pos h2]
          simp only [reduceCtorEq, false_iff, not_and]
          intro h; rw [h] at h2; exact absurd h2 (lt_irrefl _)
        · rw [if_neg h2, ih]
          have : a = b := le_antisymm (not_lt.1 h2) (not_lt.1 h1)
          simp [this]

/-- The sign of `strncmp` over the common length, with the tie broken by the
lengths as `compare` does, is the lexicographic order of the two prefixes. -/
theorem strncmp_lex (A B ra rb : List char8_t) (hA : ∀ c ∈ A, (c != 0) = true) :
    ((if strncmp (A ++ ra) (B ++ rb) (min A.length B.length) = 0 ∧ A.length > B.length then 1
      else if strncmp (A ++ ra) (B ++ rb) (min A.length B.length) = 0 ∧ A.length < B.length
        then -1
      else strncmp (A ++ ra) (B ++ rb) (min A.length B.length)) < 0 ↔
        lex_compare A B = Ordering.lt) ∧
    ((if strncmp (A ++ ra) (B ++ rb) (min A.length B.length) = 0 ∧ A.length > B.length then 1
      else if strncmp (A ++ ra) (B ++ rb) (min A.length B.length) = 0 ∧ A.length < B.length
        then -1
      else strncmp (A ++ ra) (B ++ rb) (min A.length B.length)) = 0 ↔
        lex_compare A B = Ordering.eq) ∧
    (0 < (if strncmp (A ++ ra) (B ++ rb) (min A.length B.length) = 0 ∧ A.length > B.length
        then 1
      else if strncmp (A ++ ra) (B ++ rb) (min A.length B.length) = 0 ∧ A.length < B.length
        then -1
      else strncmp (A ++ ra) (B ++ rb) (min A.length B.length)) ↔
        lex_compare A B = Ordering.gt) := by
  induction A generalizing B with
  | nil =>
    cases B with
    | nil => simp [strncmp, lex_compare]
    | cons b B => simp [strncmp, lex_compare]
  | cons a A ih =>
    cases B with
    | nil => simp [strncmp, lex_compare]
    | cons b B =>
      have ha : a ≠ 0 := by
        have := hA a (List.mem_cons_self _ _)
        simpa using this
      have hmin : min (a :: A).length (b :: B).length = min A.length B.length + 1 := by
        simp only [List.length_cons]; omega
      rw [hmin]
      simp only [List.cons_append, strncmp, List.headD_cons, List.tail_cons, List.length_cons,
        lex_compare]
      by_cases hab : a = b
      · subst hab
        have hih := ih B (fun c hc => hA c (List.mem_cons_of_mem _ hc))
        simp only [ne_eq, not_true_eq_false, if_false, ha, lt_irrefl,
          Nat.add_lt_add_iff_right, gt_iff_lt] at hih ⊢
        exact hih
      · have hne : ((a.val : Int) - (b.val : Int)) ≠ 0 := by
          intro h
          apply hab
          apply Fin.ext
          omega
        simp only [ne_eq, hab, not_false_eq_true, if_true, hne, false_and, if_false]
        by_cases hlt : a < b
        · have : (a.val : Int) < b.val := by exact_mod_cast hlt
          simp only [hlt, if_true, iff_true, reduceCtorEq, iff_false]
          exact ⟨by omega, trivial, by omega⟩
        · have hgt : b < a := lt_of_le_of_ne (not_lt.1 hlt) (Ne.symm hab)
          have : (b.val : Int) < a.val := by exact_mod_cast hgt
          simp only [hlt, hgt, if_false, if_true, reduceCtorEq, iff_false, iff_true]
          exact ⟨by omega, trivial, by omega⟩

/-- For a non-null comparand and a position within the string `compare`
returns, and the sign of its result is the lexicographic order of the
compared part of the string and the first `n_str` bytes of the comparand. -/
theorem BaseString.compare_ok {N : Nat} (this : BaseString N) (pos1 count1 count2 : Nat)
    (s : char_ptr) (t : List char8_t) (hs : s.deref this = some t)
    (hpos : pos1 ≤ this.length)
    (hn : (if npos = count2 then strnlen t APEX_STRING_SIZE else count2) ≤ t.length) :
    ∃ r : Int, this.compare pos1 count1 s count2 = Except.ok r ∧
      (r < 0 ↔ lex_compare
        ((this.text.drop pos1).take (if npos = count1 then this.length else count1))
        (t.take (if npos = count2 then strnlen t APEX_STRING_SIZE else count2)) = Ordering.lt) ∧
      (r = 0 ↔ lex_compare
        ((this.text.drop pos1).take (if npos = count1 then this.length else count1))
        (t.take (if npos = count2 then strnlen t APEX_STRING_SIZE else count2)) = Ordering.eq) ∧
      (0 < r ↔ lex_compare
        ((this.text.drop pos1).take (if npos = count1 then this.length else count1))
        (t.take (if npos = count2 then strnlen t APEX_STRING_SIZE else count2)) =
          Ordering.gt) := by
  have hL := this.length_le
  have hsz := this.hsize
  -- the compared part of the string
  have hA : (this.text.drop pos1).take (if npos = count1 then this.length else count1) =
      (this.m_string.drop pos1).take
        (min (if npos = count1 then this.length else count1) (this.length - pos1)) := by
    unfold BaseString.text
    rw [List.drop_take, List.take_take]
  have hAlen : ((this.m_string.drop pos1).take
      (min (if npos = count1 then this.length else count1) (this.length - pos1))).length =
      min (if npos = count1 then this.length else count1) (this.length - pos1) := by
    rw [List.length_take, List.length_drop, hsz]
    omega
  have hAnz : ∀ c ∈ (this.m_string.drop pos1).take
      (min (if npos = count1 then this.length else count1) (this.length - pos1)),
      (c != 0) = true := by
    intro c hc
    rw [← hA] at hc
    exact this.text_ne_zero c (List.mem_of_mem_drop (List.mem_of_mem_take hc))
  have hBlen : (t.take (if npos = count2 then strnlen t APEX_STRING_SIZE else count2)).length =
      (if npos = count2 then strnlen t APEX_STRING_SIZE else count2) := by
    rw [List.length_take]
    omega
  have hlex := strncmp_lex
    ((this.m_string.drop pos1).take
      (min (if npos = count1 then this.length else count1) (this.length - pos1)))
    (t.take (if npos = count2 then strnlen t APEX_STRING_SIZE else count2))
    ((this.m_string.drop pos1).drop
      (min (if npos = count1 then this.length else count1) (this.length - pos1)))
    (t.drop (if npos = count2 then strnlen t APEX_STRING_SIZE else count2)) hAnz
  rw [List.take_append_drop, List.take_append_drop, hAlen, hBlen, ← hA] at hlex
  refine ⟨_, ?_, hlex⟩
  unfold BaseString.compare
  rw [hs]
  simp only [if_neg (Nat.not_lt.2 hpos)]

theorem spec_compare_lhs_eq {N : Nat} (this : BaseString N) (pos1 count1 : Nat) :
    spec_compare_lhs this.text pos1 count1 =
      (this.text.drop pos1).take (if npos = count1 then this.length else count1) := by
  unfold spec_compare_lhs
  rw [this.length_text, ← List.take_take]
  congr 1
  · by_cases h : count1 = npos
    · rw [if_pos h, if_pos h.symm]
    · rw [if_neg h, if_neg (fun e => h e.symm)]
  · apply List.take_of_length_le
    rw [List.length_drop, this.length_text]

theorem spec_compare_rhs_eq (t : List char8_t) (count2 : Nat)
    (hlen : strlen t ≤ APEX_STRING_SIZE) (hc2 : count2 = npos ∨ count2 ≤ strlen t) :
    spec_compare_rhs t count2 =
      t.take (if npos = count2 then strnlen t APEX_STRING_SIZE else count2) ∧
    (if npos = count2 then strnlen t APEX_STRING_SIZE else count2) ≤ t.length := by
  have hl := strlen_le_length t
  unfold spec_compare_rhs
  by_cases h : count2 = npos
  · rw [if_pos h, if_pos h.symm, take_strnlen]
    constructor
    · symm
      apply List.take_of_length_le
      exact hlen
    · have := strnlen_eq_min t APEX_STRING_SIZE
      omega
  · rw [if_neg h, if_neg (fun e => h e.symm)]
    have hc : count2 ≤ strlen t := hc2.resolve_left h
    constructor
    · rw [← take_strlen, List.take_take, min_eq_left hc]
    · omega

/-- Claim C17: for a non-null text of at most 256 characters and `count2`
equal to `npos` or at most its length, `compare(pos1, count1, s, count2)`
throws `std::out_of_range` exactly when `pos1` exceeds the length, and
otherwise returns a value that is negative, zero or positive exactly when the
selected part of this string is lexicographically less than, equal to or
greater than the selected part of `s`. -/
theorem BaseString.compare_spec {N : Nat} (this : BaseString N) (pos1 count1 count2 : Nat)
    (s : char_ptr) (t : List char8_t) (hs : s.deref this = some t)
    (hlen : strlen t ≤ APEX_STRING_SIZE) (hc2 : count2 = npos ∨ count2 ≤ strlen t) :
    (this.compare pos1 count1 s count2 = Except.error Exn.out_of_range ↔ pos1 > this.length) ∧
    (pos1 ≤ this.length → ∃ r : Int, this.compare pos1 count1 s count2 = Except.ok r ∧
      (r < 0 ↔ lex_compare (spec_compare_lhs this.text pos1 count1)
        (spec_compare_rhs t count2) = Ordering.lt) ∧
      (r = 0 ↔ lex_compare (spec_compare_lhs this.text pos1 count1)
        (spec_compare_rhs t count2) = Ordering.eq) ∧
      (0 < r ↔ lex_compare (spec_compare_lhs this.text pos1 count1)
        (spec_compare_rhs t count2) = Ordering.gt)) := by
  have hB := spec_compare_rhs_eq t count2 hlen hc2
  constructor
  · unfold BaseString.compare
    rw [hs]
    by_cases h : pos1 > this.length
    · simp [h]
    · simp [h]
  · intro hpos
    rw [spec_compare_lhs_eq, hB.1]
    exact BaseString.compare_ok this pos1 count1 count2 s t hs hpos hB.2

/-- Claim C17 at `String<8>("123")`: `compare(0, npos, "12", npos)` is
positive, `"12"` being a proper prefix. -/
theorem BaseString.compare_spec_witness :
    strlen test_12 ≤ APEX_STRING_SIZE ∧
    ∃ r : Int, (String.ctor_text 8 (char_ptr.ext test_123)).compare 0 npos
        (char_ptr.ext test_12) npos = Except.ok r ∧ 0 < r :=
  ⟨by decide, by
    obtain ⟨r, hr, _, _, h3⟩ := (BaseString.compare_spec
      (String.ctor_text 8 (char_ptr.ext test_123)) 0 npos npos
      (char_ptr.ext test_12) test_12 rfl (by decide) (Or.inl rfl)).2 (Nat.zero_le _)
    exact ⟨r, hr, h3.2 (by decide)⟩⟩

theorem strlen_le_of_zero (t : List char8_t) : ∀ i : Nat, t[i]? = some 0 → strlen t ≤ i := by
  induction t with
  | nil => intro i h; simp at h
  | cons c q ih =>
    intro i h
    cases i with
    | zero =>
      simp at h
      subst h
      simp [strlen]
    | succ j =>
      simp at h
      have := ih j h
      unfold strlen at this ⊢
      rw [List.takeWhile_cons]
      split
      · simp; omega
      · simp

theorem BaseString.strlen_of_terminated {N : Nat} (s : BaseString N) (h : s.terminated) :
    strlen s.m_string = s.length := by
  have h1 := strlen_le_of_zero s.m_string (N - 1) h.2.2
  have h2 : s.length = min (N - 1) (strlen s.m_string) := strnlen_eq_min s.m_string (N - 1)
  omega

theorem BaseString.c_text_of_terminated {N : Nat} (s : BaseString N) (h : s.terminated) :
    c_text s.m_string = s.text := by
  rw [← take_strlen, s.strlen_of_terminated h]
  rfl

theorem BaseString.compare_all_eq {N M : Nat} (a : BaseString N) (b : BaseString M)
    (hb : b.terminated) (htext : a.text = b.text) (hlen : a.length ≤ APEX_STRING_SIZE) :
    a.compare_all (Comparand.fixed M b) = Except.ok 0 := by
  obtain ⟨r, hr, _, h0, _⟩ := BaseString.compare_ok a 0 npos npos (char_ptr.ext b.m_string)
    b.m_string rfl (Nat.zero_le _) (by
      rw [if_pos rfl]
      have := strnlen_eq_min b.m_string APEX_STRING_SIZE
      have := strlen_le_length b.m_string
      omega)
  have hr0 : r = 0 := by
    rw [h0, lex_compare_eq_iff, if_pos rfl, if_pos rfl, List.drop_zero, take_strnlen,
      b.c_text_of_terminated hb, ← htext]
    have e1 : a.text.take a.length = a.text :=
      List.take_of_length_le (by rw [a.length_text])
    have e2 : a.text.take APEX_STRING_SIZE = a.text :=
      List.take_of_length_le (by rw [a.length_text]; exact hlen)
    rw [e1, e2]
  rw [hr0] at hr
  exact hr

/-- Two buffers of any declared sizes with the same logical text compare equal
(`==` true, `!=` false, `compare` zero) when the text has at most
`APEX_STRING_SIZE` characters and the right-hand buffer is null-terminated. -/
theorem BaseString.equality_coherence {N M : Nat} (a : BaseString N) (b : BaseString M)
    (hb : b.terminated) (htext : a.text = b.text) (hlen : a.length ≤ APEX_STRING_SIZE) :
    a.operator_eq (Comparand.fixed M b) = Except.ok true ∧
    a.operator_ne (Comparand.fixed M b) = Except.ok false ∧
    a.compare_all (Comparand.fixed M b) = Except.ok 0 := by
  have h := BaseString.compare_all_eq a b hb htext hlen
  have he : a.operator_eq (Comparand.fixed M b) = Except.ok true := by
    unfold BaseString.operator_eq
    rw [h]
    rfl
  refine ⟨he, ?_, h⟩
  unfold BaseString.operator_ne
  rw [he]
  rfl

/-- The objects `String<8>("abc")` and `String<16>("abc")` compare equal. -/
theorem BaseString.equality_coherence_witness :
    (String.ctor_text 16 (char_ptr.ext test_abc)).terminated ∧
    (String.ctor_text 8 (char_ptr.ext test_abc)).text =
      (String.ctor_text 16 (char_ptr.ext test_abc)).text ∧
    (String.ctor_text 8 (char_ptr.ext test_abc)).operator_eq
      (Comparand.fixed 16 (String.ctor_text 16 (char_ptr.ext test_abc))) = Except.ok true :=
  ⟨by decide, by decide,
    (BaseString.equality_coherence (String.ctor_text 8 (char_ptr.ext test_abc))
      (String.ctor_text 16 (char_ptr.ext test_abc)) (by decide) (by decide) (by decide)).1⟩

/-- C19. The code does not keep equality coherent for a text of more than
`APEX_STRING_SIZE` characters: `compare` measures the comparand with
`strnlen(s, APEX_STRING_SIZE)` and this string with `length()`, so a
null-terminated `String<258>` holding 257 characters compares to itself as
greater; `==` is false and `!=` is true, against the documentation of
`operator==` and of `compare`. -/
theorem BaseString.equality_long_counterexample :
    test_string_258.terminated ∧ test_string_258.length = 257 ∧
    test_string_258.compare_all (Comparand.fixed 258 test_string_258) = Except.ok 1 ∧
    test_string_258.operator_eq (Comparand.fixed 258 test_string_258) = Except.ok false ∧
    test_string_258.operator_ne (Comparand.fixed 258 test_string_258) = Except.ok true := by
  set_option maxRecDepth 100000 in
  exact ⟨by decide, by decide, rfl, rfl, rfl⟩

theorem BaseString.compare_all_ok {N : Nat} (this : BaseString N) (rhs : Comparand)
    (t : List char8_t) (hs : rhs.c_str.deref this = some t) :
    ∃ r : Int, this.compare_all rhs = Except.ok r := by
  unfold BaseString.compare_all BaseString.compare_sub BaseString.compare
  rw [hs]
  simp only [if_neg (Nat.not_lt.2 (Nat.zero_le _))]
  exact ⟨_, rfl⟩

/-- Claim C18: against a non-null comparand (C text, fixed string of any
size, or `std::string`) the six relational operators all return, agree with
the sign of `compare`, and are mutually consistent: exactly one of `<`, `==`,
`>` holds, `!=` is the negation of `==`, `<=` is `<` or `==`, `>=` is `>` or
`==`. -/
theorem BaseString.operators_consistent {N : Nat} (this : BaseString N) (rhs : Comparand)
    (t : List char8_t) (hs : rhs.c_str.deref this = some t) :
    ∃ (r : Int) (eq ne lt gt le ge : Bool),
      this.compare_all rhs = Except.ok r ∧
      this.operator_eq rhs = Except.ok eq ∧ this.operator_ne rhs = Except.ok ne ∧
      this.operator_lt rhs = Except.ok lt ∧ this.operator_gt rhs = Except.ok gt ∧
      this.operator_le rhs = Except.ok le ∧ this.operator_ge rhs = Except.ok ge ∧
      (eq = true ↔ r = 0) ∧ (lt = true ↔ r < 0) ∧ (gt = true ↔ 0 < r) ∧
      ne = !eq ∧ le = (lt || eq) ∧ ge = (gt || eq) ∧
      ((lt && !eq && !gt) || (!lt && eq && !gt) || (!lt && !eq && gt)) = true := by
  obtain ⟨r, hr⟩ := BaseString.compare_all_ok this rhs t hs
  have he : this.operator_eq rhs = Except.ok (decide (r = 0)) := by
    unfold BaseString.operator_eq
    rw [hr]
  have hl : this.operator_lt rhs = Except.ok (decide (r < 0)) := by
    unfold BaseString.operator_lt
    rw [hr]
  have hg : this.operator_gt rhs = Except.ok (decide (r > 0)) := by
    unfold BaseString.operator_gt
    rw [hr]
  have hne : this.operator_ne rhs = Except.ok (!decide (r = 0)) := by
    unfold BaseString.operator_ne
    rw [he]
  have hle : this.operator_le rhs = Except.ok (!decide (r > 0)) := by
    unfold BaseString.operator_le
    rw [hg]
  have hge : this.operator_ge rhs = Except.ok (!decide (r < 0)) := by
    unfold BaseString.operator_ge
    rw [hl]
  refine ⟨r, decide (r = 0), !decide (r = 0), decide (r < 0), decide (r > 0),
    !decide (r > 0), !decide (r < 0), hr, he, hne, hl, hg, hle, hge, ?_, ?_, ?_, rfl, ?_, ?_, ?_⟩
  · simp
  · simp
  · simp
  · rcases lt_trichotomy r 0 with h | h | h
    · have h1 : ¬ r > 0 := by omega
      have h2 : ¬ r = 0 := by omega
      simp [h, h1, h2]
    · simp [h]
    · have h1 : ¬ r < 0 := by omega
      have h2 : ¬ r = 0 := by omega
      simp [h, h1, h2]
  · rcases lt_trichotomy r 0 with h | h | h
    · have h1 : ¬ r > 0 := by omega
      have h2 : ¬ r = 0 := by omega
      simp [h, h1, h2]
    · simp [h]
    · have h1 : ¬ r < 0 := by omega
      have h2 : ¬ r = 0 := by omega
      simp [h, h1, h2]
  · rcases lt_trichotomy r 0 with h | h | h
    · have h1 : ¬ r > 0 := by omega
      have h2 : ¬ r = 0 := by omega
      simp [h, h1, h2]
    · simp [h]
    · have h1 : ¬ r < 0 := by omega
      have h2 : ¬ r = 0 := by omega
      simp [h, h1, h2]

/-- Claim C18 at `String<8>("123")` against the C text `"12"`: `>` and `>=`
hold, `!=` holds, the others do not. -/
theorem BaseString.operators_consistent_witness :
    (Comparand.text (char_ptr.ext test_12)).c_str.deref
      (String.ctor_text 8 (char_ptr.ext test_123)) = some test_12 ∧
    ∃ (r : Int) (eq ne lt gt le ge : Bool),
      (String.ctor_text 8 (char_ptr.ext test_123)).compare_all
        (Comparand.text (char_ptr.ext test_12)) = Except.ok r ∧
      (String.ctor_text 8 (char_ptr.ext test_123)).operator_eq
        (Comparand.text (char_ptr.ext test_12)) = Except.ok eq ∧
      (String.ctor_text 8 (char_ptr.ext test_123)).operator_ne
        (Comparand.text (char_ptr.ext test_12)) = Except.ok ne ∧
      (String.ctor_text 8 (char_ptr.ext test_123)).operator_lt
        (Comparand.text (char_ptr.ext test_12)) = Except.ok lt ∧
      (String.ctor_text 8 (char_ptr.ext test_123)).operator_gt
        (Comparand.text (char_ptr.ext test_12)) = Except.ok gt ∧
      (String.ctor_text 8 (char_ptr.ext test_123)).operator_le
        (Comparand.text (char_ptr.ext test_12)) = Except.ok le ∧
      (String.ctor_text 8 (char_ptr.ext test_123)).operator_ge
        (Comparand.text (char_ptr.ext test_12)) = Except.ok ge ∧
      (eq = true ↔ r = 0) ∧ (lt = true ↔ r < 0) ∧ (gt = true ↔ 0 < r) ∧
      ne = !eq ∧ le = (lt || eq) ∧ ge = (gt || eq) ∧
      ((lt && !eq && !gt) || (!lt && eq && !gt) || (!lt && !eq && gt)) = true :=
  ⟨rfl, BaseString.operators_consistent (String.ctor_text 8 (char_ptr.ext test_123))
    (Comparand.text (char_ptr.ext test_12)) test_12 rfl⟩

/-- Claim C16: comparing against a null text pointer never returns a value:
`compare(pos1, count1, nullptr, count2)`, `compare(nullptr)` and each of `==`,
`!=`, `<`, `<=`, `>`, `>=` with a null pointer throw `std::invalid_argument`,
for every content and every `pos1`, also one beyond the length. -/
theorem BaseString.null_comparand {N : Nat} (this : BaseString N) (pos1 count1 count2 : Nat) :
    this.compare pos1 count1 char_ptr.null count2 = Except.error Exn.invalid_argument ∧
    this.compare_all (Comparand.text char_ptr.null) = Except.error Exn.invalid_argument ∧
    this.operator_eq (Comparand.text char_ptr.null) = Except.error Exn.invalid_argument ∧
    this.operator_ne (Comparand.text char_ptr.null) = Except.error Exn.invalid_argument ∧
    this.operator_lt (Comparand.text char_ptr.null) = Except.error Exn.invalid_argument ∧
    this.operator_le (Comparand.text char_ptr.null) = Except.error Exn.invalid_argument ∧
    this.operator_gt (Comparand.text char_ptr.null) = Except.error Exn.invalid_argument ∧
    this.operator_ge (Comparand.text char_ptr.null) = Except.error Exn.invalid_argument := by
  have hc : ∀ p c1 c2 : Nat,
      this.compare p c1 char_ptr.null c2 = Except.error Exn.invalid_argument := by
    intro p c1 c2
    rfl
  have ha : this.compare_all (Comparand.text char_ptr.null) =
      Except.error Exn.invalid_argument := hc 0 npos npos
  have he : this.operator_eq (Comparand.text char_ptr.null) =
      Except.error Exn.invalid_argument := by
    unfold BaseString.operator_eq
    rw [ha]
  have hl : this.operator_lt (Comparand.text char_ptr.null) =
      Except.error Exn.invalid_argument := by
    unfold BaseString.operator_lt
    rw [ha]
  have hg : this.operator_gt (Comparand.text char_ptr.null) =
      Except.error Exn.invalid_argument := by
    unfold BaseString.operator_gt
    rw [ha]
  refine ⟨hc _ _ _, ha, he, ?_, hl, ?_, hg, ?_⟩
  · unfold BaseString.operator_ne
    rw [he]
  · unfold BaseString.operator_le
    rw [hg]
  · unfold BaseString.operator_ge
    rw [hl]

theorem BaseString.text_of_prefix {N : Nat} (s : BaseString N) (p q : List char8_t)
    (hm : s.m_string = p ++ 0 :: q) (hp : ∀ c ∈ p, (c != 0) = true) :
    s.length = p.length ∧ s.text = p := by
  have hN : p.length + 1 + q.length = N := by
    have h := congrArg List.length hm
    rw [s.hsize, List.length_append, List.length_cons] at h
    omega
  have hl : s.length = p.length := by
    unfold BaseString.length BaseString.size BaseString.capacity BaseString.get_buffer_size
    rw [hm, strnlen_append p _ _ hp, strnlen_zero_cons]
    omega
  refine ⟨hl, ?_⟩
  unfold BaseString.text
  rw [hl, hm]
  exact List.take_left' rfl

theorem BaseString.text_ctor (N : Nat) : (BaseString.ctor N).text = [] := by
  rw [BaseString.text_eq]
  have : c_text (BaseString.ctor N).m_string = [] := by
    unfold c_text BaseString.ctor
    cases N <;> simp [List.replicate_succ]
  rw [this, List.take_nil]

theorem BaseString.substr_ok {N : Nat} (this : BaseString N) (pos len : Nat)
    (hpos : pos ≤ this.length) :
    ∃ r : BaseString N, this.substr pos len = Except.ok r ∧
      r.text = (this.text.drop pos).take (min len (this.length - pos)) := by
  unfold BaseString.substr
  have hsz : this.size = this.length := rfl
  rw [hsz, if_neg (Nat.not_lt.2 hpos)]
  by_cases he : pos = this.length
  · rw [if_neg (fun h => h he)]
    refine ⟨_, rfl, ?_⟩
    rw [BaseString.text_ctor, he, Nat.sub_self, Nat.min_zero, List.take_zero]
  · rw [if_pos he]
    refine ⟨_, rfl, ?_⟩
    have hL := this.length_le
    have hb : (this.m_string.drop pos).take (min (this.length - pos) len) =
        (this.text.drop pos).take (min len (this.length - pos)) := by
      unfold BaseString.text
      rw [List.drop_take, List.take_take]
      congr 1
      omega
    have hblen : ((this.text.drop pos).take (min len (this.length - pos))).length =
        min len (this.length - pos) := by
      rw [List.length_take, List.length_drop, this.length_text]
      omega
    have hm : ((BaseString.ctor N).memmove 0 (this.m_string.drop pos)
        (min (this.length - pos) len)).m_string =
        (this.text.drop pos).take (min len (this.length - pos)) ++
          0 :: List.replicate (N - min len (this.length - pos) - 1) 0 := by
      show poke (List.replicate N 0) 0 _ = _
      rw [hb, poke_eq _ _ _ (by rw [hblen, List.length_replicate]; omega), hblen]
      rw [List.take_zero, List.nil_append, List.drop_replicate, Nat.zero_add]
      congr 1
      rw [← List.replicate_succ]
      congr 1
      omega
    exact (BaseString.text_of_prefix _ _ _ hm (fun c hc =>
      this.text_ne_zero c (List.mem_of_mem_drop (List.mem_of_mem_take hc)))).2

/-- Claim C15: `substr(pos, len)` throws `std::out_of_range` exactly when
`pos` exceeds the length `L`; otherwise it returns a buffer of the same
declared size holding the `min(len, L - pos)` bytes of the text from `pos`
on: nothing when `pos` is `L`, everything up to the end when `len` reaches
it (as `npos` does). -/
theorem BaseString.substr_spec {N : Nat} (this : BaseString N) (pos len : Nat) :
    (this.substr pos len = Except.error Exn.out_of_range ↔ pos > this.length) ∧
    (pos ≤ this.length → ∃ r : BaseString N, this.substr pos len = Except.ok r ∧
      r.get_buffer_size = this.get_buffer_size ∧
      r.text = (this.text.drop pos).take (min len (this.length - pos)) ∧
      (pos = this.length → r.text = []) ∧
      (this.length - pos ≤ len → r.text = this.text.drop pos)) := by
  constructor
  · constructor
    · intro h
      by_contra hn
      obtain ⟨r, hr, _⟩ := BaseString.substr_ok this pos len (Nat.not_lt.1 hn)
      rw [hr] at h
      cases h
    · intro h
      unfold BaseString.substr
      have hsz : this.size = this.length := rfl
      rw [hsz, if_pos h]
  · intro hpos
    obtain ⟨r, hr, ht⟩ := BaseString.substr_ok this pos len hpos
    refine ⟨r, hr, rfl, ht, ?_, ?_⟩
    · intro he
      rw [ht, he, Nat.sub_self, Nat.min_zero, List.take_zero]
    · intro hle
      rw [ht, Nat.min_eq_right hle]
      apply List.take_of_length_le
      rw [List.length_drop, this.length_text]

/-- Claim C15 at `String<8>("hello")`: `substr(1, 3)` holds `"ell"`. -/
theorem BaseString.substr_spec_witness :
    1 ≤ (String.ctor_text 8 (char_ptr.ext test_hello)).length ∧
    ∃ r : BaseString 8, (String.ctor_text 8 (char_ptr.ext test_hello)).substr 1 3 = Except.ok r ∧
      r.text = [101, 108, 108] := by
  refine ⟨by decide, ?_⟩
  obtain ⟨r, hr, _, ht, _⟩ := (BaseString.substr_spec
    (String.ctor_text 8 (char_ptr.ext test_hello)) 1 3).2 (by decide)
  exact ⟨r, hr, ht.trans (by decide)⟩

theorem BaseString.length_ctor (N : Nat) : (BaseString.ctor N).length = 0 := by
  rw [← BaseString.length_text, BaseString.text_ctor]
  rfl

theorem String.silent_never_throws {N : Nat} (s : BaseString N) (src : char_ptr) :
    (String.operator_plus_eq s src).thrown = none := by
  unfold String.operator_plus_eq
  cases src.deref s with
  | none => rfl
  | some t =>
    simp only
    split
    · split <;> rfl
    · rfl

theorem String.silent_append_text {N : Nat} (s : BaseString N) (src : char_ptr)
    (t : List char8_t) (ht : src.deref s = some t) :
    (String.operator_plus_eq s src).state.text =
      (s.text ++ c_text t).take (min (s.length + strlen t) (N - 1)) ∧
    (String.operator_plus_eq s src).state.length = min (s.length + strlen t) (N - 1) := by
  have hll := s.length_le
  have hlt := s.length_text
  have hmin := strnlen_eq_min t (N - 1)
  simp only [String.operator_plus_eq, ht, BaseString.capacity, BaseString.get_buffer_size]
  by_cases h1 : s.length < N - 1
  · rw [if_pos h1]
    by_cases h2 : strnlen t (N - 1) > 0
    · rw [if_pos h2]
      have hcopy : (if N - 1 - s.length < strnlen t (N - 1) then N - 1 - s.length
          else strnlen t (N - 1)) = min (s.length + strlen t) (N - 1) - s.length := by
        split <;> omega
      rw [hcopy]
      have hle : min (s.length + strlen t) (N - 1) - s.length ≤ strlen t := by omega
      have hres := s.append_result t (min (s.length + strlen t) (N - 1) - s.length)
        (le_trans hle (strlen_le_length t))
        (by
          intro c hc
          rw [take_le_strlen t _ hle] at hc
          exact c_text_ne_zero t c (List.mem_of_mem_take hc))
        (by omega)
      have e1 : s.text.take (min (s.length + strlen t) (N - 1)) = s.text :=
        List.take_of_length_le (by omega)
      refine ⟨?_, ?_⟩
      · rw [hres.2.2, List.take_append_eq_append_take, hlt, e1, take_le_strlen t _ hle]
      · rw [hres.2.1]; omega
    · rw [if_neg h2]
      have h0 : strlen t = 0 := by omega
      have hc : c_text t = [] := by
        rw [← take_strlen, h0]; rfl
      have e1 : s.text.take (min (s.length + strlen t) (N - 1)) = s.text :=
        List.take_of_length_le (by omega)
      dsimp only
      refine ⟨?_, ?_⟩
      · rw [hc, List.append_nil, e1]
      · omega
  · rw [if_neg h1]
    have e1 : s.text.take (min (s.length + strlen t) (N - 1)) = s.text :=
      List.take_of_length_le (by omega)
    have e2 : min (s.length + strlen t) (N - 1) - s.length = 0 := by omega
    dsimp only
    refine ⟨?_, ?_⟩
    · rw [List.take_append_eq_append_take, hlt, e2, List.take_zero, List.append_nil, e1]
    · omega

theorem String.silent_from_empty (N : Nat) (t : List char8_t) :
    (String.operator_plus_eq (BaseString.ctor N) (char_ptr.ext t)).state.text =
      (c_text t).take (min (strlen t) (N - 1)) ∧
    (String.operator_plus_eq (BaseString.ctor N) (char_ptr.ext t)).state.length =
      min (strlen t) (N - 1) := by
  have h := String.silent_append_text (BaseString.ctor N) (char_ptr.ext t) t rfl
  rw [BaseString.text_ctor, BaseString.length_ctor, List.nil_append, Nat.zero_add] at h
  exact h

theorem String.silent_assign_eq {N : Nat} (s : BaseString N) (src : char_ptr) :
    String.operator_assign s src = String.operator_plus_eq (BaseString.ctor N) src := by
  unfold String.operator_assign
  rw [BaseString.memset_zero_all]

/-- Truncating construction and assignment from a text outside the object
and from the null pointer: no throw, the first `min(|src|, N - 1)` bytes of
the text as content, null-terminated; the empty string for null. -/
theorem String.truncating_core (N : Nat) (s : BaseString N) (t : List char8_t) :
    (String.operator_plus_eq (BaseString.ctor N) (char_ptr.ext t)).thrown = none ∧
    (String.ctor_text N (char_ptr.ext t)).text = (c_text t).take (min (strlen t) (N - 1)) ∧
    (String.operator_assign s (char_ptr.ext t)).thrown = none ∧
    (String.operator_assign s (char_ptr.ext t)).state.text =
      (c_text t).take (min (strlen t) (N - 1)) ∧
    (N - 1 < strlen t → (String.ctor_text N (char_ptr.ext t)).length = N - 1 ∧
      (String.operator_assign s (char_ptr.ext t)).state.length = N - 1) ∧
    (0 < N → (String.ctor_text N (char_ptr.ext t)).terminated ∧
      (String.operator_assign s (char_ptr.ext t)).state.terminated) ∧
    (String.ctor_text N char_ptr.null).text = [] ∧
    (String.operator_assign s char_ptr.null).thrown = none ∧
    (String.operator_assign s char_ptr.null).state.text = [] := by
  have h := String.silent_from_empty N t
  have ha := String.silent_assign_eq s (char_ptr.ext t)
  have hn := String.silent_assign_eq s char_ptr.null
  have hnull : (String.operator_plus_eq (BaseString.ctor N) char_ptr.null).state =
      BaseString.ctor N := rfl
  refine ⟨String.silent_never_throws _ _, h.1, ?_, ?_, ?_, ?_, ?_, ?_, ?_⟩
  · rw [ha]
    exact String.silent_never_throws _ _
  · rw [ha]
    exact h.1
  · intro hlong
    rw [ha]
    have h2 := h.2
    constructor
    · show (String.operator_plus_eq (BaseString.ctor N) (char_ptr.ext t)).state.length = N - 1
      omega
    · omega
  · intro hN
    rw [ha]
    have hterm := BaseString.terminated_of_last hN _
      (String.silent_append_last hN (BaseString.ctor N) (char_ptr.ext t)
        (BaseString.last_ctor hN))
    exact ⟨hterm, hterm⟩
  · show (String.operator_plus_eq (BaseString.ctor N) char_ptr.null).state.text = []
    rw [hnull]
    exact BaseString.text_ctor N
  · rw [hn]
    exact String.silent_never_throws _ _
  · rw [hn, hnull]
    exact BaseString.text_ctor N

theorem StringStrict.strict_append_text {N : Nat} (hN : 0 < N) (s : BaseString N)
    (src : char_ptr) (t : List char8_t) (ht : src.deref s = some t) :
    ((StringStrict.operator_plus_eq s src).thrown = some Exn.overflow_error ↔
      s.length + strlen t > N - 1) ∧
    (¬ s.length + strlen t > N - 1 →
      (StringStrict.operator_plus_eq s src).thrown = none ∧
      (StringStrict.operator_plus_eq s src).state.text = s.text ++ c_text t) := by
  have hmin := strnlen_eq_min t N
  have hll := s.length_le
  by_cases hfit : s.length + strnlen t N + 1 ≤ N
  · have hno : ¬ s.length + strlen t > N - 1 := by omega
    have hlt : strnlen t N = strlen t := by omega
    have hres := s.append_result t (strnlen t N)
      (by rw [hlt]; exact strlen_le_length t)
      (by
        intro c hc
        rw [take_strnlen] at hc
        exact c_text_ne_zero t c (List.mem_of_mem_take hc))
      (by omega)
    have htake : t.take (strnlen t N) = c_text t := by rw [hlt]; exact take_strlen t
    refine ⟨?_, fun _ => ⟨?_, ?_⟩⟩
    · simp [StringStrict.operator_plus_eq, ht, BaseString.get_buffer_size, hfit, hno]
    · simp [StringStrict.operator_plus_eq, ht, BaseString.get_buffer_size, hfit]
    · simp only [StringStrict.operator_plus_eq, ht, BaseString.get_buffer_size, hfit, if_true]
      rw [hres.2.2, htake]
  · have hyes : s.length + strlen t > N - 1 := by omega
    refine ⟨?_, fun h => absurd hyes h⟩
    simp [StringStrict.operator_plus_eq, ht, BaseString.get_buffer_size, hfit, hyes]

theorem StringStrict.strict_from_empty {N : Nat} (hN : 0 < N) (t : List char8_t) :
    (StringStrict.ctor_text N (char_ptr.ext t) = Except.error Exn.overflow_error ↔
      strlen t > N - 1) ∧
    (¬ strlen t > N - 1 → ∃ r : BaseString N,
      StringStrict.ctor_text N (char_ptr.ext t) = Except.ok r ∧ r.text = c_text t ∧
      r.terminated) := by
  have h := StringStrict.strict_append_text hN (BaseString.ctor N) (char_ptr.ext t) t rfl
  rw [BaseString.text_ctor, BaseString.length_ctor, List.nil_append, Nat.zero_add] at h
  have hlast := StringStrict.strict_append_last hN (BaseString.ctor N) (char_ptr.ext t)
    (BaseString.last_ctor hN)
  by_cases hlong : strlen t > N - 1
  · have hthrown := h.1.2 hlong
    refine ⟨⟨fun _ => hlong, fun _ => ?_⟩, fun hn => absurd hlong hn⟩
    unfold StringStrict.ctor_text
    simp only [hthrown]
  · obtain ⟨hnone, htext⟩ := h.2 hlong
    have hok : StringStrict.ctor_text N (char_ptr.ext t) =
        Except.ok (StringStrict.operator_plus_eq (BaseString.ctor N) (char_ptr.ext t)).state := by
      unfold StringStrict.ctor_text
      simp only [hnone]
    refine ⟨⟨fun he => ?_, fun hl => absurd hl hlong⟩, fun _ => ⟨_, hok, htext, ?_⟩⟩
    · rw [hok] at he
      cases he
    · exact BaseString.terminated_of_last hN _ hlast

/-- Claim C14: strict construction. `StringStrict<N>(src)` throws
`std::invalid_argument` for a null `src`, throws `std::overflow_error` exactly
when `src` has more than `N - 1` characters (so also for a null-terminated
`BaseString<LEN>` source that long), and otherwise holds exactly the text of
`src`, null-terminated. -/
theorem StringStrict.strict_construct_spec {N : Nat} (hN : 0 < N) (t : List char8_t) :
    StringStrict.ctor_text N char_ptr.null = Except.error Exn.invalid_argument ∧
    (StringStrict.ctor_text N (char_ptr.ext t) = Except.error Exn.overflow_error ↔
      strlen t > N - 1) ∧
    (¬ strlen t > N - 1 → ∃ r : BaseString N,
      StringStrict.ctor_text N (char_ptr.ext t) = Except.ok r ∧ r.text = c_text t ∧
      r.terminated) ∧
    (∀ (LEN : Nat) (src : BaseString LEN), src.terminated → src.length > N - 1 →
      StringStrict.ctor_text N src.c_str = Except.error Exn.overflow_error) := by
  have h := StringStrict.strict_from_empty hN t
  refine ⟨rfl, h.1, h.2, ?_⟩
  intro LEN src hterm hlong
  have hs := StringStrict.strict_from_empty hN src.m_string
  rw [src.strlen_of_terminated hterm] at hs
  exact hs.1.2 hlong

/-- Claim C14 at `StringStrict<256>` from the 256 bytes `0xFF` of an
`apex_string_t` without terminator, and at `StringStrict<3>` from `"123"`:
both throw `std::overflow_error`; `StringStrict<8>("123")` holds `"123"`. -/
theorem StringStrict.strict_construct_spec_witness :
    0 < 256 ∧
    StringStrict.ctor_text 256 (char_ptr.ext (List.replicate 256 255)) =
      Except.error Exn.overflow_error ∧
    StringStrict.ctor_text 3 (char_ptr.ext test_123) = Except.error Exn.overflow_error ∧
    ∃ r : BaseString 8, StringStrict.ctor_text 8 (char_ptr.ext test_123) = Except.ok r ∧
      r.text = test_123 := by
  refine ⟨by decide, ?_, ?_, ?_⟩
  · exact (StringStrict.strict_construct_spec (by decide) (List.replicate 256 255)).2.1.2 (by
      set_option maxRecDepth 100000 in decide)
  · exact (StringStrict.strict_construct_spec (by decide) test_123).2.1.2 (by decide)
  · obtain ⟨r, hr, ht, _⟩ :=
      (StringStrict.strict_construct_spec (N := 8) (by decide) test_123).2.2.1 (by decide)
    exact ⟨r, hr, ht⟩

theorem hash_step_eq (c seed : Nat) :
    wrap64 (wrap64 (wrap64 (c + 0x9e3779b9) + wrap64 (seed <<< 6)) + (seed >>> 2)) =
      (c + 0x9e3779b9 + (seed <<< 6) + (seed >>> 2)) % 2 ^ 64 := by
  unfold wrap64
  omega

theorem BaseString.text_drop_cons {N : Nat} (str : BaseString N) (idx : Nat)
    (h : idx < str.size) :
    str.operator_index idx = Except.ok (str.m_string.getD idx 0) ∧
    str.text.drop idx = str.m_string.getD idx 0 :: str.text.drop (idx + 1) := by
  have hsz : str.size = str.length := rfl
  have hL := str.length_le
  have hN : idx < N := by omega
  have hlen : idx < str.m_string.length := by rw [str.hsize]; exact hN
  constructor
  · unfold BaseString.operator_index BaseString.get_buffer_size
    rw [if_neg (by omega)]
  · have htl : idx < str.text.length := by rw [str.length_text]; omega
    rw [List.drop_eq_getElem_cons htl]
    congr 1
    unfold BaseString.text
    rw [List.getElem_take, List.getD_eq_getElem?_getD, List.getElem?_eq_getElem hlen]
    rfl

theorem std_hash_loop_eq {N : Nat} (str : BaseString N) :
    ∀ fuel idx seed : Nat, idx ≤ str.size → str.size - idx ≤ fuel →
      std_hash_loop str fuel idx seed = some ((str.text.drop idx).foldl
        (fun seed c => seed ^^^ ((c.val + 0x9e3779b9 + (seed <<< 6) + (seed >>> 2)) % 2 ^ 64))
        seed) := by
  have hsz : str.size = str.length := rfl
  have hend : ∀ idx, ¬ idx < str.size → str.text.drop idx = [] := by
    intro idx h
    apply List.drop_of_length_le
    rw [str.length_text]
    omega
  intro fuel
  induction fuel with
  | zero =>
    intro idx seed h1 h2
    have hn : ¬ idx < str.size := by omega
    unfold std_hash_loop
    rw [if_neg hn, hend idx hn]
    rfl
  | succ k ih =>
    intro idx seed h1 h2
    unfold std_hash_loop
    by_cases hlt : idx < str.size
    · obtain ⟨hidx, hdrop⟩ := str.text_drop_cons idx hlt
      rw [if_pos hlt, hidx, hdrop, List.foldl_cons]
      simp only
      rw [hash_step_eq, ih (idx + 1) _ (by omega) (by omega)]
    · rw [if_neg hlt, hend idx hlt]
      rfl

theorem std_hash_eq {N : Nat} (str : BaseString N) :
    std_hash str = some (hash_of_text str.text) := by
  unfold std_hash hash_of_text
  rw [std_hash_loop_eq str str.size 0 str.size (Nat.zero_le _) (by omega), List.drop_zero,
    str.length_text]
  rfl

/-- Claim C20: `std::hash` of a fixed string returns the fold the
specification describes over the logical content, so two buffers of any
declared sizes with the same logical text have the same hash value, whatever
bytes follow the terminator. -/
theorem std_hash_spec {N M : Nat} (a : BaseString N) (b : BaseString M) :
    std_hash a = some (hash_of_text a.text) ∧
    (a.text = b.text → std_hash a = std_hash b) := by
  refine ⟨std_hash_eq a, fun h => ?_⟩
  rw [std_hash_eq a, std_hash_eq b, h]

/-- Claim C20 at `String<8>("abc")` and a `String<16>("abc")` with a stray
byte stored behind its terminator: the buffers differ, the hashes agree. -/
theorem std_hash_spec_witness :
    (String.ctor_text 8 (char_ptr.ext test_abc)).text =
      ((String.ctor_text 16 (char_ptr.ext test_abc)).store 9 65).text ∧
    ((String.ctor_text 16 (char_ptr.ext test_abc)).store 9 65).m_string ≠
      (String.ctor_text 16 (char_ptr.ext test_abc)).m_string ∧
    std_hash (String.ctor_text 8 (char_ptr.ext test_abc)) =
      std_hash ((String.ctor_text 16 (char_ptr.ext test_abc)).store 9 65) :=
  ⟨by decide, by decide,
    (std_hash_spec (String.ctor_text 8 (char_ptr.ext test_abc))
      ((String.ctor_text 16 (char_ptr.ext test_abc)).store 9 65)).2 (by decide)⟩

/-! ## Indexing -/

/-- Claim C21: `operator[](idx)`, const and non-const, throws
`std::out_of_range` exactly when `idx ≥ N`; for `idx` in `0..N-1`, the
terminator slot `N - 1` included, the const overload returns the buffer byte
at `idx` and the non-const one a reference to that cell. -/
theorem BaseString.operator_index_spec {N : Nat} (this : BaseString N) (idx : Nat) :
    (this.operator_index idx = Except.error Exn.out_of_range ↔ idx ≥ N) ∧
    (this.operator_index_ref idx = Except.error Exn.out_of_range ↔ idx ≥ N) ∧
    (idx < N → ∃ c : char8_t, this.operator_index idx = Except.ok c ∧
      this.m_string[idx]? = some c ∧ this.operator_index_ref idx = Except.ok idx) := by
  unfold BaseString.operator_index BaseString.operator_index_ref BaseString.get_buffer_size
  by_cases h : idx ≥ N
  · simp [h]
  · have hlt : idx < this.m_string.length := by rw [this.hsize]; omega
    rw [if_neg h, if_neg h]
    refine ⟨⟨fun e => (by cases e), fun g => absurd g h⟩,
      ⟨fun e => (by cases e), fun g => absurd g h⟩, fun _ => ⟨_, rfl, ?_, rfl⟩⟩
    rw [List.getD_eq_getElem?_getD, List.getElem?_eq_getElem hlt]
    rfl

/-- Claim C21 at `String<4>("123")`: index `3`, the terminator slot, reads
`0`, and index `4` throws. -/
theorem BaseString.operator_index_spec_witness :
    3 < 4 ∧
    (String.ctor_text 4 (char_ptr.ext test_123)).operator_index 3 = Except.ok 0 ∧
    (String.ctor_text 4 (char_ptr.ext test_123)).operator_index 4 =
      Except.error Exn.out_of_range := by
  refine ⟨by decide, ?_, ?_⟩
  · obtain ⟨c, hc, hm, _⟩ := (BaseString.operator_index_spec
      (String.ctor_text 4 (char_ptr.ext test_123)) 3).2.2 (by decide)
    rw [hc]
    have : (String.ctor_text 4 (char_ptr.ext test_123)).m_string[3]? = some 0 := by decide
    rw [this] at hm
    cases hm
    rfl
  · exact (BaseString.operator_index_spec
      (String.ctor_text 4 (char_ptr.ext test_123)) 4).1.2 (by decide)

/-! ## Fill constructors and single-character appends -/

theorem BaseString.filled_text {N : Nat} (s : BaseString N) (k : Nat) (c : char8_t)
    (hc : c ≠ 0) (hk : k + 1 ≤ N)
    (hm : s.m_string = List.replicate k c ++ List.replicate (N - k) 0) :
    s.length = k ∧ s.text = List.replicate k c := by
  have hsplit : List.replicate (N - k) (0 : char8_t) = 0 :: List.replicate (N - k - 1) 0 := by
    rw [← List.replicate_succ]
    congr 1
    omega
  rw [hsplit] at hm
  have h := BaseString.text_of_prefix s _ _ hm (by
    intro x hx
    rw [List.eq_of_mem_replicate hx]
    simpa using hc)
  rw [List.length_replicate] at h
  exact h

theorem BaseString.memset_ctor_m_string (N k : Nat) (c : char8_t) (hk : k ≤ N) :
    ((BaseString.ctor N).memset c k).m_string =
      List.replicate k c ++ List.replicate (N - k) 0 := by
  show poke (List.replicate N 0) 0 (List.replicate k c) = _
  rw [poke_eq _ _ _ (by simp; omega)]
  simp

theorem BaseString.store_chr_m_string {N : Nat} (s : BaseString N) (k : Nat) (c : char8_t)
    (hk : k + 2 ≤ N)
    (hm : s.m_string = List.replicate k c ++ List.replicate (N - k) 0) :
    ((s.store k c).store (k + 1) 0).m_string =
      List.replicate (k + 1) c ++ List.replicate (N - (k + 1)) 0 := by
  show (s.m_string.set k c).set (k + 1) 0 = _
  rw [hm]
  apply List.ext_getElem?
  intro j
  simp only [List.getElem?_set, List.getElem?_append, List.getElem?_replicate,
    List.length_set, List.length_append, List.length_replicate]
  split_ifs <;> first | rfl | omega

theorem String.silent_append_chr_fill {N : Nat} (s : BaseString N) (k : Nat) (c : char8_t)
    (hc : c ≠ 0) (hk : k + 2 ≤ N)
    (hm : s.m_string = List.replicate k c ++ List.replicate (N - k) 0) :
    (String.operator_plus_eq_chr s c).state.m_string =
      List.replicate (k + 1) c ++ List.replicate (N - (k + 1)) 0 := by
  have hl := (BaseString.filled_text s k c hc (by omega) hm).1
  unfold String.operator_plus_eq_chr
  simp only [BaseString.capacity, BaseString.get_buffer_size, hl]
  rw [if_pos (by omega)]
  exact BaseString.store_chr_m_string s k c hk hm

theorem StringStrict.strict_append_chr_fill {N : Nat} (s : BaseString N) (k : Nat)
    (c : char8_t) (hc : c ≠ 0) (hk : k + 2 ≤ N)
    (hm : s.m_string = List.replicate k c ++ List.replicate (N - k) 0) :
    (StringStrict.operator_plus_eq_chr s c).thrown = none ∧
    (StringStrict.operator_plus_eq_chr s c).state.m_string =
      List.replicate (k + 1) c ++ List.replicate (N - (k + 1)) 0 := by
  have hl := (BaseString.filled_text s k c hc (by omega) hm).1
  unfold StringStrict.operator_plus_eq_chr
  simp only [BaseString.get_buffer_size, hl]
  rw [if_pos hk]
  exact ⟨rfl, BaseString.store_chr_m_string s k c hk hm⟩

theorem String.silent_run_fill (N : Nat) (c : char8_t) (hc : c ≠ 0) :
    ∀ k : Nat, k + 1 ≤ N →
      (String.run (BaseString.ctor N) (List.replicate k (StrCall.append_chr c))).m_string =
        List.replicate k c ++ List.replicate (N - k) 0 := by
  intro k
  induction k with
  | zero => intro _; simp [String.run, BaseString.ctor]
  | succ k ih =>
    intro hk
    have h := ih (by omega)
    rw [List.replicate_succ', String.run, List.foldl_append]
    exact String.silent_append_chr_fill _ k c hc (by omega) h

theorem StringStrict.strict_run_fill (N : Nat) (c : char8_t) (hc : c ≠ 0) :
    ∀ k : Nat, k + 1 ≤ N →
      (StringStrict.run (BaseString.ctor N)
        (List.replicate k (StrCall.append_chr c))).m_string =
        List.replicate k c ++ List.replicate (N - k) 0 := by
  intro k
  induction k with
  | zero => intro _; simp [StringStrict.run, BaseString.ctor]
  | succ k ih =>
    intro hk
    have h := ih (by omega)
    rw [List.replicate_succ', StringStrict.run, List.foldl_append]
    exact (StringStrict.strict_append_chr_fill _ k c hc (by omega) h).2

theorem String.silent_fill_text (N n : Nat) (c : char8_t) (hc : c ≠ 0) :
    (String.ctor_fill N n c).text = List.replicate (min n (N - 1)) c := by
  by_cases hN : 0 < N
  · have hm : (String.ctor_fill N n c).m_string =
        List.replicate (min n (N - 1)) c ++ List.replicate (N - min n (N - 1)) 0 := by
      have e : (if n < N - 1 then n else N - 1) = min n (N - 1) := by split <;> omega
      simp only [String.ctor_fill, BaseString.capacity, BaseString.get_buffer_size, e]
      exact BaseString.memset_ctor_m_string N _ c (by omega)
    exact (BaseString.filled_text _ _ c hc (by omega) hm).2
  · have h0 : N - 1 = 0 := by omega
    have hl := (String.ctor_fill N n c).length_le
    have ht := (String.ctor_fill N n c).length_text
    rw [h0, Nat.min_zero, List.replicate_zero]
    apply List.eq_nil_of_length_eq_zero
    omega

theorem StringStrict.strict_fill_ok (N n : Nat) (c : char8_t) (hc : c ≠ 0) (hN : 0 < N)
    (hfit : ¬ (n ≠ npos ∧ n > N - 1)) :
    ∃ r : BaseString N, StringStrict.ctor_fill N n c = Except.ok r ∧
      r.text = List.replicate (min n (N - 1)) c := by
  have e : (if n < N - 1 then n else N - 1) = min n (N - 1) := by split <;> omega
  refine ⟨(BaseString.ctor N).memset c (min n (N - 1)), ?_, ?_⟩
  · simp only [StringStrict.ctor_fill, BaseString.capacity, BaseString.get_buffer_size, e]
    rw [if_neg hfit]
  · exact (BaseString.filled_text _ _ c hc (by omega)
      (BaseString.memset_ctor_m_string N _ c (by omega))).2

/-- Claim C28: fill constructors, for a non-zero character `c`.
`String<N>(n, c)` holds `min(n, N - 1)` copies of `c`; `StringStrict<N>(n, c)`
throws `std::overflow_error` exactly when `n` is not `npos` and exceeds
`N - 1`, holds `N - 1` copies for `npos` and `n` copies otherwise; appending
`c` to an empty string `N - 1` times, which does not throw in the strict
variant either, gives the content of the `npos` fill. -/
theorem String.fill_spec (N n : Nat) (c : char8_t) (hc : c ≠ 0) (hN : 0 < N)
    (hN64 : N ≤ 2 ^ 64) :
    (String.ctor_fill N n c).text = List.replicate (min n (N - 1)) c ∧
    (StringStrict.ctor_fill N n c = Except.error Exn.overflow_error ↔
      n ≠ npos ∧ n > N - 1) ∧
    (n = npos → ∃ r : BaseString N, StringStrict.ctor_fill N n c = Except.ok r ∧
      r.text = List.replicate (N - 1) c) ∧
    (n ≠ npos → n ≤ N - 1 → ∃ r : BaseString N,
      StringStrict.ctor_fill N n c = Except.ok r ∧ r.text = List.replicate n c) ∧
    (String.run (BaseString.ctor N) (List.replicate (N - 1) (StrCall.append_chr c))).text =
      (String.ctor_fill N npos c).text ∧
    (∀ k, k < N - 1 → (StringStrict.operator_plus_eq_chr
      (StringStrict.run (BaseString.ctor N) (List.replicate k (StrCall.append_chr c)))
      c).thrown = none) ∧
    (∃ r : BaseString N, StringStrict.ctor_fill N npos c = Except.ok r ∧
      (StringStrict.run (BaseString.ctor N)
        (List.replicate (N - 1) (StrCall.append_chr c))).text = r.text) := by
  have hnpos : npos = 2 ^ 64 - 1 := rfl
  have hmin : min npos (N - 1) = N - 1 := by omega
  refine ⟨String.silent_fill_text N n c hc, ?_, ?_, ?_, ?_, ?_, ?_⟩
  · constructor
    · intro h
      by_contra hfit
      obtain ⟨r, hr, _⟩ := StringStrict.strict_fill_ok N n c hc hN hfit
      rw [hr] at h
      cases h
    · intro h
      simp only [StringStrict.ctor_fill, BaseString.capacity, BaseString.get_buffer_size]
      rw [if_pos h]
  · intro hn
    obtain ⟨r, hr, ht⟩ := StringStrict.strict_fill_ok N n c hc hN (fun h => h.1 hn)
    refine ⟨r, hr, ?_⟩
    rw [ht, hn, hmin]
  · intro _ hle
    obtain ⟨r, hr, ht⟩ := StringStrict.strict_fill_ok N n c hc hN (fun h => by omega)
    refine ⟨r, hr, ?_⟩
    rw [ht, Nat.min_eq_left hle]
  · rw [String.silent_fill_text N npos c hc, hmin]
    exact (BaseString.filled_text _ _ c hc (by omega)
      (String.silent_run_fill N c hc (N - 1) (by omega))).2
  · intro k hk
    exact (StringStrict.strict_append_chr_fill _ k c hc (by omega)
      (StringStrict.strict_run_fill N c hc k (by omega))).1
  · obtain ⟨r, hr, ht⟩ := StringStrict.strict_fill_ok N npos c hc hN (fun h => h.1 rfl)
    refine ⟨r, hr, ?_⟩
    rw [ht, hmin]
    exact (BaseString.filled_text _ _ c hc (by omega)
      (StringStrict.strict_run_fill N c hc (N - 1) (by omega))).2

/-- Claim C28 at `N = 8` and `c = '*'`: `String<8>(npos, '*')` holds seven
stars and `StringStrict<8>(8, '*')` throws. -/
theorem String.fill_spec_witness :
    (42 : char8_t) ≠ 0 ∧ 0 < 8 ∧ 8 ≤ 2 ^ 64 ∧
    (String.ctor_fill 8 npos 42).text = List.replicate 7 42 ∧
    StringStrict.ctor_fill 8 8 42 = Except.error Exn.overflow_error :=
  ⟨by decide, by decide, by norm_num,
    (String.fill_spec 8 npos 42 (by decide) (by decide) (by norm_num)).1.trans (by decide),
    (String.fill_spec 8 8 42 (by decide) (by decide) (by norm_num)).2.1.2 (by decide)⟩

/-! ## The C helpers on `apex_string_t` -/

theorem c_text_before_zero (p q : List char8_t) (hp : ∀ c ∈ p, (c != 0) = true) :
    c_text (p ++ 0 :: q) = p ∧ strlen (p ++ 0 :: q) = p.length := by
  have h : c_text (p ++ 0 :: q) = p := by
    unfold c_text
    rw [List.takeWhile_append_of_pos hp]
    simp
  refine ⟨h, ?_⟩
  have : strlen (p ++ 0 :: q) = (c_text (p ++ 0 :: q)).length := rfl
  rw [this, h]

theorem strncat_set (d s : List char8_t) (hfit : strlen d + strlen s + 1 ≤ d.length) :
    (strncat d s (strlen s)).set (strlen d + strlen s) 0 =
      (c_text d ++ c_text s) ++ 0 :: d.drop (strlen d + strlen s + 1) := by
  have hb : strnlen s (strlen s) = strlen s := by rw [strnlen_eq_min]; omega
  have hlen : (c_text s).length = strlen s := rfl
  have hlen2 : (c_text d).length = strlen d := rfl
  unfold strncat
  rw [hb, take_strlen, poke_eq _ _ _ (by rw [List.length_append, hlen]; simpa using hfit),
    take_strlen, List.length_append, hlen]
  simp only [List.length_singleton, ← Nat.add_assoc]
  have key : ∀ p t r : List char8_t,
      (p ++ (t ++ [0]) ++ r).set (p.length + t.length) 0 = (p ++ t) ++ 0 :: r := by
    intro p t r
    simp [List.append_assoc]
  exact key (c_text d) (c_text s) _

/-- Claim C29: `apex_string_add_strict(dst, src)` returns `APEX_RET_OK`
exactly when both pointers are non-null and
`strlen(dst) + strlen(src) + 1 ≤ 256`, and `APEX_RET_ERROR` otherwise; on
`APEX_RET_OK` the object holds its old text followed by the text of `src`,
null-terminated; on `APEX_RET_ERROR` it is unchanged. -/
theorem apex_string_add_strict_spec (dst : Option apex_string_t)
    (src : Option (List char8_t)) :
    ((apex_string_add_strict dst src).1 = APEX_RET_OK ↔
      ∃ d s, dst = some d ∧ src = some s ∧
        strlen d.c_str + strlen s + 1 ≤ APEX_STRING_SIZE) ∧
    ((apex_string_add_strict dst src).1 ≠ APEX_RET_OK →
      (apex_string_add_strict dst src).1 = APEX_RET_ERROR ∧
      (apex_string_add_strict dst src).2 = dst) ∧
    (∀ d s, dst = some d → src = some s →
      strlen d.c_str + strlen s + 1 ≤ APEX_STRING_SIZE →
      ∃ d2 : apex_string_t, (apex_string_add_strict dst src).2 = some d2 ∧
        c_text d2.c_str = c_text d.c_str ++ c_text s ∧
        d2.c_str[strlen d.c_str + strlen s]? = some 0) := by
  have hne : APEX_RET_ERROR ≠ APEX_RET_OK := by decide
  cases dst with
  | none =>
    refine ⟨⟨fun h => absurd h hne, fun ⟨d, s, h, _⟩ => by cases h⟩, fun _ => ⟨rfl, rfl⟩,
      fun d s h => by cases h⟩
  | some d =>
    cases src with
    | none =>
      refine ⟨⟨fun h => absurd h hne, fun ⟨_, s, _, h, _⟩ => by cases h⟩,
        fun _ => ⟨rfl, rfl⟩, fun _ s _ h => by cases h⟩
    | some s =>
      have h1 := strnlen_eq_min d.c_str APEX_STRING_SIZE
      have h2 := strnlen_eq_min s APEX_STRING_SIZE
      by_cases hfit : strnlen d.c_str APEX_STRING_SIZE + strnlen s APEX_STRING_SIZE + 1 ≤
          APEX_STRING_SIZE
      · have e1 : strnlen d.c_str APEX_STRING_SIZE = strlen d.c_str := by omega
        have e2 : strnlen s APEX_STRING_SIZE = strlen s := by omega
        have hfit2 : strlen d.c_str + strlen s + 1 ≤ APEX_STRING_SIZE := by omega
        have hset := strncat_set d.c_str s (by rw [d.hsize]; exact hfit2)
        have hnz : ∀ c ∈ c_text d.c_str ++ c_text s, (c != 0) = true := by
          intro c hc
          rcases List.mem_append.1 hc with h | h
          · exact c_text_ne_zero _ c h
          · exact c_text_ne_zero _ c h
        have hdef : ∃ d2 : apex_string_t,
            apex_string_add_strict (some d) (some s) = (APEX_RET_OK, some d2) ∧
            d2.c_str = (strncat d.c_str s (strlen s)).set (strlen d.c_str + strlen s) 0 := by
          simp only [apex_string_add_strict, if_pos hfit]
          exact ⟨_, rfl, by simp only [e1, e2]⟩
        obtain ⟨d2, hd2, hc2⟩ := hdef
        rw [hd2]
        refine ⟨⟨fun _ => ⟨d, s, rfl, rfl, hfit2⟩, fun _ => rfl⟩, fun h => absurd rfl h, ?_⟩
        intro d0 s0 hd hs _
        cases hd
        cases hs
        refine ⟨d2, rfl, ?_, ?_⟩
        · rw [hc2, hset]
          exact (c_text_before_zero _ _ hnz).1
        · rw [hc2, hset]
          have hl : strlen d.c_str + strlen s = (c_text d.c_str ++ c_text s).length := by
            rw [List.length_append]
            rfl
          rw [hl, List.getElem?_append_right (Nat.le_refl _), Nat.sub_self]
          simp
      · have hno : ¬ strlen d.c_str + strlen s + 1 ≤ APEX_STRING_SIZE := by omega
        have hdef : apex_string_add_strict (some d) (some s) = (APEX_RET_ERROR, some d) := by
          simp only [apex_string_add_strict, if_neg hfit]
        rw [hdef]
        refine ⟨⟨fun h => absurd h hne, fun ⟨d0, s0, hd, hs, hf⟩ => ?_⟩, fun _ => ⟨rfl, rfl⟩,
          fun d0 s0 hd hs hf => ?_⟩
        · cases hd
          cases hs
          exact absurd hf hno
        · cases hd
          cases hs
          exact absurd hf hno

/-- Claim C29 at an empty object and the text `"a"`: the call returns
`APEX_RET_OK` and leaves `"a"`. -/
theorem apex_string_add_strict_spec_witness :
    strlen apex_string_create.c_str + strlen test_a + 1 ≤ APEX_STRING_SIZE ∧
    (apex_string_add_strict (some apex_string_create) (some test_a)).1 = APEX_RET_OK ∧
    ∃ d2 : apex_string_t,
      (apex_string_add_strict (some apex_string_create) (some test_a)).2 = some d2 ∧
      c_text d2.c_str = test_a := by
  have hfit : strlen apex_string_create.c_str + strlen test_a + 1 ≤ APEX_STRING_SIZE := by
    decide
  refine ⟨hfit, ?_, ?_⟩
  · exact (apex_string_add_strict_spec (some apex_string_create) (some test_a)).1.2
      ⟨_, _, rfl, rfl, hfit⟩
  · obtain ⟨d2, h2, ht, _⟩ := (apex_string_add_strict_spec (some apex_string_create)
      (some test_a)).2.2 _ _ rfl rfl hfit
    exact ⟨d2, h2, ht.trans (by decide)⟩

/-- Claim C30, the code at a failing input: `apex_string_add2_strict` on an
empty `dst` with `"a"` and a text of 255 characters returns `APEX_RET_ERROR`,
the second text not fitting, and yet leaves `"a"` in `dst`; the same happens
when the second source is `NULL`. -/
theorem apex_string_add2_strict_partial :
    (apex_string_add2_strict (some apex_string_create) (some test_a) (some test_b255)).1 =
      APEX_RET_ERROR ∧
    ((apex_string_add2_strict (some apex_string_create) (some test_a) (some test_b255)).2.map
      fun d => c_text d.c_str) = some test_a ∧
    (apex_string_add2_strict (some apex_string_create) (some test_a) (some test_b255)).2 ≠
      some apex_string_create ∧
    (apex_string_add2_strict (some apex_string_create) (some test_a) none).1 =
      APEX_RET_ERROR ∧
    ((apex_string_add2_strict (some apex_string_create) (some test_a) none).2.map
      fun d => c_text d.c_str) = some test_a := by
  set_option maxRecDepth 100000 in
  exact ⟨by decide, by decide, by decide, by decide, by decide⟩

/-! ## Integers to text -/

theorem decimal_digits_fuel : ∀ (v fuel : Nat), v ≤ fuel →
    decimal_digits fuel v = decimal_digits v v := by
  intro v
  induction v using Nat.strong_induction_on with
  | _ v ih =>
    intro fuel hle
    by_cases hv : v = 0
    · subst hv
      cases fuel with
      | zero => rfl
      | succ f => simp [decimal_digits]
    · obtain ⟨f, rfl⟩ : ∃ f, fuel = f + 1 := ⟨fuel - 1, by omega⟩
      obtain ⟨w, rfl⟩ : ∃ w, v = w + 1 := ⟨v - 1, by omega⟩
      have hlt : (w + 1) / 10 < w + 1 := Nat.div_lt_self (by omega) (by omega)
      simp only [decimal_digits, if_neg hv]
      rw [ih _ hlt f (by omega), ih _ hlt w (by omega)]

theorem decimal_digits_zero : decimal_digits 0 0 = [] := rfl

theorem decimal_digits_pos (v : Nat) (hv : v ≠ 0) :
    decimal_digits v v =
      decimal_digits (v / 10) (v / 10) ++ [⟨48 + v % 10, by omega⟩] := by
  obtain ⟨w, rfl⟩ : ∃ w, v = w + 1 := ⟨v - 1, by omega⟩
  have hlt : (w + 1) / 10 < w + 1 := Nat.div_lt_self (by omega) (by omega)
  simp only [decimal_digits, if_neg hv]
  rw [decimal_digits_fuel _ w (by omega)]

theorem decimal_digits_eq_nil (v : Nat) : decimal_digits v v = [] ↔ v = 0 := by
  constructor
  · intro h
    by_contra hv
    rw [decimal_digits_pos v hv] at h
    simp at h
  · intro h
    subst h
    rfl

theorem digits_value_append (p : List char8_t) (c : char8_t) :
    digits_value (p ++ [c]) = digits_value p * 10 + (c.val - 48) := by
  simp [digits_value, List.foldl_append]

theorem decimal_digits_facts : ∀ v : Nat,
    (∀ c ∈ decimal_digits v v, 48 ≤ c.val ∧ c.val ≤ 57) ∧
    (decimal_digits v v).head? ≠ some 48 ∧
    digits_value (decimal_digits v v) = v := by
  intro v
  induction v using Nat.strong_induction_on with
  | _ v ih =>
    by_cases hv : v = 0
    · subst hv
      simp [decimal_digits, digits_value]
    · have hlt : v / 10 < v := Nat.div_lt_self (by omega) (by omega)
      obtain ⟨h1, h2, h3⟩ := ih _ hlt
      rw [decimal_digits_pos v hv]
      refine ⟨?_, ?_, ?_⟩
      · intro c hc
        rcases List.mem_append.1 hc with h | h
        · exact h1 c h
        · rw [List.mem_singleton] at h
          subst h
          show 48 ≤ 48 + v % 10 ∧ 48 + v % 10 ≤ 57
          omega
      · by_cases h0 : v / 10 = 0
        · rw [h0, decimal_digits_zero, List.nil_append, List.head?_cons]
          intro h
          have h := congrArg (fun o => o.map Fin.val) h
          simp only [Option.map_some'] at h
          have : 48 + v % 10 = 48 := Option.some.inj h
          omega
        · have hne : decimal_digits (v / 10) (v / 10) ≠ [] :=
            fun h => h0 ((decimal_digits_eq_nil _).1 h)
          rw [List.head?_append_of_ne_nil _ hne]
          exact h2
      · rw [digits_value_append, h3]
        show v / 10 * 10 + (48 + v % 10 - 48) = v
        omega

theorem g_decimal_digits_getD : ∀ d, d < 10 →
    (g_decimal_digits.getD d 0).val = 48 + d := by
  decide

theorem set_digit_and_terminator (W r : List char8_t) (a b c : char8_t) :
    ((W ++ a :: b :: r).set W.length c).set (W.length + 1) 0 = W ++ c :: 0 :: r := by
  simp [List.set_append]

theorem write_digit (buf W : List char8_t) (c : char8_t) (htake : buf.take W.length = W)
    (hlen : W.length + 1 < buf.length) :
    ((buf.set W.length c).set (W.length + 1) 0).take (W ++ [c]).length = W ++ [c] ∧
    ((buf.set W.length c).set (W.length + 1) 0)[(W ++ [c]).length]? = some 0 := by
  have hsplit : buf = W ++ buf.drop W.length := by
    conv_lhs => rw [← List.take_append_drop W.length buf, htake]
  have hdl : (buf.drop W.length).length = buf.length - W.length := List.length_drop _ _
  obtain ⟨a, b, r, hr⟩ : ∃ a b r, buf.drop W.length = a :: b :: r := by
    match h : buf.drop W.length with
    | [] => rw [h] at hdl; simp at hdl; omega
    | [_] => rw [h] at hdl; simp at hdl; omega
    | a :: b :: r => exact ⟨a, b, r, rfl⟩
  rw [hr] at hsplit
  rw [hsplit, set_digit_and_terminator]
  constructor
  · have : W ++ c :: 0 :: r = (W ++ [c]) ++ 0 :: r := by simp
    rw [this]
    exact List.take_left' rfl
  · have : W ++ c :: 0 :: r = (W ++ [c]) ++ 0 :: r := by simp
    rw [this, List.getElem?_append_right (Nat.le_refl _), Nat.sub_self]
    simp

theorem to_string_locals.written_push {N : Nat} (st : to_string_locals N) (W : List char8_t)
    (h : st.written W) (digit : Nat) (hN : W.length + 1 < N) :
    to_string_locals.written
      { retval_m_string :=
          (st.retval_m_string.store st.str_idx (g_decimal_digits.getD digit 0)).store
            (st.str_idx + 1) 0,
        digit_happened := true,
        str_idx := st.str_idx + 1 }
      (W ++ [g_decimal_digits.getD digit 0]) := by
  obtain ⟨h1, h2, _, _⟩ := h
  have hw := write_digit st.retval_m_string.m_string W (g_decimal_digits.getD digit 0) h2
    (by rw [st.retval_m_string.hsize]; exact hN)
  refine ⟨?_, ?_, ?_, ?_⟩
  · show st.str_idx + 1 = _
    rw [h1, List.length_append]
    rfl
  · show ((st.retval_m_string.m_string.set st.str_idx _).set (st.str_idx + 1) 0).take _ = _
    rw [h1]
    exact hw.1
  · intro _
    show ((st.retval_m_string.m_string.set st.str_idx _).set (st.str_idx + 1) 0)[_]? = _
    rw [h1]
    exact hw.2
  · simp

theorem to_string_loop {N : Nat} (uninitialised : BaseString N) (v k : Nat)
    (dividers : List Nat) (hdiv : ∀ i, i < k → dividers.getD i 0 = 10 ^ (k - 1 - i))
    (hv : v < 10 ^ k) (hk : 0 < k) (hN : k + 1 ≤ N) :
    ∀ i, i ≤ k →
      ((List.range i).foldl (templated_unsingned_to_string_body v dividers k)
        { retval_m_string := uninitialised, digit_happened := false, str_idx := 0 }).written
        (written_digits v k i) ∧
      (written_digits v k i).length ≤ i := by
  intro i
  induction i with
  | zero =>
    intro _
    have h0 : v / 10 ^ (k - 0) = 0 := Nat.div_eq_of_lt (by simpa using hv)
    have hw : written_digits v k 0 = [] := by
      unfold written_digits
      rw [if_neg (by omega), h0]
      rfl
    rw [hw]
    exact ⟨⟨rfl, rfl, fun h => absurd rfl h, by simp⟩, Nat.le_refl _⟩
  | succ i ih =>
    intro hi
    obtain ⟨hinv, hlen⟩ := ih (by omega)
    rw [List.range_succ, List.foldl_append, List.foldl_cons, List.foldl_nil]
    generalize (List.range i).foldl (templated_unsingned_to_string_body v dividers k)
      { retval_m_string := uninitialised, digit_happened := false, str_idx := 0 } = st at hinv
    have hpow : 10 ^ (k - i) = 10 ^ (k - 1 - i) * 10 := by
      rw [← pow_succ]
      congr 1
      omega
    have hm : v / 10 ^ (k - i) = v / 10 ^ (k - 1 - i) / 10 := by
      rw [hpow, Nat.div_div_eq_div_mul]
    have hki : k - (i + 1) = k - 1 - i := by omega
    have hWi : written_digits v k i =
        decimal_digits (v / 10 ^ (k - 1 - i) / 10) (v / 10 ^ (k - 1 - i) / 10) := by
      unfold written_digits
      rw [if_neg (by omega), hm]
    rw [hWi] at hinv hlen
    have hhap := hinv.2.2.2
    unfold templated_unsingned_to_string_body
    simp only [hdiv i (by omega)]
    by_cases hm0 : v / 10 ^ (k - 1 - i) = 0
    · have hW0 : decimal_digits (v / 10 ^ (k - 1 - i) / 10) (v / 10 ^ (k - 1 - i) / 10) = [] := by
        rw [hm0]
        rfl
      rw [hW0] at hinv hlen hhap
      have hnh : ¬ st.digit_happened = true := fun h => (hhap.1 h) rfl
      by_cases hlast : i = k - 1
      · have hv0 : v = 0 := by
          have : k - 1 - i = 0 := by omega
          rw [this, pow_zero, Nat.div_one] at hm0
          exact hm0
        have hW1 : written_digits v k (i + 1) = [] ++ [g_decimal_digits.getD 0 0] := by
          unfold written_digits
          rw [if_pos ⟨by omega, hv0⟩]
          rfl
        rw [if_pos (Or.inr (Or.inl hlast)), hW1, hm0]
        exact ⟨to_string_locals.written_push st [] hinv 0 (by simp; omega), by simp⟩
      · have hW1 : written_digits v k (i + 1) = [] := by
          unfold written_digits
          rw [if_neg (by omega), hki, hm0]
          rfl
        rw [if_neg (by rw [hm0]; simp [hlast, hnh]), hW1]
        exact ⟨hinv, Nat.zero_le _⟩
    · have hvne : v ≠ 0 := by
        intro h
        rw [h, Nat.zero_div] at hm0
        exact hm0 rfl
      have hc : (⟨48 + v / 10 ^ (k - 1 - i) % 10, by omega⟩ : char8_t) =
          g_decimal_digits.getD (v / 10 ^ (k - 1 - i) % 10) 0 := by
        apply Fin.ext
        rw [g_decimal_digits_getD _ (Nat.mod_lt _ (by omega))]
      have hW1 : written_digits v k (i + 1) =
          decimal_digits (v / 10 ^ (k - 1 - i) / 10) (v / 10 ^ (k - 1 - i) / 10) ++
            [g_decimal_digits.getD (v / 10 ^ (k - 1 - i) % 10) 0] := by
        unfold written_digits
        rw [if_neg (fun h => hvne h.2), hki, decimal_digits_pos _ hm0, hc]
      have hcond : v / 10 ^ (k - 1 - i) % 10 ≠ 0 ∨ i = k - 1 ∨ st.digit_happened = true := by
        by_cases hd : v / 10 ^ (k - 1 - i) % 10 = 0
        · refine Or.inr (Or.inr (hhap.2 ?_))
          intro h
          have := (decimal_digits_eq_nil _).1 h
          omega
        · exact Or.inl hd
      rw [if_pos hcond, hW1]
      refine ⟨to_string_locals.written_push st _ hinv _ (by omega), ?_⟩
      rw [List.length_append, List.length_singleton]
      omega

theorem decimal_text_facts (v : Nat) :
    (∀ c ∈ decimal_text v, 48 ≤ c.val ∧ c.val ≤ 57) ∧
    decimal_text v ≠ [] ∧
    (v ≠ 0 → (decimal_text v).head? ≠ some 48) ∧
    digits_value (decimal_text v) = v := by
  obtain ⟨h1, h2, h3⟩ := decimal_digits_facts v
  unfold decimal_text
  by_cases hv : v = 0
  · subst hv
    rw [if_pos rfl]
    refine ⟨?_, by simp, fun h => absurd rfl h, by decide⟩
    intro c hc
    rw [List.mem_singleton] at hc
    subst hc
    decide
  · rw [if_neg hv]
    exact ⟨h1, fun h => hv ((decimal_digits_eq_nil v).1 h), fun _ => h2, h3⟩

theorem decimal_text_ne_zero (v : Nat) : ∀ c ∈ decimal_text v, (c != 0) = true := by
  intro c hc
  have h := (decimal_text_facts v).1 c hc
  have : c ≠ 0 := by
    intro h0
    rw [h0] at h
    simp at h
  simpa using this

theorem written_digits_final (v k : Nat) : written_digits v k k = decimal_text v := by
  unfold written_digits decimal_text
  rw [Nat.sub_self, pow_zero, Nat.div_one]
  by_cases hv : v = 0
  · rw [if_pos ⟨rfl, hv⟩, if_pos hv]
  · rw [if_neg (fun h => hv h.2), if_neg hv]

theorem String.silent_from_text (N : Nat) (hN : 0 < N) (buf W : List char8_t)
    (hW : ∀ c ∈ W, (c != 0) = true) (htake : buf.take W.length = W)
    (hzero : buf[W.length]? = some 0) (hfit : W.length ≤ N - 1) :
    (String.ctor_text N (char_ptr.ext buf)).text = W ∧
    (String.ctor_text N (char_ptr.ext buf)).terminated := by
  have hsplit : buf = W ++ buf.drop W.length := by
    conv_lhs => rw [← List.take_append_drop W.length buf, htake]
  obtain ⟨r, hr⟩ : ∃ r, buf.drop W.length = 0 :: r := by
    match h : buf.drop W.length with
    | [] =>
      have := congrArg (fun l => l[0]?) h
      simp [hzero] at this
    | a :: r =>
      have := congrArg (fun l => l[0]?) h
      simp [hzero] at this
      exact ⟨r, by rw [this]⟩
  rw [hr] at hsplit
  obtain ⟨hc, hs⟩ := c_text_before_zero W r hW
  rw [← hsplit] at hc hs
  have h := String.silent_from_empty N buf
  constructor
  · show (String.operator_plus_eq (BaseString.ctor N) (char_ptr.ext buf)).state.text = W
    rw [h.1, hc, hs]
    exact List.take_of_length_le (by omega)
  · exact BaseString.terminated_of_last hN _
      (String.silent_append_last hN (BaseString.ctor N) (char_ptr.ext buf)
        (BaseString.last_ctor hN))

theorem String.silent_copy_text (N M : Nat) (hN : 0 < N) (src : BaseString M)
    (hsrc : src.terminated) :
    (String.operator_plus_eq (BaseString.ctor N) src.c_str).state.text = src.text.take (N - 1) ∧
    (String.operator_plus_eq (BaseString.ctor N) src.c_str).state.terminated := by
  have h := String.silent_from_empty N src.m_string
  have hl : strlen src.m_string = src.text.length := by
    rw [src.strlen_of_terminated hsrc, src.length_text]
  constructor
  · show (String.operator_plus_eq (BaseString.ctor N) (char_ptr.ext src.m_string)).state.text = _
    rw [h.1, src.c_text_of_terminated hsrc, hl]
    rcases Nat.le_total src.text.length (N - 1) with hle | hle
    · rw [Nat.min_eq_left hle, List.take_of_length_le (Nat.le_refl _),
        List.take_of_length_le hle]
    · rw [Nat.min_eq_right hle]
  · exact BaseString.terminated_of_last hN _
      (String.silent_append_last hN (BaseString.ctor N) src.c_str (BaseString.last_ctor hN))

theorem templated_unsingned_to_string_text {N : Nat} (uninitialised : BaseString N)
    (v k : Nat) (dividers : List Nat)
    (hdiv : ∀ i, i < k → dividers.getD i 0 = 10 ^ (k - 1 - i))
    (hv : v < 10 ^ k) (hk : 0 < k) (hN : k + 1 ≤ N) :
    (templated_unsingned_to_string N uninitialised v dividers k).text = decimal_text v ∧
    (templated_unsingned_to_string N uninitialised v dividers k).terminated ∧
    (decimal_text v).length ≤ k := by
  obtain ⟨⟨_, h2, h3, _⟩, hlen⟩ :=
    to_string_loop uninitialised v k dividers hdiv hv hk hN k (Nat.le_refl _)
  rw [written_digits_final] at h2 h3 hlen
  have h := String.silent_from_text N (by omega) _ (decimal_text v) (decimal_text_ne_zero v)
    h2 (h3 (decimal_text_facts v).2.1) (by omega)
  exact ⟨h.1, h.2, hlen⟩

theorem dividers_uint32_spec : ∀ i, i < 10 → dividers_uint32.getD i 0 = 10 ^ (10 - 1 - i) := by
  decide

theorem dividers_uint64_spec : ∀ i, i < 20 → dividers_uint64.getD i 0 = 10 ^ (20 - 1 - i) := by
  decide

theorem to_string_uint32_text (uninitialised : BaseString 32) (v : Nat) (hv : v < 2 ^ 32) :
    (to_string_uint32 uninitialised v).text = decimal_text v ∧
    (to_string_uint32 uninitialised v).terminated ∧
    (decimal_text v).length ≤ 10 := by
  obtain ⟨h1, h2, h3⟩ := templated_unsingned_to_string_text uninitialised v 10
    dividers_uint32 dividers_uint32_spec (by omega) (by omega) (by omega)
  have h := String.silent_copy_text 16 32 (by omega) _ h2
  unfold to_string_uint32
  rw [String.silent_assign_eq]
  refine ⟨?_, h.2, h3⟩
  rw [h.1, h1]
  exact List.take_of_length_le (by omega)

theorem to_string_uint64_text (uninitialised : BaseString 32) (v : Nat) (hv : v < 2 ^ 64) :
    (to_string_uint64 uninitialised v).text = decimal_text v ∧
    (to_string_uint64 uninitialised v).terminated ∧
    (decimal_text v).length ≤ 20 := by
  obtain ⟨h1, h2, h3⟩ := templated_unsingned_to_string_text uninitialised v 20
    dividers_uint64 dividers_uint64_spec (by omega) (by omega) (by omega)
  have h := String.silent_copy_text 32 32 (by omega) _ h2
  unfold to_string_uint64
  rw [String.silent_assign_eq]
  refine ⟨?_, h.2, h3⟩
  rw [h.1, h1]
  exact List.take_of_length_le (by omega)

/-- Claim C22: for every value `v` of `uint8_t`, `uint16_t`, `uint32_t` and
`uint64_t`, whatever the uninitialised local array holds, `apex::to_string(v)`
is the minimal decimal representation of `v` that `std::to_string` gives,
unclipped: decimal digits only, without a leading zero unless `v` is zero,
`"0"` for zero, and denoting `v`. -/
theorem to_string_unsigned_spec (uninitialised : BaseString 32) (v : Nat) :
    (v < 2 ^ 8 → (to_string_uint8 uninitialised v).text = decimal_text v) ∧
    (v < 2 ^ 16 → (to_string_uint16 uninitialised v).text = decimal_text v) ∧
    (v < 2 ^ 32 → (to_string_uint32 uninitialised v).text = decimal_text v) ∧
    (v < 2 ^ 64 → (to_string_uint64 uninitialised v).text = decimal_text v) ∧
    (∀ c ∈ decimal_text v, 48 ≤ c.val ∧ c.val ≤ 57) ∧
    decimal_text v ≠ [] ∧
    (v ≠ 0 → (decimal_text v).head? ≠ some 48) ∧
    decimal_text 0 = [48] ∧
    digits_value (decimal_text v) = v := by
  obtain ⟨f1, f2, f3, f4⟩ := decimal_text_facts v
  refine ⟨?_, ?_, fun h => (to_string_uint32_text uninitialised v h).1,
    fun h => (to_string_uint64_text uninitialised v h).1, f1, f2, f3, rfl, f4⟩
  · intro h
    unfold to_string_uint8
    rw [Nat.mod_eq_of_lt (by omega)]
    exact (to_string_uint32_text uninitialised v (by omega)).1
  · intro h
    unfold to_string_uint16
    rw [Nat.mod_eq_of_lt (by omega)]
    exact (to_string_uint32_text uninitialised v (by omega)).1

/-- Claim C22 at the largest values: `to_string(uint8_t(255))` is `"255"` and
`to_string(UINT64_MAX)` is `"18446744073709551615"`. -/
theorem to_string_unsigned_spec_witness :
    255 < 2 ^ 8 ∧ 18446744073709551615 < 2 ^ 64 ∧
    (to_string_uint8 test_stack 255).text = [50, 53, 53] ∧
    (to_string_uint64 test_stack 18446744073709551615).text =
      [49, 56, 52, 52, 54, 55, 52, 52, 48, 55, 51, 55, 48, 57, 53, 53, 49, 54, 49, 53] :=
  ⟨by norm_num, by norm_num,
    ((to_string_unsigned_spec test_stack 255).1 (by norm_num)).trans (by decide),
    ((to_string_unsigned_spec test_stack 18446744073709551615).2.2.2.1
      (by norm_num)).trans (by decide)⟩

theorem negate_uint32 (v : Int) (hlo : -2 ^ 31 ≤ v) (hhi : v < 2 ^ 31) :
    (v < 0 → to_unsigned 32 (wrap_signed 32 (-v)) = v.natAbs) ∧
    (0 ≤ v → to_unsigned 32 v = v.toNat) ∧ v.natAbs < 2 ^ 32 ∧ v.toNat < 2 ^ 32 := by
  unfold to_unsigned wrap_signed
  norm_num at hlo hhi ⊢
  refine ⟨fun h => ?_, fun h => ?_, ?_, ?_⟩ <;> omega

theorem negate_uint64 (v : Int) (hlo : -2 ^ 63 ≤ v) (hhi : v < 2 ^ 63) :
    (v < 0 → to_unsigned 64 (wrap_signed 64 (-v)) = v.natAbs) ∧
    (0 ≤ v → to_unsigned 64 v = v.toNat) ∧ v.natAbs < 2 ^ 64 ∧ v.toNat < 2 ^ 64 := by
  unfold to_unsigned wrap_signed
  norm_num at hlo hhi ⊢
  refine ⟨fun h => ?_, fun h => ?_, ?_, ?_⟩ <;> omega

theorem templated_signed_to_string_text (N M BITS L : Nat) (f : Nat → BaseString M)
    (v : Int) (hN : L + 2 ≤ N)
    (hneg : v < 0 → to_unsigned BITS (wrap_signed BITS (-v)) = v.natAbs)
    (hpos : 0 ≤ v → to_unsigned BITS v = v.toNat)
    (hf : ∀ u, u = v.natAbs ∨ u = v.toNat →
      (f u).text = decimal_text u ∧ (f u).terminated ∧ (decimal_text u).length ≤ L) :
    (templated_signed_to_string N M BITS f v).text = signed_decimal_text v ∧
    (templated_signed_to_string N M BITS f v).terminated := by
  have hlast : ∀ s : BaseString N, s.m_string[N - 1]? = some 0 → ∀ p : char_ptr,
      (String.operator_plus_eq s p).state.terminated := fun s hs p =>
    BaseString.terminated_of_last (by omega) _ (String.silent_append_last (by omega) s p hs)
  unfold templated_signed_to_string signed_decimal_text
  by_cases hv : v < 0
  · simp only [if_pos hv, hneg hv]
    obtain ⟨ht, hterm, hlen⟩ := hf v.natAbs (Or.inl rfl)
    have hm := String.silent_append_chr_fill (BaseString.ctor N) 0 45 (by decide) (by omega)
      (by simp [BaseString.ctor])
    have hfill := BaseString.filled_text _ 1 45 (by decide) (by omega) hm
    have happ := String.silent_append_text (String.operator_plus_eq_chr (BaseString.ctor N) 45).state
      (f v.natAbs).c_str (f v.natAbs).m_string rfl
    constructor
    · rw [happ.1, hfill.1, hfill.2, (f v.natAbs).c_text_of_terminated hterm, ht,
        (f v.natAbs).strlen_of_terminated hterm, ← (f v.natAbs).length_text, ht]
      exact List.take_of_length_le (by simp; omega)
    · apply hlast
      rw [hm]
      rw [List.getElem?_append_right (by simp; omega)]
      simp [List.getElem?_replicate]
      omega
  · simp only [if_neg hv, hpos (by omega)]
    obtain ⟨ht, hterm, hlen⟩ := hf v.toNat (Or.inr rfl)
    have h := String.silent_copy_text N M (by omega) _ hterm
    constructor
    · rw [h.1, ht]
      exact List.take_of_length_le (by omega)
    · exact h.2

theorem to_string_int32_text (uninitialised : BaseString 32) (v : Int)
    (hlo : -2 ^ 31 ≤ v) (hhi : v < 2 ^ 31) :
    (to_string_int32 uninitialised v).text = signed_decimal_text v ∧
    (to_string_int32 uninitialised v).terminated := by
  obtain ⟨h1, h2, h3, h4⟩ := negate_uint32 v hlo hhi
  refine templated_signed_to_string_text 16 16 32 10 _ v (by omega) h1 h2 ?_
  intro u hu
  exact to_string_uint32_text uninitialised u (by rcases hu with h | h <;> omega)

theorem to_string_int64_text (uninitialised : BaseString 32) (v : Int)
    (hlo : -2 ^ 63 ≤ v) (hhi : v < 2 ^ 63) :
    (to_string_int64 uninitialised v).text = signed_decimal_text v ∧
    (to_string_int64 uninitialised v).terminated := by
  obtain ⟨h1, h2, h3, h4⟩ := negate_uint64 v hlo hhi
  refine templated_signed_to_string_text 32 32 64 20 _ v (by omega) h1 h2 ?_
  intro u hu
  exact to_string_uint64_text uninitialised u (by rcases hu with h | h <;> omega)

/-- Claim C23: for every value `v` of `int8_t`, `int16_t`, `int32_t` and
`int64_t`, `apex::to_string(v)` is the text `std::to_string` gives: `-`
followed by the decimal digits of `|v|` when `v` is negative, the decimal
digits of `v` otherwise. The most negative values are included: negating
them wraps around to themselves and the cast to unsigned gives `|v|`. -/
theorem to_string_signed_spec (uninitialised : BaseString 32) (v : Int) :
    (-2 ^ 7 ≤ v → v < 2 ^ 7 →
      (to_string_int8 uninitialised v).text = signed_decimal_text v) ∧
    (-2 ^ 15 ≤ v → v < 2 ^ 15 →
      (to_string_int16 uninitialised v).text = signed_decimal_text v) ∧
    (-2 ^ 31 ≤ v → v < 2 ^ 31 →
      (to_string_int32 uninitialised v).text = signed_decimal_text v) ∧
    (-2 ^ 63 ≤ v → v < 2 ^ 63 →
      (to_string_int64 uninitialised v).text = signed_decimal_text v) ∧
    (v < 0 → signed_decimal_text v = 45 :: decimal_text v.natAbs) ∧
    (0 ≤ v → signed_decimal_text v = decimal_text v.toNat) ∧
    wrap_signed 32 (-(-2 ^ 31)) = -2 ^ 31 ∧ to_unsigned 32 (-2 ^ 31) = 2 ^ 31 ∧
    wrap_signed 64 (-(-2 ^ 63)) = -2 ^ 63 ∧ to_unsigned 64 (-2 ^ 63) = 2 ^ 63 := by
  refine ⟨fun h1 h2 => ?_, fun h1 h2 => ?_,
    fun h1 h2 => (to_string_int32_text uninitialised v h1 h2).1,
    fun h1 h2 => (to_string_int64_text uninitialised v h1 h2).1,
    fun h => ?_, fun h => ?_, by decide, by decide, by decide, by decide⟩
  · exact (to_string_int32_text uninitialised v (by omega) (by omega)).1
  · exact (to_string_int32_text uninitialised v (by omega) (by omega)).1
  · unfold signed_decimal_text
    rw [if_pos h]
  · unfold signed_decimal_text
    rw [if_neg (by omega)]

/-- Claim C23 at the most negative values: `to_string(INT32_MIN)` is
`"-2147483648"` and `to_string(INT64_MIN)` is `"-9223372036854775808"`. -/
theorem to_string_signed_spec_witness :
    (-2 ^ 31 : Int) ≤ -2147483648 ∧ (-2147483648 : Int) < 2 ^ 31 ∧
    (to_string_int32 test_stack (-2147483648)).text =
      [45, 50, 49, 52, 55, 52, 56, 51, 54, 52, 56] ∧
    (to_string_int64 test_stack (-9223372036854775808)).text =
      [45, 57, 50, 50, 51, 51, 55, 50, 48, 51, 54, 56, 53, 52, 55, 55, 53, 56, 48, 56] :=
  ⟨by norm_num, by norm_num,
    ((to_string_signed_spec test_stack (-2147483648)).2.2.1 (by norm_num)
      (by norm_num)).trans (by decide),
    ((to_string_signed_spec test_stack (-9223372036854775808)).2.2.2.1 (by norm_num)
      (by norm_num)).trans (by decide)⟩

/-- Claim C26: for every `N` and every `uint32_t` value `v` with `d` decimal
digits, `String<N>::to_string(v)` and `StringStrict<N>::to_string(v)` both
throw `std::overflow_error` exactly when `d > N - 1`, and otherwise both
return the decimal text of `v`. -/
theorem String.to_string_spec (N : Nat) (hN : 0 < N) (uninitialised : BaseString 32)
    (v : Nat) (hv : v < 2 ^ 32) :
    (String.to_string N uninitialised v = Except.error Exn.overflow_error ↔
      (decimal_text v).length > N - 1) ∧
    (StringStrict.to_string N uninitialised v = Except.error Exn.overflow_error ↔
      (decimal_text v).length > N - 1) ∧
    (¬ (decimal_text v).length > N - 1 →
      ∃ r1 r2 : BaseString N, String.to_string N uninitialised v = Except.ok r1 ∧
        StringStrict.to_string N uninitialised v = Except.ok r2 ∧
        r1.text = decimal_text v ∧ r2.text = decimal_text v) := by
  obtain ⟨ht, hterm, _⟩ := to_string_uint32_text uninitialised v hv
  have hlen : (to_string_uint32 uninitialised v).length = (decimal_text v).length := by
    rw [← BaseString.length_text, ht]
  have hsl : strlen (to_string_uint32 uninitialised v).m_string = (decimal_text v).length := by
    rw [BaseString.strlen_of_terminated _ hterm, hlen]
  have hs := StringStrict.strict_from_empty hN (to_string_uint32 uninitialised v).m_string
  rw [hsl, BaseString.c_text_of_terminated _ hterm, ht] at hs
  have hsize : (to_string_uint32 uninitialised v).size = (decimal_text v).length := hlen
  have hcopy := String.silent_copy_text N 16 hN _ hterm
  by_cases hd : (decimal_text v).length > N - 1
  · have h1 : String.to_string N uninitialised v = Except.error Exn.overflow_error := by
      unfold String.to_string
      simp only [hsize]
      rw [if_pos (by omega)]
    exact ⟨⟨fun _ => hd, fun _ => h1⟩, ⟨fun _ => hd, fun _ => hs.1.2 hd⟩,
      fun h => absurd hd h⟩
  · have h1 : String.to_string N uninitialised v =
        Except.ok (String.ctor_text N (to_string_uint32 uninitialised v).c_str) := by
      unfold String.to_string
      simp only [hsize]
      rw [if_neg (by omega)]
    obtain ⟨r2, hr2, ht2, _⟩ := hs.2 hd
    refine ⟨⟨fun h => ?_, fun h => absurd h hd⟩, ⟨fun h => hs.1.1 h, fun h => absurd h hd⟩,
      fun _ => ⟨_, r2, h1, hr2, ?_, ht2⟩⟩
    · rw [h1] at h
      cases h
    · show (String.operator_plus_eq (BaseString.ctor N)
        (to_string_uint32 uninitialised v).c_str).state.text = _
      rw [hcopy.1, ht]
      exact List.take_of_length_le (by omega)

/-- Claim C26 at the tested sizes: `N = 1` throws for `0`; `N = 2` returns
`"1"` and throws for `12`; `N = 8` throws for `12345670`. -/
theorem String.to_string_spec_witness :
    0 < 1 ∧ 0 < 2 ^ 32 ∧
    String.to_string 1 test_stack 0 = Except.error Exn.overflow_error ∧
    StringStrict.to_string 1 test_stack 0 = Except.error Exn.overflow_error ∧
    (∃ r1 r2 : BaseString 2, String.to_string 2 test_stack 1 = Except.ok r1 ∧
      StringStrict.to_string 2 test_stack 1 = Except.ok r2 ∧
      r1.text = [49] ∧ r2.text = [49]) ∧
    String.to_string 2 test_stack 12 = Except.error Exn.overflow_error ∧
    StringStrict.to_string 8 test_stack 12345670 = Except.error Exn.overflow_error := by
  refine ⟨by decide, by norm_num, ?_, ?_, ?_, ?_, ?_⟩
  · exact (String.to_string_spec 1 (by decide) test_stack 0 (by norm_num)).1.2 (by decide)
  · exact (String.to_string_spec 1 (by decide) test_stack 0 (by norm_num)).2.1.2 (by decide)
  · obtain ⟨r1, r2, h1, h2, h3, h4⟩ :=
      (String.to_string_spec 2 (by decide) test_stack 1 (by norm_num)).2.2 (by decide)
    exact ⟨r1, r2, h1, h2, h3.trans (by decide), h4.trans (by decide)⟩
  · exact (String.to_string_spec 2 (by decide) test_stack 12 (by norm_num)).1.2 (by decide)
  · exact (String.to_string_spec 8 (by decide) test_stack 12345670 (by norm_num)).2.1.2
      (by decide)

/-! ## Text to integers -/

theorem takeWhile_isdigit (W rest : List char8_t)
    (hW : ∀ c ∈ W, 48 ≤ c.val ∧ c.val ≤ 57) :
    (W ++ 0 :: rest).takeWhile isdigit = W := by
  rw [List.takeWhile_append_of_pos]
  · have : isdigit 0 = false := by decide
    simp [List.takeWhile_cons, this]
  · intro c hc
    have := hW c hc
    simp [isdigit, this.1, this.2]

theorem strto_subject_digits (W rest : List char8_t)
    (hW : ∀ c ∈ W, 48 ≤ c.val ∧ c.val ≤ 57) (hne : W ≠ []) :
    strto_subject (W ++ 0 :: rest) = (false, W) := by
  obtain ⟨a, t, rfl⟩ : ∃ a t, W = a :: t := by
    cases W with
    | nil => exact absurd rfl hne
    | cons a t => exact ⟨a, t, rfl⟩
  have ha := hW a (List.mem_cons_self _ _)
  have hsp : isspace a = false := by
    simp only [isspace, Bool.or_eq_false_iff, Bool.and_eq_false_iff, decide_eq_false_iff_not]
    constructor
    · omega
    · right
      omega
  have h45 : a ≠ 45 := by
    intro h
    rw [h] at ha
    exact absurd ha (by decide)
  have h43 : a ≠ 43 := by
    intro h
    rw [h] at ha
    exact absurd ha (by decide)
  have htw := takeWhile_isdigit (a :: t) rest hW
  unfold strto_subject
  simp only [List.cons_append, List.dropWhile_cons, hsp, Bool.false_eq_true, if_false,
    List.head?_cons, Option.some.injEq] at htw ⊢
  rw [if_neg h45, if_neg h43, htw]

theorem strto_subject_minus (W rest : List char8_t)
    (hW : ∀ c ∈ W, 48 ≤ c.val ∧ c.val ≤ 57) :
    strto_subject (45 :: W ++ 0 :: rest) = (true, W) := by
  have hsp : isspace 45 = false := by decide
  have htw := takeWhile_isdigit W rest hW
  unfold strto_subject
  simp only [List.cons_append, List.dropWhile_cons, hsp, Bool.false_eq_true, if_false,
    List.head?_cons, if_true, List.tail_cons]
  rw [htw]

theorem BaseString.m_string_split {N : Nat} (s : BaseString N) (h : s.terminated) :
    ∃ rest, s.m_string = s.text ++ 0 :: rest := by
  have hsplit : s.m_string = s.text ++ s.m_string.drop s.length := by
    unfold BaseString.text
    rw [List.take_append_drop]
  have hz := h.2.1
  match hd : s.m_string.drop s.length with
  | [] =>
    have := congrArg (fun l => l[0]?) hd
    simp [hz] at this
  | a :: r =>
    have := congrArg (fun l => l[0]?) hd
    simp [hz] at this
    refine ⟨r, ?_⟩
    rw [hd, ← this] at hsplit
    exact hsplit

theorem strto_subject_signed_text {N : Nat} (s : BaseString N) (h : s.terminated)
    (v : Int) (ht : s.text = signed_decimal_text v) :
    strto_subject s.m_string =
      (decide (v < 0), if v < 0 then decimal_text v.natAbs else decimal_text v.toNat) := by
  obtain ⟨rest, hm⟩ := s.m_string_split h
  rw [hm, ht]
  unfold signed_decimal_text
  by_cases hv : v < 0
  · rw [if_pos hv, if_pos hv, decide_eq_true hv]
    exact strto_subject_minus _ rest (decimal_text_facts _).1
  · rw [if_neg hv, if_neg hv, decide_eq_false hv]
    exact strto_subject_digits _ rest (decimal_text_facts _).1 (decimal_text_facts _).2.1

theorem long_bits_bounds (LONG_BITS : Nat) (h32 : 32 ≤ LONG_BITS) (h64 : LONG_BITS ≤ 64) :
    (2 : Int) ^ 31 ≤ 2 ^ (LONG_BITS - 1) ∧ (2 : Int) ^ (LONG_BITS - 1) ≤ 2 ^ 63 ∧
    2 ^ 32 ≤ 2 ^ LONG_BITS ∧ 2 ^ LONG_BITS ≤ 2 ^ 64 := by
  refine ⟨?_, ?_, ?_, ?_⟩
  · exact_mod_cast Nat.pow_le_pow_right (by omega) (by omega : 31 ≤ LONG_BITS - 1)
  · exact_mod_cast Nat.pow_le_pow_right (by omega) (by omega : LONG_BITS - 1 ≤ 63)
  · exact Nat.pow_le_pow_right (by omega) h32
  · exact Nat.pow_le_pow_right (by omega) h64

theorem digits_value_signed_text (v : Int) :
    digits_value (if v < 0 then decimal_text v.natAbs else decimal_text v.toNat) = v.natAbs := by
  by_cases hv : v < 0
  · rw [if_pos hv, (decimal_text_facts _).2.2.2]
  · rw [if_neg hv, (decimal_text_facts _).2.2.2]
    omega

theorem strto_signed_of_text {N : Nat} (BITS : Nat) (s : BaseString N) (h : s.terminated)
    (v : Int) (ht : s.text = signed_decimal_text v) :
    strto_signed BITS s.m_string = max (-(2 ^ (BITS - 1))) (min (2 ^ (BITS - 1) - 1) v) := by
  have hp : (0 : Int) < 2 ^ (BITS - 1) := by positivity
  have hd := digits_value_signed_text v
  unfold strto_signed
  rw [strto_subject_signed_text s h v ht]
  simp only
  rw [hd]
  generalize (2 : Int) ^ (BITS - 1) = p at hp ⊢
  by_cases hv : v < 0
  · rw [decide_eq_true hv, if_pos rfl]
    omega
  · rw [decide_eq_false hv, if_neg (by simp)]
    omega

theorem strto_unsigned_of_text {N : Nat} (BITS : Nat) (s : BaseString N) (h : s.terminated)
    (v : Int) (ht : s.text = signed_decimal_text v) :
    (0 ≤ v → strto_unsigned BITS s.m_string = min v.toNat (2 ^ BITS - 1)) ∧
    (v = -1 → strto_unsigned BITS s.m_string = 2 ^ BITS - 1) := by
  have hp : 0 < 2 ^ BITS := by positivity
  have hd := digits_value_signed_text v
  unfold strto_unsigned
  rw [strto_subject_signed_text s h v ht]
  simp only
  rw [hd]
  generalize 2 ^ BITS = q at hp ⊢
  constructor
  · intro hv
    have hnot : ¬ v < 0 := by omega
    rw [decide_eq_false hnot]
    split
    · omega
    · simp
      omega
  · intro hv
    have hneg : v < 0 := by omega
    have h1 : v.natAbs = 1 := by omega
    rw [decide_eq_true hneg, h1]
    split
    · rfl
    · simp only [if_true]
      rw [Nat.mod_eq_of_lt (by omega)]

theorem stol_of_text {N : Nat} (LONG_BITS : Nat) (h32 : 32 ≤ LONG_BITS) (h64 : LONG_BITS ≤ 64)
    (s : BaseString N) (h : s.terminated) (v : Int) (ht : s.text = signed_decimal_text v) :
    stol LONG_BITS s = max INT32_MIN (min INT32_MAX v) := by
  obtain ⟨b1, b2, _, _⟩ := long_bits_bounds LONG_BITS h32 h64
  unfold stol
  rw [strto_signed_of_text LONG_BITS s h v ht]
  generalize (2 : Int) ^ (LONG_BITS - 1) = p at b1 b2 ⊢
  unfold wrap_signed INT32_MIN INT32_MAX
  norm_num at b1 b2 ⊢
  split <;> split <;> omega

theorem stoll_of_text {N : Nat} (s : BaseString N) (h : s.terminated) (v : Int)
    (ht : s.text = signed_decimal_text v) :
    stoll s = max (-2 ^ 63) (min (2 ^ 63 - 1) v) := by
  unfold stoll
  rw [strto_signed_of_text 64 s h v ht]
  unfold wrap_signed
  norm_num
  omega

theorem uint32_mask (x : Nat) (hx : x ≤ UINT32_MAX) : (x &&& UINT32_MAX) % 2 ^ 32 = x := by
  have hm : UINT32_MAX = 2 ^ 32 - 1 := rfl
  rw [hm] at hx ⊢
  rw [Nat.and_pow_two_sub_one_eq_mod, Nat.mod_mod]
  exact Nat.mod_eq_of_lt (by omega)

theorem stoul_of_text {N : Nat} (LONG_BITS : Nat) (h32 : 32 ≤ LONG_BITS) (h64 : LONG_BITS ≤ 64)
    (s : BaseString N) (h : s.terminated) (v : Int) (ht : s.text = signed_decimal_text v) :
    (0 ≤ v → stoul LONG_BITS s = min v.toNat UINT32_MAX) ∧
    (v = -1 → stoul LONG_BITS s = UINT32_MAX) := by
  obtain ⟨_, _, b3, b4⟩ := long_bits_bounds LONG_BITS h32 h64
  obtain ⟨u1, u2⟩ := strto_unsigned_of_text LONG_BITS s h v ht
  have hm : UINT32_MAX = 2 ^ 32 - 1 := rfl
  unfold stoul
  generalize 2 ^ LONG_BITS = q at b3 b4 u1 u2
  constructor
  · intro hv
    rw [u1 hv]
    simp only
    rw [uint32_mask _ (by split <;> omega)]
    rw [hm]
    norm_num at b3 b4 ⊢
    split <;> omega
  · intro hv
    rw [u2 hv]
    simp only
    rw [uint32_mask _ (by split <;> omega)]
    rw [hm]
    norm_num at b3 b4 ⊢
    omega

theorem stoull_of_text {N : Nat} (s : BaseString N) (h : s.terminated) (v : Int)
    (ht : s.text = signed_decimal_text v) (hv : 0 ≤ v) :
    stoull s = min v.toNat (2 ^ 64 - 1) := by
  unfold stoull
  rw [(strto_unsigned_of_text 64 s h v ht).1 hv]
  norm_num

theorem decimal_text_signed (x : Nat) : decimal_text x = signed_decimal_text (x : Int) := by
  unfold signed_decimal_text
  rw [if_neg (by omega)]
  rfl

/-- Claim C24: integer round trip. Whatever the width of `long` between 32
and 64 bits and whatever the uninitialised local array holds,
`stoul(to_string(x)) = x` for every `uint32_t`, `stol(to_string(x)) = x` for
every `int32_t`, `stoull(to_string(x)) = x` for every `uint64_t` and
`stoll(to_string(x)) = x` for every `int64_t`. -/
theorem to_string_round_trip (uninitialised : BaseString 32) (LONG_BITS : Nat)
    (h32 : 32 ≤ LONG_BITS) (h64 : LONG_BITS ≤ 64) :
    (∀ x : Nat, x < 2 ^ 32 → stoul LONG_BITS (to_string_uint32 uninitialised x) = x) ∧
    (∀ x : Int, -2 ^ 31 ≤ x → x < 2 ^ 31 →
      stol LONG_BITS (to_string_int32 uninitialised x) = x) ∧
    (∀ x : Nat, x < 2 ^ 64 → stoull (to_string_uint64 uninitialised x) = x) ∧
    (∀ x : Int, -2 ^ 63 ≤ x → x < 2 ^ 63 → stoll (to_string_int64 uninitialised x) = x) := by
  refine ⟨fun x hx => ?_, fun x h1 h2 => ?_, fun x hx => ?_, fun x h1 h2 => ?_⟩
  · obtain ⟨ht, hterm, _⟩ := to_string_uint32_text uninitialised x hx
    rw [decimal_text_signed] at ht
    rw [(stoul_of_text LONG_BITS h32 h64 _ hterm _ ht).1 (by omega)]
    unfold UINT32_MAX
    omega
  · obtain ⟨ht, hterm⟩ := to_string_int32_text uninitialised x h1 h2
    rw [stol_of_text LONG_BITS h32 h64 _ hterm _ ht]
    unfold INT32_MIN INT32_MAX
    omega
  · obtain ⟨ht, hterm, _⟩ := to_string_uint64_text uninitialised x hx
    rw [decimal_text_signed] at ht
    rw [stoull_of_text _ hterm _ ht (by omega)]
    omega
  · obtain ⟨ht, hterm⟩ := to_string_int64_text uninitialised x h1 h2
    rw [stoll_of_text _ hterm _ ht]
    omega

/-- Claim C24 on a platform with a 64-bit `long`, at `UINT32_MAX` and
`INT32_MIN`. -/
theorem to_string_round_trip_witness :
    32 ≤ 64 ∧ 64 ≤ 64 ∧
    stoul 64 (to_string_uint32 test_stack 4294967295) = 4294967295 ∧
    stol 64 (to_string_int32 test_stack (-2147483648)) = -2147483648 :=
  ⟨by decide, by decide,
    (to_string_round_trip test_stack 64 (by decide) (by decide)).1 4294967295 (by norm_num),
    (to_string_round_trip test_stack 64 (by decide) (by decide)).2.1 (-2147483648)
      (by norm_num) (by norm_num)⟩

theorem strto_nothing (BITS : Nat) (nptr : List char8_t)
    (h : (strto_subject nptr).2 = []) :
    strto_signed BITS nptr = 0 ∧ strto_unsigned BITS nptr = 0 := by
  have hp : (0 : Int) < 2 ^ (BITS - 1) := by positivity
  have hq : 0 < 2 ^ BITS := by positivity
  unfold strto_signed strto_unsigned
  simp only [h, digits_value, List.foldl_nil]
  generalize (2 : Int) ^ (BITS - 1) = p at hp
  generalize 2 ^ BITS = q at hq
  constructor
  · split <;> omega
  · rw [if_neg (by omega)]
    split
    · simp
    · rfl

/-- Claim C25: text to integer clamping. For a null-terminated fixed string
holding the decimal text of an integer `v`, on a platform whose `long` has 32
to 64 bits: `stol` returns `v` clamped to `[INT32_MIN, INT32_MAX]`, `stoul`
returns `UINT32_MAX` when `v > UINT32_MAX` and also for `v = -1`, `stoll`
clamps to the 64-bit limits and so does `stoull` for `v ≥ 0`; a string in
which no number is found gives zero from all four. -/
theorem text_to_integer_clamping {N : Nat} (LONG_BITS : Nat) (h32 : 32 ≤ LONG_BITS)
    (h64 : LONG_BITS ≤ 64) (s : BaseString N) (hterm : s.terminated) (v : Int)
    (ht : s.text = signed_decimal_text v) :
    stol LONG_BITS s = max INT32_MIN (min INT32_MAX v) ∧
    (v > UINT32_MAX → stoul LONG_BITS s = UINT32_MAX) ∧
    (v = -1 → stoul LONG_BITS s = 0xFFFFFFFF) ∧
    stoll s = max (-2 ^ 63) (min (2 ^ 63 - 1) v) ∧
    (0 ≤ v → stoull s = min v.toNat (2 ^ 64 - 1)) ∧
    (∀ t : BaseString N, (strto_subject t.m_string).2 = [] →
      stol LONG_BITS t = 0 ∧ stoul LONG_BITS t = 0 ∧ stoll t = 0 ∧ stoull t = 0) := by
  obtain ⟨u1, u2⟩ := stoul_of_text LONG_BITS h32 h64 s hterm v ht
  refine ⟨stol_of_text LONG_BITS h32 h64 s hterm v ht, fun hv => ?_, u2,
    stoll_of_text s hterm v ht, stoull_of_text s hterm v ht, fun t hno => ?_⟩
  · have hv2 : ((UINT32_MAX : Nat) : Int) < v := hv
    rw [u1 (by omega)]
    unfold UINT32_MAX at hv2 ⊢
    omega
  · obtain ⟨a1, a2⟩ := strto_nothing LONG_BITS t.m_string hno
    obtain ⟨a3, a4⟩ := strto_nothing 64 t.m_string hno
    unfold stol stoul stoll stoull
    rw [a1, a2, a3, a4]
    exact ⟨by decide, by decide, by decide, by decide⟩

/-- Claim C25 with a 64-bit `long`: `stoul("4294967298")` is `UINT32_MAX`,
`stol("-2147483649")` is `INT32_MIN`, and `"????"` gives `0`. -/
theorem text_to_integer_clamping_witness :
    (String.ctor_text 16 (char_ptr.ext test_4294967298)).terminated ∧
    (String.ctor_text 16 (char_ptr.ext test_4294967298)).text =
      signed_decimal_text 4294967298 ∧
    stoul 64 (String.ctor_text 16 (char_ptr.ext test_4294967298)) = UINT32_MAX ∧
    stol 64 (String.ctor_text 16 (char_ptr.ext test_minus_2147483649)) = INT32_MIN ∧
    stol 64 (String.ctor_text 16 (char_ptr.ext test_question_marks)) = 0 :=
  ⟨by decide, by decide,
    (text_to_integer_clamping 64 (by decide) (by decide)
      (String.ctor_text 16 (char_ptr.ext test_4294967298)) (by decide) 4294967298
      (by decide)).2.1 (by decide),
    (text_to_integer_clamping 64 (by decide) (by decide)
      (String.ctor_text 16 (char_ptr.ext test_minus_2147483649)) (by decide) (-2147483649)
      (by decide)).1.trans (by decide),
    ((text_to_integer_clamping 64 (by decide) (by decide)
      (String.ctor_text 16 (char_ptr.ext test_4294967298)) (by decide) 4294967298
      (by decide)).2.2.2.2.2 (String.ctor_text 16 (char_ptr.ext test_question_marks))
      (by decide)).1⟩

/-! ## Texts to strings, and argument lists -/

theorem to_string_text_ext (t : List char8_t) :
    (to_string_text (char_ptr.ext t)).text = (c_text t).take (min (strlen t) 255) ∧
    (to_string_text (char_ptr.ext t)).terminated := by
  have h := String.silent_from_empty 256 t
  have ha := String.silent_assign_eq (BaseString.ctor 256) (char_ptr.ext t)
  have hdef : to_string_text (char_ptr.ext t) =
      (String.operator_assign (BaseString.ctor 256) (char_ptr.ext t)).state := rfl
  rw [hdef, ha]
  exact ⟨h.1, BaseString.terminated_of_last (by decide) _
    (String.silent_append_last (by decide) _ _ (BaseString.last_ctor (by decide)))⟩

/-- Claim C33: `apex::to_string(const char8_t * p)` does not throw and returns
a `string256_t` holding `"<nullptr>"` when `p` is null and otherwise the first
`min(strlen(p), 255)` characters of `p`, null-terminated. -/
theorem to_string_text_spec (t : List char8_t) :
    (to_string_text char_ptr.null).text = test_nullptr ∧
    (to_string_text (char_ptr.ext t)).text = (c_text t).take (min (strlen t) 255) ∧
    (to_string_text (char_ptr.ext t)).terminated ∧
    (String.operator_assign (BaseString.ctor 256) (char_ptr.ext t)).thrown = none ∧
    (String.operator_assign (BaseString.ctor 256) (char_ptr.ext test_nullptr)).thrown = none ∧
    (to_string_text (char_ptr.ext test_stars512)).text = List.replicate 255 42 ∧
    (to_string_text (char_ptr.ext [])).text = [] := by
  have hnull : to_string_text char_ptr.null = to_string_text (char_ptr.ext test_nullptr) := rfl
  have hthrow : ∀ p, (String.operator_assign (BaseString.ctor 256) p).thrown = none := by
    intro p
    rw [String.silent_assign_eq]
    exact String.silent_never_throws _ _
  refine ⟨?_, (to_string_text_ext t).1, (to_string_text_ext t).2, hthrow _, hthrow _, ?_, ?_⟩
  · rw [hnull, (to_string_text_ext test_nullptr).1]
    decide
  · rw [(to_string_text_ext test_stars512).1]
    have hc : c_text test_stars512 = test_stars512 := by
      unfold c_text test_stars512
      rw [List.takeWhile_eq_self_iff]
      intro c hc
      rw [List.eq_of_mem_replicate hc]
      decide
    have hs : strlen test_stars512 = 512 := by
      show (c_text test_stars512).length = 512
      rw [hc]
      exact List.length_replicate _ _
    rw [hc, hs]
    unfold test_stars512
    rw [List.take_replicate]
    have hm : min (min 512 255) 512 = 255 := by decide
    rw [hm]
  · rw [(to_string_text_ext []).1]
    rfl

theorem take_append_take (X Y : List char8_t) (n : Nat) :
    (X.take n ++ Y).take n = (X ++ Y).take n := by
  rw [List.take_append_eq_append_take, List.take_append_eq_append_take, List.take_take,
    Nat.min_self, List.length_take]
  congr 2
  omega

theorem String.silent_append_take {N : Nat} (s : BaseString N) (X t : List char8_t)
    (hs : s.text = X.take (N - 1)) :
    (String.operator_plus_eq s (char_ptr.ext t)).state.text = (X ++ c_text t).take (N - 1) := by
  have h := (String.silent_append_text s (char_ptr.ext t) t rfl).1
  have hl : s.length + strlen t = (s.text ++ c_text t).length := by
    rw [List.length_append, s.length_text]
    rfl
  rw [h, hl, ← List.take_take, List.take_of_length_le (by rw [List.length_take]; omega), hs,
    take_append_take]

theorem varargs_fold (argc : Nat) : ∀ (rest : List converted_arg) (st : varargs_locals)
    (X : List char8_t), (∀ a ∈ rest, a.str.terminated) →
    st.counter + rest.length = argc → st.result_str.text = X.take 255 →
    (rest.foldl (varargs_to_string_element argc) st).result_str.text =
      (X ++ joined_with_spaces (rest.map fun a => a.str.text)).take 255 := by
  intro rest
  induction rest with
  | nil =>
    intro st X _ _ hX
    simpa [joined_with_spaces] using hX
  | cons a rest ih =>
    intro st X hterm hcount hX
    have ha := hterm a (List.mem_cons_self _ _)
    have h1 := String.silent_append_take st.result_str X a.str.m_string hX
    rw [a.str.c_text_of_terminated ha] at h1
    rw [List.foldl_cons]
    cases rest with
    | nil =>
      have hsep : ¬ st.counter < argc - 1 := by
        simp only [List.length_cons, List.length_nil] at hcount
        omega
      have h2 := String.silent_append_take
        (String.operator_plus_eq st.result_str a.str.c_str).state (X ++ a.str.text) [0] h1
      simp only [List.foldl_nil, varargs_to_string_element, if_neg hsep, List.map_cons,
        List.map_nil, joined_with_spaces]
      rw [h2]
      simp [c_text]
    | cons b rest =>
      have hsep : st.counter < argc - 1 := by
        simp only [List.length_cons] at hcount
        omega
      have h2 := String.silent_append_take
        (String.operator_plus_eq st.result_str a.str.c_str).state (X ++ a.str.text) [32, 0] h1
      have hc : c_text [32, 0] = [32] := by decide
      rw [hc] at h2
      have h := ih (varargs_to_string_element argc st a) (X ++ a.str.text ++ [32])
        (fun x hx => hterm x (List.mem_cons_of_mem _ hx))
        (by
          simp only [List.length_cons] at hcount ⊢
          show st.counter + 1 + (rest.length + 1) = argc
          omega)
        (by
          simp only [varargs_to_string_element, if_pos hsep]
          exact h2)
      rw [h]
      simp [joined_with_spaces]

theorem varargs_plain_fold : ∀ (rest : List converted_arg) (r : BaseString 256)
    (X : List char8_t), (∀ a ∈ rest, a.str.terminated) → r.text = X.take 255 →
    (rest.foldl (fun result_str arg =>
      (String.operator_plus_eq result_str arg.str.c_str).state) r).text =
      (X ++ joined_plain (rest.map fun a => a.str.text)).take 255 := by
  intro rest
  induction rest with
  | nil =>
    intro r X _ hX
    simpa [joined_plain] using hX
  | cons a rest ih =>
    intro r X hterm hX
    have ha := hterm a (List.mem_cons_self _ _)
    have h1 := String.silent_append_take r X a.str.m_string hX
    rw [a.str.c_text_of_terminated ha] at h1
    have h := ih (String.operator_plus_eq r a.str.c_str).state (X ++ a.str.text)
      (fun x hx => hterm x (List.mem_cons_of_mem _ hx)) h1
    rw [List.foldl_cons, h]
    simp [joined_plain]

/-- Claim C27: for every argument list, each argument given by the
null-terminated string `apex::to_string` returns for it,
`varargs_to_string(a1, ..., ak)` holds the first 255 bytes of the texts joined
with exactly one space between consecutive elements and none after the last,
and with the `no_separator` tag the first 255 bytes of the plain
concatenation; the empty list gives the empty string; no append throws. -/
theorem varargs_to_string_spec (args : List converted_arg)
    (hterm : ∀ a ∈ args, a.str.terminated) :
    (varargs_to_string args).text =
      (joined_with_spaces (args.map fun a => a.str.text)).take 255 ∧
    (varargs_to_string_no_separator args).text =
      (joined_plain (args.map fun a => a.str.text)).take 255 ∧
    (varargs_to_string []).text = [] ∧
    (varargs_to_string_no_separator []).text = [] ∧
    (∀ (s : BaseString 256) (p : char_ptr), (String.operator_plus_eq s p).thrown = none) := by
  have h0 : (BaseString.ctor 256).text = ([] : List char8_t).take 255 := by
    rw [BaseString.text_ctor]
    rfl
  refine ⟨?_, ?_, BaseString.text_ctor 256, BaseString.text_ctor 256,
    fun s p => String.silent_never_throws s p⟩
  · have h := varargs_fold args.length args
      { result_str := BaseString.ctor 256, counter := 0 } [] hterm (by simp) h0
    rw [List.nil_append] at h
    exact h
  · have h := varargs_plain_fold args (BaseString.ctor 256) [] hterm h0
    rw [List.nil_append] at h
    exact h

/-- Claim C27 at `("Hello", "world", "!", "My lucky number is", 42)`: the
result is `"Hello world ! My lucky number is 42"`. -/
theorem varargs_to_string_spec_witness :
    (∀ a ∈ [converted_arg.mk 256 (to_string_text (char_ptr.ext test_Hello)),
        converted_arg.mk 256 (to_string_text (char_ptr.ext test_world)),
        converted_arg.mk 256 (to_string_text (char_ptr.ext test_exclamation)),
        converted_arg.mk 256 (to_string_text (char_ptr.ext test_lucky)),
        converted_arg.mk 16 (to_string_int32 test_stack 42)], a.str.terminated) ∧
    (varargs_to_string
      [converted_arg.mk 256 (to_string_text (char_ptr.ext test_Hello)),
        converted_arg.mk 256 (to_string_text (char_ptr.ext test_world)),
        converted_arg.mk 256 (to_string_text (char_ptr.ext test_exclamation)),
        converted_arg.mk 256 (to_string_text (char_ptr.ext test_lucky)),
        converted_arg.mk 16 (to_string_int32 test_stack 42)]).text = test_lucky_sentence := by
  have hterm : ∀ a ∈ [converted_arg.mk 256 (to_string_text (char_ptr.ext test_Hello)),
        converted_arg.mk 256 (to_string_text (char_ptr.ext test_world)),
        converted_arg.mk 256 (to_string_text (char_ptr.ext test_exclamation)),
        converted_arg.mk 256 (to_string_text (char_ptr.ext test_lucky)),
        converted_arg.mk 16 (to_string_int32 test_stack 42)], a.str.terminated := by
    intro a ha
    simp only [List.mem_cons, List.mem_singleton, List.not_mem_nil, or_false] at ha
    have h1 := (to_string_text_ext test_Hello).2
    have h2 := (to_string_text_ext test_world).2
    have h3 := (to_string_text_ext test_exclamation).2
    have h4 := (to_string_text_ext test_lucky).2
    have h5 := (to_string_int32_text test_stack 42 (by norm_num) (by norm_num)).2
    rcases ha with h | h | h | h | h
    · subst h; dsimp only; exact h1
    · subst h; dsimp only; exact h2
    · subst h; dsimp only; exact h3
    · subst h; dsimp only; exact h4
    · subst h; dsimp only; exact h5
  refine ⟨hterm, (varargs_to_string_spec _ hterm).1.trans ?_⟩
  simp only [List.map, (to_string_text_ext test_Hello).1, (to_string_text_ext test_world).1,
    (to_string_text_ext test_exclamation).1, (to_string_text_ext test_lucky).1,
    (to_string_int32_text test_stack 42 (by norm_num) (by norm_num)).1]
  decide

theorem split_at_terminator (t : List char8_t) (h : strlen t < t.length) :
    t = c_text t ++ 0 :: t.drop (strlen t + 1) := by
  have h0 := strlen_getElem? t h
  have h1 : t = t.take (strlen t) ++ t.drop (strlen t) := (List.take_append_drop _ _).symm
  have h2 : t.drop (strlen t) = 0 :: t.drop (strlen t + 1) := by
    rw [List.drop_eq_getElem_cons h]
    congr 1
    have := List.getElem?_eq_getElem h
    rw [h0] at this
    exact (Option.some.inj this).symm
  rw [h2, take_strlen] at h1
  exact h1

theorem apex_string_add_some (d : apex_string_t) (s : List char8_t) :
    (apex_string_add (some d) (some s)).1 = min (strlen s) (255 - strlen d.c_str) ∧
    (strlen d.c_str < 256 → ∃ d2 : apex_string_t,
      (apex_string_add (some d) (some s)).2 = some d2 ∧
      d2.c_str = (c_text d.c_str ++ (c_text s).take (min (strlen s) (255 - strlen d.c_str))) ++
        0 :: d.c_str.drop (strlen d.c_str + min (strlen s) (255 - strlen d.c_str) + 1)) := by
  have hA : APEX_STRING_SIZE = 256 := rfl
  have h1 := strnlen_eq_min d.c_str 256
  have h2 := strnlen_eq_min s 256
  have hdl := strlen_le_length d.c_str
  have hsl := strlen_le_length s
  have hsz : d.c_str.length = 256 := d.hsize
  by_cases hroom : strnlen d.c_str APEX_STRING_SIZE < APEX_STRING_SIZE - 1
  · have hmy : strnlen d.c_str APEX_STRING_SIZE = strlen d.c_str := by
      rw [hA] at hroom ⊢
      omega
    by_cases hsome : strnlen s APEX_STRING_SIZE > 0
    · have hcopy : (if APEX_STRING_SIZE - 1 - strnlen d.c_str APEX_STRING_SIZE <
            strnlen s APEX_STRING_SIZE
          then APEX_STRING_SIZE - 1 - strnlen d.c_str APEX_STRING_SIZE
          else strnlen s APEX_STRING_SIZE) =
          min (strlen s) (255 - strlen d.c_str) := by
        rw [hA] at hroom hsome ⊢
        split <;> omega
      have hraw : ∃ hp, apex_string_add (some d) (some s) =
          (min (strlen s) (255 - strlen d.c_str),
            some { c_str := (poke d.c_str (strlen d.c_str)
                     (s.take (min (strlen s) (255 - strlen d.c_str)))).set
                       (strlen d.c_str + min (strlen s) (255 - strlen d.c_str)) 0,
                   hsize := hp }) := by
        unfold apex_string_add
        dsimp only
        rw [if_pos hroom, if_pos hsome]
        simp only [hcopy]
        simp only [hmy]
        exact ⟨by rw [List.length_set]; simp [poke]; omega, trivial⟩
      obtain ⟨hp, hraw⟩ := hraw
      rw [hraw]
      refine ⟨rfl, fun _ => ⟨_, rfl, ?_⟩⟩
      have hle : min (strlen s) (255 - strlen d.c_str) ≤ strlen s := Nat.min_le_left _ _
      have hlen : (s.take (min (strlen s) (255 - strlen d.c_str))).length =
          min (strlen s) (255 - strlen d.c_str) := by
        rw [List.length_take]
        omega
      have hpk := poke_terminate d.c_str (strlen d.c_str)
        (s.take (min (strlen s) (255 - strlen d.c_str)))
        (by rw [hlen, hsz]; rw [hA] at hroom; omega)
      rw [hlen] at hpk
      show (poke d.c_str (strlen d.c_str) _).set _ 0 = _
      rw [hpk, take_strlen, take_le_strlen s _ hle]
    · have hs0 : strlen s = 0 := by
        rw [hA] at hsome
        omega
      have hraw : apex_string_add (some d) (some s) = (0, some d) := by
        unfold apex_string_add
        dsimp only
        rw [if_pos hroom, if_neg hsome]
      rw [hraw]
      refine ⟨by omega, fun hd => ⟨d, rfl, ?_⟩⟩
      rw [hs0, Nat.zero_min, List.take_zero, List.append_nil, Nat.add_zero]
      exact split_at_terminator d.c_str (by omega)
  · have hraw : apex_string_add (some d) (some s) = (0, some d) := by
      unfold apex_string_add
      dsimp only
      rw [if_neg hroom]
    rw [hraw]
    rw [hA] at hroom
    refine ⟨by omega, fun hd => ⟨d, rfl, ?_⟩⟩
    have h0 : min (strlen s) (255 - strlen d.c_str) = 0 := by omega
    rw [h0, List.take_zero, List.append_nil, Nat.add_zero]
    exact split_at_terminator d.c_str (by omega)

theorem apex_string_add_le (dst : Option apex_string_t) (src : Option (List char8_t)) :
    (apex_string_add dst src).1 ≤ 255 := by
  cases dst with
  | none => exact Nat.zero_le _
  | some d =>
    cases src with
    | none => exact Nat.zero_le _
    | some s =>
      rw [(apex_string_add_some d s).1]
      omega

theorem sequential_adds_snoc (dst : Option apex_string_t) (srcs : List (Option (List char8_t)))
    (s : Option (List char8_t)) :
    sequential_adds dst (srcs ++ [s]) =
      ((sequential_adds dst srcs).1 + (apex_string_add (sequential_adds dst srcs).2 s).1,
        (apex_string_add (sequential_adds dst srcs).2 s).2) := by
  unfold sequential_adds
  rw [List.foldl_append]
  rfl

theorem sequential_adds_le (dst : Option apex_string_t) :
    ∀ srcs : List (Option (List char8_t)), (sequential_adds dst srcs).1 ≤ 255 * srcs.length := by
  intro srcs
  induction srcs using List.reverseRecOn with
  | nil => exact Nat.le_refl _
  | append_singleton srcs s ih =>
    rw [sequential_adds_snoc, List.length_append, List.length_singleton]
    have := apex_string_add_le (sequential_adds dst srcs).2 s
    show (sequential_adds dst srcs).1 + (apex_string_add (sequential_adds dst srcs).2 s).1 ≤ _
    omega

theorem apex_string_add_next_seq (dst : Option apex_string_t)
    (srcs : List (Option (List char8_t))) (s : Option (List char8_t))
    (hlen : srcs.length ≤ 10) :
    apex_string_add_next (sequential_adds dst srcs) s = sequential_adds dst (srcs ++ [s]) := by
  have h1 := sequential_adds_le dst srcs
  have h2 := apex_string_add_le (sequential_adds dst srcs).2 s
  rw [sequential_adds_snoc]
  unfold apex_string_add_next
  rw [Nat.mod_eq_of_lt (by omega)]

theorem apex_string_add_seq (dst : Option apex_string_t) (s : Option (List char8_t)) :
    apex_string_add dst s = sequential_adds dst [s] := by
  show apex_string_add dst s = (0 + (apex_string_add dst s).1, (apex_string_add dst s).2)
  rw [Nat.zero_add]

/-- Claim C31: `apex_string_add(dst, src)` returns the number of characters
copied: `0` when `dst` or `src` is `NULL` or `dst` already holds 255
characters, otherwise `min(strlen(src), 255 - strlen(dst))`; for a
null-terminated `dst` the length afterwards is the old length plus that
count, the new content is the old one followed by that many characters of
`src`, and `dst` is null-terminated. `apex_string_add2` to
`apex_string_add10` return the sum of the counts of their sequential
appends. -/
theorem apex_string_add_spec (dst : Option apex_string_t) (src : Option (List char8_t)) :
    (dst = none ∨ src = none → apex_string_add dst src = (0, dst)) ∧
    (∀ d s, dst = some d → src = some s →
      (apex_string_add dst src).1 = min (strlen s) (255 - strlen d.c_str) ∧
      (strlen d.c_str = 255 → apex_string_add dst src = (0, dst)) ∧
      (strlen d.c_str < 256 → ∃ d2 : apex_string_t,
        (apex_string_add dst src).2 = some d2 ∧
        strlen d2.c_str = strlen d.c_str + (apex_string_add dst src).1 ∧
        c_text d2.c_str = c_text d.c_str ++ (c_text s).take (apex_string_add dst src).1 ∧
        d2.c_str[strlen d2.c_str]? = some 0)) ∧
    (∀ s1 s2 s3 s4 s5 s6 s7 s8 s9 s10 : Option (List char8_t),
      apex_string_add2 dst s1 s2 = sequential_adds dst [s1, s2] ∧
      apex_string_add3 dst s1 s2 s3 = sequential_adds dst [s1, s2, s3] ∧
      apex_string_add4 dst s1 s2 s3 s4 = sequential_adds dst [s1, s2, s3, s4] ∧
      apex_string_add5 dst s1 s2 s3 s4 s5 = sequential_adds dst [s1, s2, s3, s4, s5] ∧
      apex_string_add6 dst s1 s2 s3 s4 s5 s6 =
        sequential_adds dst [s1, s2, s3, s4, s5, s6] ∧
      apex_string_add7 dst s1 s2 s3 s4 s5 s6 s7 =
        sequential_adds dst [s1, s2, s3, s4, s5, s6, s7] ∧
      apex_string_add8 dst s1 s2 s3 s4 s5 s6 s7 s8 =
        sequential_adds dst [s1, s2, s3, s4, s5, s6, s7, s8] ∧
      apex_string_add9 dst s1 s2 s3 s4 s5 s6 s7 s8 s9 =
        sequential_adds dst [s1, s2, s3, s4, s5, s6, s7, s8, s9] ∧
      apex_string_add10 dst s1 s2 s3 s4 s5 s6 s7 s8 s9 s10 =
        sequential_adds dst [s1, s2, s3, s4, s5, s6, s7, s8, s9, s10]) := by
  refine ⟨?_, ?_, ?_⟩
  · intro h
    rcases h with h | h
    · subst h
      rfl
    · subst h
      cases dst <;> rfl
  · intro d s hd hs
    subst hd
    subst hs
    obtain ⟨hcount, hbuf⟩ := apex_string_add_some d s
    refine ⟨hcount, ?_, ?_⟩
    · intro hfull
      obtain ⟨d2, h2, hc⟩ := hbuf (by omega)
      have h0 : min (strlen s) (255 - strlen d.c_str) = 0 := by omega
      rw [h0, List.take_zero, List.append_nil, Nat.add_zero,
        ← split_at_terminator d.c_str (by rw [d.hsize]; show strlen d.c_str < 256; omega)] at hc
      have hd2 : d2 = d := by
        cases d2
        cases d
        simp only [apex_string_t.mk.injEq]
        exact hc
      rw [hd2] at h2
      rw [h0] at hcount
      exact Prod.ext hcount h2
    · intro hterm
      obtain ⟨d2, h2, hc⟩ := hbuf hterm
      rw [hcount]
      have hnz : ∀ c ∈ c_text d.c_str ++
          (c_text s).take (min (strlen s) (255 - strlen d.c_str)), (c != 0) = true := by
        intro c hc
        rcases List.mem_append.1 hc with h | h
        · exact c_text_ne_zero _ c h
        · exact c_text_ne_zero _ c (List.mem_of_mem_take h)
      obtain ⟨ht, hl⟩ := c_text_before_zero _
        (d.c_str.drop (strlen d.c_str + min (strlen s) (255 - strlen d.c_str) + 1)) hnz
      rw [← hc] at ht hl
      have hlen : (c_text d.c_str ++
          (c_text s).take (min (strlen s) (255 - strlen d.c_str))).length =
          strlen d.c_str + min (strlen s) (255 - strlen d.c_str) := by
        rw [List.length_append, List.length_take]
        have : (c_text s).length = strlen s := rfl
        have : (c_text d.c_str).length = strlen d.c_str := rfl
        omega
      refine ⟨d2, h2, by rw [hl, hlen], ht, ?_⟩
      rw [hl, hc, List.getElem?_append_right (Nat.le_refl _), Nat.sub_self]
      simp
  · intro s1 s2 s3 s4 s5 s6 s7 s8 s9 s10
    have e1 := apex_string_add_seq dst s1
    have e2 : apex_string_add2 dst s1 s2 = sequential_adds dst [s1, s2] := by
      unfold apex_string_add2
      rw [e1]
      exact apex_string_add_next_seq dst [s1] s2 (by simp)
    have e3 : apex_string_add3 dst s1 s2 s3 = sequential_adds dst [s1, s2, s3] := by
      unfold apex_string_add3
      rw [e2]
      exact apex_string_add_next_seq dst [s1, s2] s3 (by simp)
    have e4 : apex_string_add4 dst s1 s2 s3 s4 = sequential_adds dst [s1, s2, s3, s4] := by
      unfold apex_string_add4
      rw [e3]
      exact apex_string_add_next_seq dst [s1, s2, s3] s4 (by simp)
    have e5 : apex_string_add5 dst s1 s2 s3 s4 s5 =
        sequential_adds dst [s1, s2, s3, s4, s5] := by
      unfold apex_string_add5
      rw [e4]
      exact apex_string_add_next_seq dst [s1, s2, s3, s4] s5 (by simp)
    have e6 : apex_string_add6 dst s1 s2 s3 s4 s5 s6 =
        sequential_adds dst [s1, s2, s3, s4, s5, s6] := by
      unfold apex_string_add6
      rw [e5]
      exact apex_string_add_next_seq dst [s1, s2, s3, s4, s5] s6 (by simp)
    have e7 : apex_string_add7 dst s1 s2 s3 s4 s5 s6 s7 =
        sequential_adds dst [s1, s2, s3, s4, s5, s6, s7] := by
      unfold apex_string_add7
      rw [e6]
      exact apex_string_add_next_seq dst [s1, s2, s3, s4, s5, s6] s7 (by simp)
    have e8 : apex_string_add8 dst s1 s2 s3 s4 s5 s6 s7 s8 =
        sequential_adds dst [s1, s2, s3, s4, s5, s6, s7, s8] := by
      unfold apex_string_add8
      rw [e7]
      exact apex_string_add_next_seq dst [s1, s2, s3, s4, s5, s6, s7] s8 (by simp)
    have e9 : apex_string_add9 dst s1 s2 s3 s4 s5 s6 s7 s8 s9 =
        sequential_adds dst [s1, s2, s3, s4, s5, s6, s7, s8, s9] := by
      unfold apex_string_add9
      rw [e8]
      exact apex_string_add_next_seq dst [s1, s2, s3, s4, s5, s6, s7, s8] s9 (by simp)
    have e10 : apex_string_add10 dst s1 s2 s3 s4 s5 s6 s7 s8 s9 s10 =
        sequential_adds dst [s1, s2, s3, s4, s5, s6, s7, s8, s9, s10] := by
      unfold apex_string_add10
      rw [e9]
      exact apex_string_add_next_seq dst [s1, s2, s3, s4, s5, s6, s7, s8, s9] s10 (by simp)
    exact ⟨e2, e3, e4, e5, e6, e7, e8, e9, e10⟩

/-- Claim C31 at the tested call: `apex_string_add` of `"123"` to an empty
object returns `3` and leaves `"123"`. -/
theorem apex_string_add_spec_witness :
    strlen apex_string_create.c_str < 256 ∧
    (apex_string_add (some apex_string_create) (some test_123)).1 = 3 ∧
    ∃ d2 : apex_string_t,
      (apex_string_add (some apex_string_create) (some test_123)).2 = some d2 ∧
      c_text d2.c_str = test_123 := by
  have h := (apex_string_add_spec (some apex_string_create) (some test_123)).2.1
    apex_string_create test_123 rfl rfl
  have hterm : strlen apex_string_create.c_str < 256 := by decide
  obtain ⟨d2, h2, _, ht, _⟩ := h.2.2 hterm
  refine ⟨hterm, h.1.trans (by decide), d2, h2, ?_⟩
  rw [ht, h.1]
  decide

theorem apex_string_add_strict_some (d : apex_string_t) (s : List char8_t) :
    (strlen d.c_str + strlen s + 1 ≤ 256 → ∃ d2 : apex_string_t,
      apex_string_add_strict (some d) (some s) = (APEX_RET_OK, some d2) ∧
      c_text d2.c_str = c_text d.c_str ++ c_text s) ∧
    (¬ strlen d.c_str + strlen s + 1 ≤ 256 →
      apex_string_add_strict (some d) (some s) = (APEX_RET_ERROR, some d)) := by
  have hA : APEX_STRING_SIZE = 256 := rfl
  have h1 := strnlen_eq_min d.c_str APEX_STRING_SIZE
  have h2 := strnlen_eq_min s APEX_STRING_SIZE
  rw [hA] at h1 h2
  constructor
  · intro hfit2
    have hfit : strnlen d.c_str APEX_STRING_SIZE + strnlen s APEX_STRING_SIZE + 1 ≤
        APEX_STRING_SIZE := by
      rw [hA]
      omega
    have e1 : strnlen d.c_str APEX_STRING_SIZE = strlen d.c_str := by rw [hA]; omega
    have e2 : strnlen s APEX_STRING_SIZE = strlen s := by rw [hA]; omega
    have hset := strncat_set d.c_str s (by rw [d.hsize, hA]; exact hfit2)
    have hnz : ∀ c ∈ c_text d.c_str ++ c_text s, (c != 0) = true := by
      intro c hc
      rcases List.mem_append.1 hc with h | h
      · exact c_text_ne_zero _ c h
      · exact c_text_ne_zero _ c h
    have hdef : ∃ d2 : apex_string_t,
        apex_string_add_strict (some d) (some s) = (APEX_RET_OK, some d2) ∧
        d2.c_str = (strncat d.c_str s (strlen s)).set (strlen d.c_str + strlen s) 0 := by
      simp only [apex_string_add_strict, if_pos hfit]
      exact ⟨_, rfl, by simp only [e1, e2]⟩
    obtain ⟨d2, hd2, hc2⟩ := hdef
    refine ⟨d2, hd2, ?_⟩
    rw [hc2, hset]
    exact (c_text_before_zero _ _ hnz).1
  · intro hno
    have hfit : ¬ strnlen d.c_str APEX_STRING_SIZE + strnlen s APEX_STRING_SIZE + 1 ≤
        APEX_STRING_SIZE := by
      rw [hA]
      omega
    simp only [apex_string_add_strict, if_neg hfit]

theorem apex_string_t.as_string_facts (d : apex_string_t) (hterm : strlen d.c_str < 256) :
    d.as_string.length = strlen d.c_str ∧ d.as_string.text = c_text d.c_str := by
  have hl : d.as_string.length = strlen d.c_str := by
    have h : d.as_string.length = min (256 - 1) (strlen d.c_str) := strnlen_eq_min d.c_str _
    omega
  refine ⟨hl, ?_⟩
  unfold BaseString.text
  rw [hl]
  exact take_strlen d.c_str

/-- Claim C38: the C helpers are a veneer over the same policies. For every
null-terminated content of `dst` and every non-null `src`, `apex_string_add`
leaves the content that `String<256> += src` leaves on the same bytes, and
`apex_string_add_strict` returns `APEX_RET_OK` exactly when
`StringStrict<256> += src` does not throw, with the same content afterwards,
which on failure is the content before. -/
theorem c_helpers_veneer (d : apex_string_t) (hterm : strlen d.c_str < 256)
    (s : List char8_t) :
    (∃ d2 : apex_string_t, (apex_string_add (some d) (some s)).2 = some d2 ∧
      c_text d2.c_str = (String.operator_plus_eq d.as_string (char_ptr.ext s)).state.text) ∧
    ((apex_string_add_strict (some d) (some s)).1 = APEX_RET_OK ↔
      (StringStrict.operator_plus_eq d.as_string (char_ptr.ext s)).thrown = none) ∧
    (∃ d2 : apex_string_t, (apex_string_add_strict (some d) (some s)).2 = some d2 ∧
      c_text d2.c_str =
        (StringStrict.operator_plus_eq d.as_string (char_ptr.ext s)).state.text) ∧
    ((apex_string_add_strict (some d) (some s)).1 ≠ APEX_RET_OK →
      (apex_string_add_strict (some d) (some s)).2 = some d ∧
      (StringStrict.operator_plus_eq d.as_string (char_ptr.ext s)).state = d.as_string) := by
  obtain ⟨hlen, htext⟩ := d.as_string_facts hterm
  have hcl : (c_text d.c_str).length = strlen d.c_str := rfl
  have hsl : (c_text s).length = strlen s := rfl
  refine ⟨?_, ?_⟩
  · obtain ⟨hcount, hbuf⟩ := apex_string_add_some d s
    obtain ⟨d2, h2, hc⟩ := hbuf hterm
    refine ⟨d2, h2, ?_⟩
    have hnz : ∀ c ∈ c_text d.c_str ++
        (c_text s).take (min (strlen s) (255 - strlen d.c_str)), (c != 0) = true := by
      intro c hc
      rcases List.mem_append.1 hc with h | h
      · exact c_text_ne_zero _ c h
      · exact c_text_ne_zero _ c (List.mem_of_mem_take h)
    have e1 : (c_text d.c_str).take (min (strlen d.c_str + strlen s) (256 - 1)) =
        c_text d.c_str := List.take_of_length_le (by rw [hcl]; omega)
    have e2 : min (strlen d.c_str + strlen s) (256 - 1) - strlen d.c_str =
        min (strlen s) (255 - strlen d.c_str) := by omega
    rw [hc, (c_text_before_zero _ _ hnz).1,
      (String.silent_append_text d.as_string (char_ptr.ext s) s rfl).1, htext, hlen,
      List.take_append_eq_append_take, e1, hcl, e2]
  · obtain ⟨hok, herr⟩ := apex_string_add_strict_some d s
    obtain ⟨hthrow, hfine⟩ := StringStrict.strict_append_text (by decide : 0 < 256)
      d.as_string (char_ptr.ext s) s rfl
    rw [hlen] at hthrow hfine
    have hne : APEX_RET_ERROR ≠ APEX_RET_OK := by decide
    by_cases hfit : strlen d.c_str + strlen s + 1 ≤ 256
    · obtain ⟨d2, hd2, hc2⟩ := hok hfit
      obtain ⟨hnone, ht⟩ := hfine (by omega)
      rw [hd2]
      refine ⟨⟨fun _ => hnone, fun _ => rfl⟩, ⟨d2, rfl, ?_⟩, fun h => absurd rfl h⟩
      rw [hc2, ht, htext]
    · have he := herr hfit
      have hthrown := hthrow.2 (by omega)
      have hstate : StringStrict.operator_plus_eq d.as_string (char_ptr.ext s) =
          { state := d.as_string, thrown := some Exn.overflow_error } := by
        have hf : ¬ d.as_string.length + strnlen s 256 + 1 ≤ 256 := by
          have := strnlen_eq_min s 256
          omega
        simp [StringStrict.operator_plus_eq, char_ptr.deref, BaseString.get_buffer_size, hf]
      rw [he]
      refine ⟨⟨fun h => absurd h hne, fun h => ?_⟩, ⟨d, rfl, ?_⟩, fun _ => ⟨rfl, ?_⟩⟩
      · rw [hthrown] at h
        cases h
      · rw [hstate, htext]
      · rw [hstate]

/-- Claim C38 at an empty object and the text `"123"`. -/
theorem c_helpers_veneer_witness :
    strlen apex_string_create.c_str < 256 ∧
    ((apex_string_add_strict (some apex_string_create) (some test_123)).1 = APEX_RET_OK ↔
      (StringStrict.operator_plus_eq apex_string_create.as_string
        (char_ptr.ext test_123)).thrown = none) :=
  ⟨by decide, (c_helpers_veneer apex_string_create (by decide) test_123).2.1⟩

/-! ## The two variants compared; assignment -/

theorem StringStrict.strict_thrown_cases {N : Nat} (s : BaseString N) (src : char_ptr)
    (t : List char8_t) (ht : src.deref s = some t) :
    ((StringStrict.operator_plus_eq s src).thrown = none ∨
      (StringStrict.operator_plus_eq s src).thrown = some Exn.overflow_error) ∧
    ((StringStrict.operator_plus_eq s src).thrown ≠ none →
      (StringStrict.operator_plus_eq s src).state = s) := by
  unfold StringStrict.operator_plus_eq
  rw [ht]
  dsimp only
  split
  · exact ⟨Or.inl rfl, fun h => absurd rfl h⟩
  · exact ⟨Or.inr rfl, fun _ => rfl⟩

/-- Claim C37: the two variants are the same operation up to the overflow
policy. For every `N`, every initial content and every non-null `src`: when
`StringStrict<N> += src` does not throw, `String<N> += src` on the same
content leaves the same logical content; when the strict append throws
`std::overflow_error`, the truncating append leaves exactly the first `N - 1`
bytes of the old content followed by `src`. -/
theorem strict_silent_refinement {N : Nat} (hN : 0 < N) (s : BaseString N) (src : char_ptr)
    (t : List char8_t) (ht : src.deref s = some t) :
    ((StringStrict.operator_plus_eq s src).thrown = none →
      (String.operator_plus_eq s src).state.text =
        (StringStrict.operator_plus_eq s src).state.text ∧
      (String.operator_plus_eq s src).state.text = s.text ++ c_text t) ∧
    ((StringStrict.operator_plus_eq s src).thrown = some Exn.overflow_error →
      (String.operator_plus_eq s src).state.text = (s.text ++ c_text t).take (N - 1) ∧
      (StringStrict.operator_plus_eq s src).state = s) ∧
    ((StringStrict.operator_plus_eq s src).thrown = none ∨
      (StringStrict.operator_plus_eq s src).thrown = some Exn.overflow_error) ∧
    (String.operator_plus_eq s src).thrown = none := by
  obtain ⟨hthrow, hfine⟩ := StringStrict.strict_append_text hN s src t ht
  obtain ⟨hsil, _⟩ := String.silent_append_text s src t ht
  obtain ⟨hcases, hkeep⟩ := StringStrict.strict_thrown_cases s src t ht
  have hlen : (s.text ++ c_text t).length = s.length + strlen t := by
    rw [List.length_append, s.length_text]
    rfl
  refine ⟨fun hnone => ?_, fun hover => ?_, hcases, String.silent_never_throws s src⟩
  · have hno : ¬ s.length + strlen t > N - 1 := by
      intro h
      rw [hthrow.2 h] at hnone
      cases hnone
    obtain ⟨_, htext⟩ := hfine hno
    have : (String.operator_plus_eq s src).state.text = s.text ++ c_text t := by
      rw [hsil]
      exact List.take_of_length_le (by rw [hlen]; omega)
    exact ⟨by rw [this, htext], this⟩
  · have hyes := hthrow.1 hover
    refine ⟨?_, hkeep (by rw [hover]; exact fun h => by cases h)⟩
    rw [hsil, Nat.min_eq_right (by omega)]

/-- Claim C37 at `"hello"` in a buffer of 8 bytes and the source `"abc"`: the
strict append throws and the truncating one leaves `"helloab"`. -/
theorem strict_silent_refinement_witness :
    0 < 8 ∧
    (StringStrict.operator_plus_eq (String.ctor_text 8 (char_ptr.ext test_hello))
      (char_ptr.ext test_abc)).thrown = some Exn.overflow_error ∧
    (String.operator_plus_eq (String.ctor_text 8 (char_ptr.ext test_hello))
      (char_ptr.ext test_abc)).state.text = [104, 101, 108, 108, 111, 97, 98] :=
  ⟨by decide, by decide,
    ((strict_silent_refinement (by decide) (String.ctor_text 8 (char_ptr.ext test_hello))
      (char_ptr.ext test_abc) test_abc rfl).2.1 (by decide)).1.trans (by decide)⟩

theorem StringStrict.strict_throw_keeps {N : Nat} (s : BaseString N) (src : char_ptr) :
    (StringStrict.operator_plus_eq s src).thrown ≠ none →
      (StringStrict.operator_plus_eq s src).state = s := by
  unfold StringStrict.operator_plus_eq
  cases src.deref s with
  | none => exact fun _ => rfl
  | some t =>
    dsimp only
    split
    · exact fun h => absurd rfl h
    · exact fun _ => rfl

theorem StringStrict.strict_assign_eq {N : Nat} (s : BaseString N) (src : char_ptr) :
    StringStrict.operator_assign s src =
      StringStrict.operator_plus_eq (BaseString.ctor N) src := by
  unfold StringStrict.operator_assign
  rw [BaseString.memset_zero_all]

/-- Claim C39: strict assignment is not atomic. Whatever a `StringStrict<N>`
held, when `s = src` throws (`std::invalid_argument` for a null `src`,
`std::overflow_error` for a `src` of more than `N - 1` characters) the object
is left with its whole buffer zero-filled, so empty, the buffer being cleared
before the append; `+=` on the contrary leaves the object as it was when it
throws. -/
theorem StringStrict.assign_not_atomic {N : Nat} (hN : 0 < N) (s : BaseString N)
    (src : char_ptr) :
    ((StringStrict.operator_assign s src).thrown ≠ none →
      (StringStrict.operator_assign s src).state = BaseString.ctor N ∧
      (StringStrict.operator_assign s src).state.text = []) ∧
    ((StringStrict.operator_assign s char_ptr.null).thrown = some Exn.invalid_argument ∧
      (StringStrict.operator_assign s char_ptr.null).state = BaseString.ctor N) ∧
    (∀ t : List char8_t, strlen t > N - 1 →
      (StringStrict.operator_assign s (char_ptr.ext t)).thrown = some Exn.overflow_error ∧
      (StringStrict.operator_assign s (char_ptr.ext t)).state = BaseString.ctor N) ∧
    ((StringStrict.operator_plus_eq s src).thrown ≠ none →
      (StringStrict.operator_plus_eq s src).state = s) := by
  have hkeep := StringStrict.strict_throw_keeps (BaseString.ctor N)
  refine ⟨fun h => ?_, ⟨?_, ?_⟩, fun t ht => ?_, StringStrict.strict_throw_keeps s src⟩
  · rw [StringStrict.strict_assign_eq] at h ⊢
    rw [hkeep src h]
    exact ⟨rfl, BaseString.text_ctor N⟩
  · rw [StringStrict.strict_assign_eq]
    rfl
  · rw [StringStrict.strict_assign_eq]
    rfl
  · rw [StringStrict.strict_assign_eq]
    have h := (StringStrict.strict_append_text hN (BaseString.ctor N) (char_ptr.ext t) t rfl).1
    rw [BaseString.length_ctor, Nat.zero_add] at h
    have hth := h.2 ht
    exact ⟨hth, hkeep _ (by rw [hth]; exact fun e => by cases e)⟩

/-- Claim C39 at `StringStrict<4>` holding `"abc"`: assigning `"hello"`
throws and leaves the empty string, where `+= "hello"` leaves `"abc"`. -/
theorem StringStrict.assign_not_atomic_witness :
    0 < 4 ∧ strlen test_hello > 4 - 1 ∧
    (StringStrict.operator_assign (String.ctor_text 4 (char_ptr.ext test_abc))
      (char_ptr.ext test_hello)).thrown = some Exn.overflow_error ∧
    (StringStrict.operator_assign (String.ctor_text 4 (char_ptr.ext test_abc))
      (char_ptr.ext test_hello)).state = BaseString.ctor 4 ∧
    (StringStrict.operator_plus_eq (String.ctor_text 4 (char_ptr.ext test_abc))
      (char_ptr.ext test_hello)).state.text = test_abc :=
  ⟨by decide, by decide,
    ((StringStrict.assign_not_atomic (by decide) (String.ctor_text 4 (char_ptr.ext test_abc))
      (char_ptr.ext test_hello)).2.2.1 test_hello (by decide)).1,
    ((StringStrict.assign_not_atomic (by decide) (String.ctor_text 4 (char_ptr.ext test_abc))
      (char_ptr.ext test_hello)).2.2.1 test_hello (by decide)).2,
    by decide⟩

theorem strnlen_zeros (N m : Nat) : strnlen (List.replicate N (0 : char8_t)) m = 0 := by
  cases N with
  | zero => simp [strnlen]
  | succ n =>
    rw [List.replicate_succ]
    exact strnlen_zero_cons _ _

theorem String.silent_self_assign {N : Nat} (s : BaseString N) :
    String.operator_assign s (char_ptr.self 0) =
      { state := BaseString.ctor N, thrown := none } := by
  rw [String.silent_assign_eq]
  have hz : strnlen (BaseString.ctor N).m_string (N - 1) = 0 := strnlen_zeros N _
  unfold String.operator_plus_eq
  simp only [char_ptr.deref, List.drop_zero, BaseString.capacity, BaseString.get_buffer_size, hz]
  split <;> simp

theorem StringStrict.strict_self_assign {N : Nat} (hN : 0 < N) (s : BaseString N) :
    StringStrict.operator_assign s (char_ptr.self 0) =
      { state := BaseString.ctor N, thrown := none } := by
  rw [StringStrict.strict_assign_eq]
  have hz : strnlen (BaseString.ctor N).m_string N = 0 := strnlen_zeros N _
  have hl : (BaseString.ctor N).length = 0 := BaseString.length_ctor N
  unfold StringStrict.operator_plus_eq
  simp only [char_ptr.deref, List.drop_zero, BaseString.get_buffer_size, hz, hl]
  rw [if_pos (by omega)]
  congr 1
  apply BaseString.ext_m_string
  show (poke (List.replicate N 0) 0 (List.take 0 _)).set (0 + 0) 0 = List.replicate N 0
  obtain ⟨n, rfl⟩ : ∃ n, N = n + 1 := ⟨N - 1, by omega⟩
  simp [poke, List.replicate_succ]

/-- Assignment from the object's own `c_str()` leaves the buffer zero-filled
in both variants, without a throw; self-append on a null-terminated object
with `2 * length ≤ N - 1` doubles the content. -/
theorem self_assignment_core {N : Nat} (hN : 0 < N) (s : BaseString N) :
    String.operator_assign s s.c_str_self = { state := BaseString.ctor N, thrown := none } ∧
    StringStrict.operator_assign s s.c_str_self =
      { state := BaseString.ctor N, thrown := none } ∧
    (BaseString.ctor N).text = [] ∧
    (s.terminated → 2 * s.length ≤ N - 1 →
      (String.operator_plus_eq s s.c_str_self).state.text = s.text ++ s.text ∧
      (StringStrict.operator_plus_eq s s.c_str_self).thrown = none ∧
      (StringStrict.operator_plus_eq s s.c_str_self).state.text = s.text ++ s.text) := by
  refine ⟨String.silent_self_assign s, StringStrict.strict_self_assign hN s,
    BaseString.text_ctor N, fun hterm hfit => ?_⟩
  have hd : (char_ptr.self 0).deref s = some s.m_string := by
    simp [char_ptr.deref]
  have hc := s.c_text_of_terminated hterm
  have hsl := s.strlen_of_terminated hterm
  obtain ⟨hsil, _⟩ := String.silent_append_text s (char_ptr.self 0) s.m_string hd
  obtain ⟨_, hfine⟩ := StringStrict.strict_append_text hN s (char_ptr.self 0) s.m_string hd
  rw [hc, hsl] at hsil hfine
  obtain ⟨hnone, htext⟩ := hfine (by omega)
  refine ⟨?_, hnone, htext⟩
  show (String.operator_plus_eq s (char_ptr.self 0)).state.text = _
  rw [hsil]
  exact List.take_of_length_le (by rw [List.length_append, s.length_text]; omega)

/-! ## Concatenation -/

/-- Claim C36: concatenation with `operator+` is exact. For null-terminated
`a` of declared size `N` and `b` of declared size `M`, `a + b` is a string of
declared size `N + M` holding all of `a` followed by all of `b`, in the
truncating variant and in the strict one, which does not throw. -/
theorem String.operator_plus_spec {N M : Nat} (a : BaseString N) (b : BaseString M)
    (ha : a.terminated) (hb : b.terminated) :
    (String.operator_plus a b).text = a.text ++ b.text ∧
    (String.operator_plus a b).get_buffer_size = N + M ∧
    (String.operator_plus a b).terminated ∧
    ∃ r : BaseString (N + M), StringStrict.operator_plus a b = Except.ok r ∧
      r.text = a.text ++ b.text ∧ r.terminated := by
  have hla := a.length_le
  have hlb := b.length_le
  have hN : 0 < N := by
    by_contra h
    have h0 : N = 0 := by omega
    subst h0
    have := ha.2.2
    have hm : a.m_string = [] := List.eq_nil_of_length_eq_zero a.hsize
    rw [hm] at this
    simp at this
  have hpos : 0 < N + M := by omega
  have hca := a.c_text_of_terminated ha
  have hcb := b.c_text_of_terminated hb
  have hsa := a.strlen_of_terminated ha
  have hsb := b.strlen_of_terminated hb
  have hta := a.length_text
  have htb := b.length_text
  refine ⟨?_, rfl, ?_, ?_⟩
  · obtain ⟨h1, _⟩ := String.silent_copy_text (N + M) N hpos a ha
    have h1' : (String.ctor_text (N + M) a.c_str).text = a.text := by
      show (String.operator_plus_eq (BaseString.ctor (N + M)) a.c_str).state.text = _
      rw [h1]
      exact List.take_of_length_le (by omega)
    have hl1 : (String.ctor_text (N + M) a.c_str).length = a.length := by
      rw [← BaseString.length_text, h1', hta]
    obtain ⟨h2, _⟩ := String.silent_append_text (String.ctor_text (N + M) a.c_str)
      (char_ptr.ext b.m_string) b.m_string rfl
    show (String.operator_plus_eq (String.ctor_text (N + M) a.c_str)
      (char_ptr.ext b.m_string)).state.text = _
    rw [h2, h1', hcb, hl1, hsb]
    exact List.take_of_length_le (by rw [List.length_append, hta, htb]; omega)
  · exact BaseString.terminated_of_last hpos _
      (String.silent_append_last hpos _ _
        (String.silent_append_last hpos _ _ (BaseString.last_ctor hpos)))
  · obtain ⟨r1, hr1, ht1, hterm1⟩ :=
      (StringStrict.strict_from_empty hpos a.m_string).2 (by rw [hsa]; omega)
    rw [hca] at ht1
    have hl1 : r1.length = a.length := by rw [← BaseString.length_text, ht1, hta]
    obtain ⟨_, hfine⟩ := StringStrict.strict_append_text hpos r1 (char_ptr.ext b.m_string)
      b.m_string rfl
    obtain ⟨hnone, ht2⟩ := hfine (by rw [hl1, hsb]; omega)
    rw [ht1, hcb] at ht2
    have hr1' : StringStrict.ctor_text (N + M) a.c_str = Except.ok r1 := hr1
    have hnone' : (StringStrict.operator_plus_eq r1 b.c_str).thrown = none := hnone
    refine ⟨(StringStrict.operator_plus_eq r1 b.c_str).state, ?_, ht2, ?_⟩
    · unfold StringStrict.operator_plus
      rw [hr1']
      simp only [hnone']
    · exact BaseString.terminated_of_last hpos _
        (StringStrict.strict_append_last hpos _ _ hterm1.2.2)

/-- Claim C36 at the tested sums: `"00" + "1"` is `"001"`, and `"2562"` added
to itself is `"25622562"` in the strict variant. -/
theorem String.operator_plus_spec_witness :
    (String.ctor_text 3 (char_ptr.ext test_00)).terminated ∧
    (String.ctor_text 4 (char_ptr.ext test_1)).terminated ∧
    (String.operator_plus (String.ctor_text 3 (char_ptr.ext test_00))
      (String.ctor_text 4 (char_ptr.ext test_1))).text = [48, 48, 49] ∧
    ∃ r : BaseString (16 + 16),
      StringStrict.operator_plus (String.ctor_text 16 (char_ptr.ext test_2562))
        (String.ctor_text 16 (char_ptr.ext test_2562)) = Except.ok r ∧
      r.text = [50, 53, 54, 50, 50, 53, 54, 50] := by
  refine ⟨by decide, by decide, ?_, ?_⟩
  · exact (String.operator_plus_spec (String.ctor_text 3 (char_ptr.ext test_00))
      (String.ctor_text 4 (char_ptr.ext test_1)) (by decide) (by decide)).1.trans (by decide)
  · obtain ⟨r, hr, ht, _⟩ := (String.operator_plus_spec
      (String.ctor_text 16 (char_ptr.ext test_2562))
      (String.ctor_text 16 (char_ptr.ext test_2562)) (by decide) (by decide)).2.2.2
    exact ⟨r, hr, ht.trans (by decide)⟩

/-! ## `static_vector`: reversed ranges and moved-from objects -/

/-- Growing an empty vector by more elements than `max_size()` allows throws
`std::length_error` from `_M_check_len` and changes nothing. -/
theorem std_vector.resize_too_long {α : Type} [Inhabited α] (v : std_vector α) (n : Nat)
    (he : v.elems = []) (hmax : v.max_size < n) (hcap : v.cap < n)
    (hlt : v.max_size < 2 ^ 64) :
    v.resize n = { state := v, thrown := some Exn.length_error } := by
  have hs : v.size = 0 := by simp [std_vector.size, he]
  have hchk : v._M_check_len n = Except.error Exn.length_error := by
    unfold std_vector._M_check_len
    rw [hs, Nat.sub_zero, Nat.add_mod_right, Nat.mod_eq_of_lt hlt, if_pos hmax]
  unfold std_vector.resize
  rw [hs, if_pos (by omega), Nat.sub_zero]
  unfold std_vector._M_default_append
  rw [hs, if_neg (by omega), if_neg (by omega)]
  unfold std_vector.realloc_append
  rw [hchk]

/-- The range constructor on a reversed iterator pair, on a platform that
grants the block: the size check passes (the distance is negative), the
block is reserved, and `resize` of the distance converted to `size_type`
throws `std::length_error`. -/
theorem static_vector.ctor_range_reversed_eq {α : Type} [Inhabited α] (m_alloc : base_type)
    (C : Nat) (r : iter_pair α) (hrev : r.last < r.first) (hfirst : r.first < 2 ^ 63)
    (hptr : m_alloc.max_size < 2 ^ 63) (hmax : C ≤ m_alloc.max_size)
    (havail : C ≤ m_alloc.avail) :
    static_vector.ctor_range m_alloc C r =
      Except.ok
        { state := { m_v := { elems := [], cap := C,
                              alloc := { m_size := C, m_consumed := decide (C ≠ 0),
                                         m_alloc := m_alloc,
                                         requests := if C = 0 then [] else [C] } } },
          thrown := some Exn.length_error } := by
  have hC : C < 2 ^ 63 := by omega
  have hdist : r.distance < 0 := by
    unfold iter_pair.distance
    omega
  have hsz : to_size_type r.distance = 2 ^ 64 - (r.first - r.last) := by
    unfold to_size_type iter_pair.distance
    omega
  unfold static_vector.ctor_range single_allocator.ctor
  rw [if_neg (by omega)]
  dsimp only
  rw [to_difference_type_of_lt C hC, if_neg (by omega),
    std_vector.reserve_fresh m_alloc C hmax havail, hsz]
  have hres := std_vector.resize_too_long (α := α)
    { elems := [], cap := C,
      alloc := { m_size := C, m_consumed := decide (C ≠ 0), m_alloc := m_alloc,
                 requests := if C = 0 then [] else [C] } }
    (2 ^ 64 - (r.first - r.last)) rfl
    (by simp only [std_vector.max_size, single_allocator.max_size]; omega)
    (by dsimp only; omega)
    (by simp only [std_vector.max_size, single_allocator.max_size]; omega)
  simp only [Outcome.andThen, hres, static_vector.fwd]

/-- The first `reserve(C)` on a platform whose free store cannot provide `C`
elements throws `std::bad_alloc`. -/
theorem std_vector.reserve_fresh_refused {α : Type} (m_alloc : base_type) (C : Nat)
    (hmax : C ≤ m_alloc.max_size) (havail : ¬ C ≤ m_alloc.avail) :
    ((std_vector.ctor (α := α)
        { m_size := C, m_consumed := false, m_alloc := m_alloc, requests := [] }).reserve
          C).thrown = some Exn.bad_alloc := by
  have hC : C ≠ 0 := by omega
  have hpos : 0 < C := Nat.pos_of_ne_zero hC
  simp [std_vector.ctor, std_vector.reserve, std_vector.max_size, single_allocator.max_size,
    std_vector.capacity, std_vector._M_allocate, single_allocator.allocate,
    base_type.allocate, Outcome.andThen, hC, hpos, hmax, havail]

/-- C34. For every capacity `C` and every reversed iterator pair (`last`
before `first`, so that `std::distance(first, last)` is negative) the range
constructor `static_vector(C, first, last)` throws `std::length_error`,
provided the platform grants the block of `C` elements; on a platform that
does not, the allocator's constructor or `reserve` throws `std::bad_alloc`
first. In no case does the construction return normally. -/
theorem static_vector.ctor_range_reversed {α : Type} [Inhabited α] (m_alloc : base_type)
    (C : Nat) (r : iter_pair α) (hrev : r.last < r.first) (hfirst : r.first < 2 ^ 63)
    (hptr : m_alloc.max_size < 2 ^ 63) :
    r.distance < 0 ∧
    (C ≤ m_alloc.max_size → C ≤ m_alloc.avail →
      ∃ s, static_vector.ctor_range m_alloc C r =
        Except.ok { state := s, thrown := some Exn.length_error }) ∧
    (¬ C ≤ m_alloc.max_size →
      static_vector.ctor_range m_alloc C r = Except.error Exn.bad_alloc) ∧
    (C ≤ m_alloc.max_size → ¬ C ≤ m_alloc.avail →
      ∃ s, static_vector.ctor_range m_alloc C r =
        Except.ok { state := s, thrown := some Exn.bad_alloc }) ∧
    (∀ s, static_vector.ctor_range m_alloc C r ≠ Except.ok { state := s, thrown := none }) := by
  have hdist : r.distance < 0 := by
    unfold iter_pair.distance
    omega
  have h1 : C ≤ m_alloc.max_size → C ≤ m_alloc.avail →
      ∃ s, static_vector.ctor_range m_alloc C r =
        Except.ok { state := s, thrown := some Exn.length_error } := fun hmax havail =>
    ⟨_, static_vector.ctor_range_reversed_eq m_alloc C r hrev hfirst hptr hmax havail⟩
  have h2 : ¬ C ≤ m_alloc.max_size →
      static_vector.ctor_range m_alloc C r = Except.error Exn.bad_alloc := by
    intro hmax
    unfold static_vector.ctor_range single_allocator.ctor
    rw [if_pos (by omega)]
  have h3 : C ≤ m_alloc.max_size → ¬ C ≤ m_alloc.avail →
      ∃ s, static_vector.ctor_range m_alloc C r =
        Except.ok { state := s, thrown := some Exn.bad_alloc } := by
    intro hmax havail
    have hC : C < 2 ^ 63 := by omega
    have hth := std_vector.reserve_fresh_refused (α := α) m_alloc C hmax havail
    unfold static_vector.ctor_range single_allocator.ctor
    rw [if_neg (by omega)]
    dsimp only
    rw [to_difference_type_of_lt C hC, if_neg (by omega)]
    simp only [Outcome.andThen, hth, static_vector.fwd]
    exact ⟨_, rfl⟩
  refine ⟨hdist, h1, h2, h3, ?_⟩
  intro s hs
  by_cases hmax : C ≤ m_alloc.max_size
  · by_cases havail : C ≤ m_alloc.avail
    · obtain ⟨t, ht⟩ := h1 hmax havail
      rw [ht] at hs
      simp at hs
    · obtain ⟨t, ht⟩ := h3 hmax havail
      rw [ht] at hs
      simp at hs
  · rw [h2 hmax] at hs
    cases hs

/-- Witness for C34: capacities 3 and 35 with `(end, begin)` of a container
of five elements, as in the tests. -/
theorem static_vector.ctor_range_reversed_witness :
    test_reversed.distance < 0 ∧
    (∃ s, static_vector.ctor_range test_platform 3 test_reversed =
      Except.ok { state := s, thrown := some Exn.length_error }) ∧
    (∃ s, static_vector.ctor_range test_platform 35 test_reversed =
      Except.ok { state := s, thrown := some Exn.length_error }) :=
  ⟨by decide,
   (static_vector.ctor_range_reversed test_platform 3 test_reversed (by decide) (by decide)
      (by decide)).2.1 (by decide) (by decide),
   (static_vector.ctor_range_reversed test_platform 35 test_reversed (by decide) (by decide)
      (by decide)).2.1 (by decide) (by decide)⟩

/-- On a vector without storage whose allocator has handed out its block,
`push_back` passes the growth check, asks the allocator for one element and
gets `std::bad_alloc`; the vector is as empty as before. -/
theorem std_vector.push_back_spent {α : Type} (w : std_vector α) (x : α)
    (he : w.elems = []) (hc : w.cap = 0) (hmax : 1 ≤ w.max_size) (hlt : w.max_size < 2 ^ 64)
    (hal : w.alloc.m_consumed = true) :
    (w.push_back x).thrown = some Exn.bad_alloc ∧ (w.push_back x).state.elems = [] ∧
    (w.push_back x).state.cap = 0 ∧ (w.push_back x).state.max_size = w.max_size ∧
    (w.push_back x).state.alloc.m_consumed = true := by
  have hs : w.size = 0 := by simp [std_vector.size, he]
  have hchk : w._M_check_len 1 = Except.ok 1 := by
    unfold std_vector._M_check_len
    rw [hs, Nat.sub_zero, Nat.add_mod_right, Nat.mod_eq_of_lt hlt, if_neg (by omega)]
    have h1 : (0 + max 0 1) % 2 ^ 64 = 1 := by decide
    dsimp only
    rw [h1, if_neg (by omega)]
  have hallocate : w.alloc.allocate 1 =
      { state := { w.alloc with requests := w.alloc.requests ++ [1] },
        thrown := some Exn.bad_alloc } := by
    unfold single_allocator.allocate
    simp [hal]
  have hpush : w.push_back x =
      { state := { w with alloc := { w.alloc with requests := w.alloc.requests ++ [1] } },
        thrown := some Exn.bad_alloc } := by
    unfold std_vector.push_back
    rw [if_neg (by rw [hs, hc]; simp)]
    unfold std_vector.realloc_append
    rw [hchk]
    dsimp only
    unfold std_vector._M_allocate
    rw [if_neg (by decide)]
    dsimp only
    rw [hallocate]
    rfl
  rw [hpush]
  exact ⟨rfl, he, hc, rfl, hal⟩

/-- Repeated `push_back` on such a vector: every call throws
`std::bad_alloc` and the vector stays empty. -/
theorem static_vector.push_back_each_spent {α : Type} (xs : List α) (w : static_vector α)
    (he : w.m_v.elems = []) (hc : w.m_v.cap = 0) (hmax : 1 ≤ w.m_v.max_size)
    (hlt : w.m_v.max_size < 2 ^ 64) (hal : w.m_v.alloc.m_consumed = true) :
    (w.push_back_each xs).1.size = 0 ∧
    (∀ e ∈ (w.push_back_each xs).2, e = some Exn.bad_alloc) ∧
    (w.push_back_each xs).2.length = xs.length := by
  induction xs generalizing w with
  | nil => simp [static_vector.push_back_each, static_vector.size, std_vector.size, he]
  | cons x xs ih =>
    obtain ⟨h1, h2, h3, h4, h5⟩ := std_vector.push_back_spent w.m_v x he hc hmax hlt hal
    have hst : (w.push_back x).state.m_v = (w.m_v.push_back x).state := rfl
    have hmax1 : 1 ≤ (w.push_back x).state.m_v.max_size := by
      rw [hst, h4]
      exact hmax
    have hlt1 : (w.push_back x).state.m_v.max_size < 2 ^ 64 := by
      rw [hst, h4]
      exact hlt
    have ih1 := ih (w.push_back x).state h2 h3 hmax1 hlt1 h5
    simp only [static_vector.push_back_each, List.mem_cons, List.length_cons]
    refine ⟨ih1.1, ?_, by rw [ih1.2.2]⟩
    intro e hmem
    rcases hmem with hmem | hmem
    · rw [hmem]
      exact h1
    · exact ih1.2.1 e hmem

/-- On an empty vector without storage whose `max_size()` is zero,
`push_back` fails the growth check: `std::length_error`. -/
theorem std_vector.push_back_no_room {α : Type} (w : std_vector α) (x : α)
    (he : w.elems = []) (hc : w.cap = 0) (hmax : w.max_size = 0) :
    (w.push_back x).thrown = some Exn.length_error := by
  have hs : w.size = 0 := by
    rw [std_vector.size, he]
    exact List.length_nil
  have hchk : w._M_check_len 1 = Except.error Exn.length_error := by
    unfold std_vector._M_check_len
    rw [hmax, hs, Nat.sub_zero, Nat.add_mod_right, Nat.zero_mod, if_pos Nat.zero_lt_one]
  unfold std_vector.push_back
  rw [if_neg (by rw [hs, hc]; exact fun h => h rfl)]
  unfold std_vector.realloc_append
  rw [hchk]

/-- The forwarded `push_back` on such a vector. -/
theorem static_vector.push_back_on_spent {α : Type} (w : static_vector α) (x : α)
    (he : w.m_v.elems = []) (hc : w.m_v.cap = 0) (hmax : 1 ≤ w.m_v.max_size)
    (hlt : w.m_v.max_size < 2 ^ 64) (hal : w.m_v.alloc.m_consumed = true) :
    (w.push_back x).thrown = some Exn.bad_alloc ∧ (w.push_back x).state.size = 0 := by
  obtain ⟨h1, h2, -, -, -⟩ := std_vector.push_back_spent w.m_v x he hc hmax hlt hal
  have hst : (w.push_back x).state.m_v = (w.m_v.push_back x).state := rfl
  have hth : (w.push_back x).thrown = (w.m_v.push_back x).thrown := rfl
  refine ⟨by rw [hth]; exact h1, ?_⟩
  rw [static_vector.size, std_vector.size, hst, h2]
  exact List.length_nil

/-- The forwarded `push_back` on an empty vector whose `max_size()` is zero. -/
theorem static_vector.push_back_on_zero {α : Type} (w : static_vector α) (x : α)
    (he : w.m_v.elems = []) (hc : w.m_v.cap = 0) (hmax : w.m_v.max_size = 0) :
    (w.push_back x).thrown = some Exn.length_error := by
  have hth : (w.push_back x).thrown = (w.m_v.push_back x).thrown := rfl
  rw [hth]
  exact std_vector.push_back_no_room w.m_v x he hc hmax

/-- C35, as stated, fails for the declared capacity zero: the constructor
allocates nothing, the allocator is not consumed, and `push_back` on the
moved-from source throws `std::length_error` from the growth check, not
`std::bad_alloc`. -/
theorem static_vector.moved_from_zero_counterexample :
    static_vector.ctor (α := Nat) test_platform 0 =
      Except.ok { state := test_vector_0, thrown := none } ∧
    test_vector_0.m_v.alloc.m_consumed = false ∧
    (test_vector_0.move_ctor.2.push_back 7).thrown = some Exn.length_error ∧
    (test_vector_0.move_ctor.2.push_back 7).thrown ≠ some Exn.bad_alloc := by
  refine ⟨rfl, rfl, ?_, ?_⟩ <;> decide

/-! ## `to_string` of floating-point values: zeros, infinities, NaN -/

/-- The NaN branch of `ieee754_to_s`. -/
theorem ieee754_to_s_nan {VAL_TYPE : Type} (N : Nat) (to_float64 : VAL_TYPE → float64_t)
    (denorm_min : VAL_TYPE) (scientific : BaseString N → float64_t → BaseString N)
    (v : VAL_TYPE) (hexp : (to_float64 v).exponent = 2047) (hfr : (to_float64 v).fraction ≠ 0) :
    ieee754_to_s N to_float64 denorm_min scientific v =
      (String.operator_assign (BaseString.ctor N) (char_ptr.ext text_nan)).state := by
  have h1 : (to_float64 v).isinf = false := by simp [float64_t.isinf, hfr]
  have h2 : (to_float64 v).isnan = true := by simp [float64_t.isnan, hexp, hfr]
  unfold ieee754_to_s
  dsimp only
  rw [h1, h2]
  simp only [Bool.false_and, Bool.false_eq_true, if_false, if_true]

/-- The two infinity branches of `ieee754_to_s`. -/
theorem ieee754_to_s_inf {VAL_TYPE : Type} (N : Nat) (to_float64 : VAL_TYPE → float64_t)
    (denorm_min : VAL_TYPE) (scientific : BaseString N → float64_t → BaseString N)
    (v : VAL_TYPE) (hexp : (to_float64 v).exponent = 2047) (hfr : (to_float64 v).fraction = 0) :
    ieee754_to_s N to_float64 denorm_min scientific v =
      (String.operator_assign (BaseString.ctor N)
        (char_ptr.ext (if (to_float64 v).sign then text_minus_inf else text_inf))).state := by
  have h1 : (to_float64 v).isinf = true := by simp [float64_t.isinf, hexp, hfr]
  have h2 : (to_float64 v).lt float64_zero = (to_float64 v).sign := by
    cases hs : (to_float64 v).sign <;>
      simp [float64_t.lt, float64_t.isnan, float64_t.ordinal, hexp, hfr, hs, float64_zero]
  unfold ieee754_to_s
  dsimp only
  rw [h1, h2]
  cases hs : (to_float64 v).sign <;>
    simp only [Bool.true_and, Bool.false_eq_true, if_false, if_true]

/-- The zero branch of `ieee754_to_s`: a zero of either sign is not below
`0.0`, so no sign is written, and it is below `denorm_min`. -/
theorem ieee754_to_s_zero {VAL_TYPE : Type} (N : Nat) (to_float64 : VAL_TYPE → float64_t)
    (denorm_min : VAL_TYPE) (scientific : BaseString N → float64_t → BaseString N)
    (v : VAL_TYPE) (hexp : (to_float64 v).exponent = 0) (hfr : (to_float64 v).fraction = 0)
    (hdm : (to_float64 denorm_min).isnan = false) (hpos : 0 < (to_float64 denorm_min).ordinal) :
    ieee754_to_s N to_float64 denorm_min scientific v =
      (String.operator_plus_eq (BaseString.ctor N) (char_ptr.ext [48])).state := by
  have h1 : (to_float64 v).isinf = false := by simp [float64_t.isinf, hexp]
  have h2 : (to_float64 v).isnan = false := by simp [float64_t.isnan, hexp]
  have h0 : (to_float64 v).ordinal = 0 := by
    cases hs : (to_float64 v).sign <;> simp [float64_t.ordinal, hexp, hfr, hs]
  have h3 : (to_float64 v).lt float64_zero = false := by
    have hz : float64_zero.ordinal = 0 := by decide
    simp [float64_t.lt, h2, h0, hz]
  have h4 : (to_float64 v).lt (to_float64 denorm_min) = true := by
    simp [float64_t.lt, h2, h0, hdm, hpos]
  unfold ieee754_to_s
  dsimp only
  rw [h1, h2, h3]
  simp only [Bool.false_and, Bool.false_eq_true, if_false]
  rw [h4]
  simp only [if_true]

/-- The smallest positive `float32_t`, converted: `2 ^ -149` as a normal
`float64_t`. -/
theorem denorm_min_float32_widened :
    denorm_min_float32.to_float64 =
      { sign := false, exponent := 874, fraction := 0,
        hexponent := by decide, hfraction := by decide } := by
  unfold float32_t.to_float64 denorm_min_float32
  simp [Nat.log2]

/-- The converted `denorm_min` is a number above zero. -/
theorem denorm_min_float32_facts :
    denorm_min_float32.to_float64.isnan = false ∧ 0 < denorm_min_float32.to_float64.ordinal := by
  rw [denorm_min_float32_widened]
  constructor
  · decide
  · decide


/-- The widening conversion keeps the class and the sign of a zero, an
infinity and a NaN. -/
theorem float32_t.to_float64_class (x : float32_t) :
    (x.exponent = 0 → x.fraction = 0 →
      x.to_float64.exponent = 0 ∧ x.to_float64.fraction = 0 ∧ x.to_float64.sign = x.sign) ∧
    (x.exponent = 255 → x.fraction = 0 →
      x.to_float64.exponent = 2047 ∧ x.to_float64.fraction = 0 ∧
      x.to_float64.sign = x.sign) ∧
    (x.exponent = 255 → x.fraction ≠ 0 →
      x.to_float64.exponent = 2047 ∧ x.to_float64.fraction ≠ 0 ∧
      x.to_float64.sign = x.sign) := by
  refine ⟨fun h1 h2 => ?_, fun h1 h2 => ?_, fun h1 h2 => ?_⟩
  · unfold float32_t.to_float64
    rw [if_neg (by omega), if_pos h1, if_pos h2]
    exact ⟨rfl, rfl, rfl⟩
  · unfold float32_t.to_float64
    rw [if_pos h1, if_pos h2]
    exact ⟨rfl, rfl, rfl⟩
  · unfold float32_t.to_float64
    rw [if_pos h1, if_neg h2]
    refine ⟨rfl, ?_, rfl⟩
    dsimp only
    omega

/-- C32. Special values of `apex::to_string(float32_t)` and
`apex::to_string(float64_t)`, for a value given by the fields of its IEEE-754
encoding: a zero of either sign (exponent and fraction zero) gives `"0"`,
without sign; plus infinity (largest exponent, fraction zero) gives `"inf"`
and minus infinity `"-inf"`; a NaN of either sign (largest exponent,
fraction not zero) gives `"nan"`. The strings are null-terminated. This
holds whatever the branch for the other values does. -/
theorem to_string_float_special
    (scientific16 : BaseString 16 → float64_t → BaseString 16)
    (scientific32 : BaseString 32 → float64_t → BaseString 32)
    (x : float32_t) (y : float64_t) :
    (x.exponent = 0 → x.fraction = 0 →
      (to_string_float32 scientific16 x).text = [48] ∧
      (to_string_float32 scientific16 x).terminated) ∧
    (x.exponent = 255 → x.fraction = 0 → x.sign = false →
      (to_string_float32 scientific16 x).text = text_inf ∧
      (to_string_float32 scientific16 x).terminated) ∧
    (x.exponent = 255 → x.fraction = 0 → x.sign = true →
      (to_string_float32 scientific16 x).text = text_minus_inf ∧
      (to_string_float32 scientific16 x).terminated) ∧
    (x.exponent = 255 → x.fraction ≠ 0 →
      (to_string_float32 scientific16 x).text = text_nan ∧
      (to_string_float32 scientific16 x).terminated) ∧
    (y.exponent = 0 → y.fraction = 0 →
      (to_string_float64 scientific32 y).text = [48] ∧
      (to_string_float64 scientific32 y).terminated) ∧
    (y.exponent = 2047 → y.fraction = 0 → y.sign = false →
      (to_string_float64 scientific32 y).text = text_inf ∧
      (to_string_float64 scientific32 y).terminated) ∧
    (y.exponent = 2047 → y.fraction = 0 → y.sign = true →
      (to_string_float64 scientific32 y).text = text_minus_inf ∧
      (to_string_float64 scientific32 y).terminated) ∧
    (y.exponent = 2047 → y.fraction ≠ 0 →
      (to_string_float64 scientific32 y).text = text_nan ∧
      (to_string_float64 scientific32 y).terminated) := by
  obtain ⟨hz, hi, hn⟩ := float32_t.to_float64_class x
  refine ⟨fun h1 h2 => ?_, fun h1 h2 h3 => ?_, fun h1 h2 h3 => ?_, fun h1 h2 => ?_,
    fun h1 h2 => ?_, fun h1 h2 h3 => ?_, fun h1 h2 h3 => ?_, fun h1 h2 => ?_⟩
  · unfold to_string_float32
    rw [ieee754_to_s_zero 16 float32_t.to_float64 denorm_min_float32 scientific16 x
      (hz h1 h2).1 (hz h1 h2).2.1 denorm_min_float32_facts.1 denorm_min_float32_facts.2]
    decide
  · unfold to_string_float32
    rw [ieee754_to_s_inf 16 float32_t.to_float64 denorm_min_float32 scientific16 x
      (hi h1 h2).1 (hi h1 h2).2.1, (hi h1 h2).2.2, h3]
    decide
  · unfold to_string_float32
    rw [ieee754_to_s_inf 16 float32_t.to_float64 denorm_min_float32 scientific16 x
      (hi h1 h2).1 (hi h1 h2).2.1, (hi h1 h2).2.2, h3]
    decide
  · unfold to_string_float32
    rw [ieee754_to_s_nan 16 float32_t.to_float64 denorm_min_float32 scientific16 x
      (hn h1 h2).1 (hn h1 h2).2.1]
    decide
  · unfold to_string_float64
    rw [ieee754_to_s_zero 32 float64_t.to_float64 denorm_min_float64 scientific32 y
      h1 h2 (by decide) (by decide)]
    decide
  · unfold to_string_float64
    rw [ieee754_to_s_inf 32 float64_t.to_float64 denorm_min_float64 scientific32 y h1 h2]
    have hs : (float64_t.to_float64 y).sign = false := h3
    rw [hs]
    decide
  · unfold to_string_float64
    rw [ieee754_to_s_inf 32 float64_t.to_float64 denorm_min_float64 scientific32 y h1 h2]
    have hs : (float64_t.to_float64 y).sign = true := h3
    rw [hs]
    decide
  · unfold to_string_float64
    rw [ieee754_to_s_nan 32 float64_t.to_float64 denorm_min_float64 scientific32 y h1 h2]
    decide

/-- Witness for C32: the values of `TEST(string, test_float_to_string)` and
`TEST(string, test_double_to_string)`: `-0.0` and the negated quiet NaN, in
both widths. -/
theorem to_string_float_special_witness :
    ((to_string_float32 (fun r _ => r) test_minus_zero32).text = [48] ∧
      (to_string_float32 (fun r _ => r) test_minus_zero32).terminated) ∧
    ((to_string_float32 (fun r _ => r) test_minus_nan32).text = text_nan ∧
      (to_string_float32 (fun r _ => r) test_minus_nan32).terminated) ∧
    ((to_string_float64 (fun r _ => r) test_minus_zero64).text = [48] ∧
      (to_string_float64 (fun r _ => r) test_minus_zero64).terminated) ∧
    ((to_string_float64 (fun r _ => r) test_minus_nan64).text = text_nan ∧
      (to_string_float64 (fun r _ => r) test_minus_nan64).terminated) :=
  ⟨(to_string_float_special (fun r _ => r) (fun r _ => r) test_minus_zero32
      test_minus_zero64).1 rfl rfl,
   (to_string_float_special (fun r _ => r) (fun r _ => r) test_minus_nan32
      test_minus_nan64).2.2.2.1 rfl (by decide),
   (to_string_float_special (fun r _ => r) (fun r _ => r) test_minus_zero32
      test_minus_zero64).2.2.2.2.1 rfl rfl,
   (to_string_float_special (fun r _ => r) (fun r _ => r) test_minus_nan32
      test_minus_nan64).2.2.2.2.2.2.2 rfl (by decide)⟩

/-! ## `static_vector`: after a copy assignment from a vector of another capacity -/

/-- Copy assignment hands the destination the allocator state of the source:
afterwards, returned or thrown, `max_size()` is that of the source, and an
allocator that cannot hand out a block stays so. -/
theorem static_vector.copy_assign_alloc {α : Type} (d src : static_vector α) :
    (d.copy_assign src).state.max_size = src.max_size ∧
    ((src.m_v.alloc.m_consumed = true ∨ src.m_v.alloc.m_size = 0) →
      ((d.copy_assign src).state.m_v.alloc.m_consumed = true ∨
        (d.copy_assign src).state.m_v.alloc.m_size = 0)) := by
  have hst := single_allocator.allocate_state src.m_v.alloc src.m_v.size
  obtain ⟨a1, a2, -, a4, a5⟩ := hst
  by_cases hlen : src.m_v.size > d.m_v.cap
  · have hne : src.m_v.size ≠ 0 := by omega
    cases hth : (src.m_v.alloc.allocate src.m_v.size).thrown with
    | none =>
      have hc := a4 hth
      simp only [static_vector.copy_assign, static_vector.fwd, std_vector.copy_assign,
        single_allocator.copy_assign, std_vector.capacity, hlen, if_true,
        std_vector._M_allocate, hne, if_false, Outcome.andThen, hth,
        single_allocator.deallocate, static_vector.max_size, std_vector.max_size,
        single_allocator.max_size, a1, a2, hc]
      exact ⟨trivial, fun _ => Or.inl trivial⟩
    | some e =>
      have hc := a5 (by rw [hth]; exact fun h => by cases h)
      simp only [static_vector.copy_assign, static_vector.fwd, std_vector.copy_assign,
        single_allocator.copy_assign, std_vector.capacity, hlen, if_true,
        std_vector._M_allocate, hne, if_false, Outcome.andThen, hth,
        static_vector.max_size, std_vector.max_size,
        single_allocator.max_size, a1, a2, hc]
      exact ⟨trivial, fun h => h⟩
  · simp only [static_vector.copy_assign, static_vector.fwd, std_vector.copy_assign,
      single_allocator.copy_assign, std_vector.capacity, hlen, if_false,
      static_vector.max_size, std_vector.max_size, single_allocator.max_size]
    exact ⟨trivial, fun h => h⟩

/-- C35, amended. Let `s` be a `static_vector` whose allocator has handed out
its block or was declared for no elements, as the allocator of every vector
is that was constructed and then used through its members, copy assignment
included. Move construction from `s` and move assignment from `s` leave the
same source: empty, without storage, with the allocator and so the
`max_size()` of `s`. On it `at(0)` throws `std::out_of_range`. When
`max_size()` is at least one the allocator keeps its consumed flag,
`push_back` throws `std::bad_alloc`, and so does every later `push_back`,
the source staying empty. When `max_size()` is zero `push_back` throws
`std::length_error`. `max_size()` is the declared capacity `C` of a vector
constructed with capacity `C` and used through `reserve`, `resize`,
`push_back`, `pop_back`, `clear` and `shrink_to_fit`; a copy assignment
gives the destination the `max_size()` of its source. -/
theorem static_vector.moved_from_spec {α : Type} [Inhabited α] (s dst : static_vector α)
    (x : α) (xs : List α) (hm : s.max_size < 2 ^ 64)
    (hal : s.m_v.alloc.m_consumed = true ∨ s.m_v.alloc.m_size = 0) :
    (dst.move_assign s).2 = s.move_ctor.2 ∧
    s.move_ctor.2.size = 0 ∧
    s.move_ctor.2.max_size = s.max_size ∧
    s.move_ctor.2.at 0 = Except.error Exn.out_of_range ∧
    (1 ≤ s.max_size →
      s.move_ctor.2.m_v.alloc.m_consumed = true ∧
      (s.move_ctor.2.push_back x).thrown = some Exn.bad_alloc ∧
      (s.move_ctor.2.push_back x).state.size = 0 ∧
      (s.move_ctor.2.push_back_each xs).1.size = 0 ∧
      (∀ e ∈ (s.move_ctor.2.push_back_each xs).2, e = some Exn.bad_alloc) ∧
      (s.move_ctor.2.push_back_each xs).2.length = xs.length) ∧
    (s.max_size = 0 → (s.move_ctor.2.push_back x).thrown = some Exn.length_error) ∧
    (∀ (m_alloc : base_type) (C : Nat) (s0 t : static_vector α) (calls : List (VecCall α)),
      C < 2 ^ 64 →
      static_vector.ctor m_alloc C = Except.ok { state := s0, thrown := none } →
      s0.run_calls calls = some t →
      t.max_size = C ∧ (t.m_v.alloc.m_consumed = true ∨ t.m_v.alloc.m_size = 0)) ∧
    (∀ d src : static_vector α,
      (d.copy_assign src).state.max_size = src.max_size ∧
      ((src.m_v.alloc.m_consumed = true ∨ src.m_v.alloc.m_size = 0) →
        ((d.copy_assign src).state.m_v.alloc.m_consumed = true ∨
          (d.copy_assign src).state.m_v.alloc.m_size = 0))) := by
  have hmx : s.move_ctor.2.m_v.max_size = s.max_size := rfl
  refine ⟨rfl, rfl, rfl, rfl, ?_, ?_, ?_, fun d src => static_vector.copy_assign_alloc d src⟩
  · intro h1
    have hcons : s.m_v.alloc.m_consumed = true := by
      rcases hal with h | h
      · exact h
      · exfalso
        have h2 : 1 ≤ min s.m_v.alloc.m_alloc.max_size s.m_v.alloc.m_size := h1
        rw [h] at h2
        omega
    obtain ⟨e1, e2⟩ := static_vector.push_back_on_spent s.move_ctor.2 x rfl rfl
      (by rw [hmx]; exact h1) (by rw [hmx]; exact hm) hcons
    obtain ⟨e3, e4, e5⟩ := static_vector.push_back_each_spent xs s.move_ctor.2 rfl rfl
      (by rw [hmx]; exact h1) (by rw [hmx]; exact hm) hcons
    exact ⟨hcons, e1, e2, e3, e4, e5⟩
  · intro h0
    exact static_vector.push_back_on_zero s.move_ctor.2 x rfl rfl (by rw [hmx]; exact h0)
  · intro m_alloc C s0 t calls hC hctor hrun
    obtain ⟨hel, hcap0, hmax0⟩ := static_vector.ctor_ok_state m_alloc C s0 hctor
    have hal0 := static_vector.ctor_ok_alloc m_alloc C s0 hctor
    have hsz0 : s0.size ≤ C := by simp [static_vector.size, std_vector.size, hel]
    obtain ⟨-, hmax, -, halloc⟩ :=
      static_vector.run_calls_keeps C hC calls s0 t hcap0 hmax0 hsz0 hrun
    refine ⟨hmax, ?_⟩
    rw [halloc]
    exact hal0

/-- Witness for C35: the vector of capacity three of the tests, moved from
after one `push_back`; the vector of capacity zero; and a vector of capacity
three that was copy-assigned from the vector of capacity zero. -/
theorem static_vector.moved_from_spec_witness :
    ((test_vector_3 [5]).move_ctor.2.push_back 7).thrown = some Exn.bad_alloc ∧
    (test_vector_3 [5]).move_ctor.2.at 0 = Except.error Exn.out_of_range ∧
    (test_vector_0.move_ctor.2.push_back 7).thrown = some Exn.length_error ∧
    (((test_vector_3 [5]).copy_assign test_vector_0).state.move_ctor.2.push_back 7).thrown =
      some Exn.length_error :=
  ⟨((static_vector.moved_from_spec (test_vector_3 [5]) (test_vector_3 []) 7 []
      (by decide) (by decide)).2.2.2.2.1 (by decide)).2.1,
   (static_vector.moved_from_spec (test_vector_3 [5]) (test_vector_3 []) 7 []
      (by decide) (by decide)).2.2.2.1,
   (static_vector.moved_from_spec test_vector_0 test_vector_0 7 []
      (by decide) (by decide)).2.2.2.2.2.1 (by decide),
   (static_vector.moved_from_spec ((test_vector_3 [5]).copy_assign test_vector_0).state
      test_vector_0 7 [] (by decide) (by decide)).2.2.2.2.2.1 (by decide)⟩

/-! ## Assignment from the object itself -/

/-- Assignment from a pointer into the object's own buffer: the buffer is
zero-filled before the source is read, so nothing is copied and the object
is left empty. -/
theorem String.silent_own_assign {N : Nat} (s : BaseString N) (k : Nat) :
    String.operator_assign s (char_ptr.self k) =
      { state := BaseString.ctor N, thrown := none } := by
  rw [String.silent_assign_eq]
  have hd : (BaseString.ctor N).m_string.drop k = List.replicate (N - k) 0 := by
    show (List.replicate N (0 : char8_t)).drop k = _
    exact List.drop_replicate _ _ _
  have hz : strnlen ((BaseString.ctor N).m_string.drop k) (N - 1) = 0 := by
    rw [hd]
    exact strnlen_zeros _ _
  unfold String.operator_plus_eq
  simp only [char_ptr.deref, BaseString.capacity, BaseString.get_buffer_size, hz]
  split <;> simp

/-- C13, as stated, fails for a text inside the assigned object: for
`String<8> s("abc")` the text at `s.c_str() + 1` is `"bc"`, but
`s = s.c_str() + 1` leaves `s` empty. -/
theorem String.assign_own_text_counterexample :
    (String.ctor_text 8 (char_ptr.ext test_abc)).text = test_abc ∧
    c_text ((String.ctor_text 8 (char_ptr.ext test_abc)).m_string.drop 1) = [98, 99] ∧
    (String.operator_assign (String.ctor_text 8 (char_ptr.ext test_abc))
      (char_ptr.self 1)).state.text = [] ∧
    (String.operator_assign (String.ctor_text 8 (char_ptr.ext test_abc))
      (char_ptr.self 1)).state.text ≠
      (c_text ((String.ctor_text 8 (char_ptr.ext test_abc)).m_string.drop 1)).take
        (min (strlen ((String.ctor_text 8 (char_ptr.ext test_abc)).m_string.drop 1)) (8 - 1)) := by
  refine ⟨?_, ?_, ?_, ?_⟩ <;> decide

/-- C13, amended: truncating construction and assignment. For every `N` and
every C text `src` outside the destination object, `String<N>(src)` and
`s = src` do not throw and leave the first `min(|src|, N - 1)` bytes of `src`
as content; when `src` is longer than `N - 1` the result has exactly `N - 1`
characters; the result is null-terminated; a null `src` gives the empty
string. When `src` points into the buffer of `s` itself, at any offset,
`s = src` does not throw and leaves `s` empty, the buffer zero-filled. -/
theorem String.truncating_spec (N : Nat) (s : BaseString N) (t : List char8_t) (k : Nat) :
    (String.operator_plus_eq (BaseString.ctor N) (char_ptr.ext t)).thrown = none ∧
    (String.ctor_text N (char_ptr.ext t)).text = (c_text t).take (min (strlen t) (N - 1)) ∧
    (String.operator_assign s (char_ptr.ext t)).thrown = none ∧
    (String.operator_assign s (char_ptr.ext t)).state.text =
      (c_text t).take (min (strlen t) (N - 1)) ∧
    (N - 1 < strlen t → (String.ctor_text N (char_ptr.ext t)).length = N - 1 ∧
      (String.operator_assign s (char_ptr.ext t)).state.length = N - 1) ∧
    (0 < N → (String.ctor_text N (char_ptr.ext t)).terminated ∧
      (String.operator_assign s (char_ptr.ext t)).state.terminated) ∧
    (String.ctor_text N char_ptr.null).text = [] ∧
    (String.operator_assign s char_ptr.null).thrown = none ∧
    (String.operator_assign s char_ptr.null).state.text = [] ∧
    (String.operator_assign s (char_ptr.self k)).thrown = none ∧
    (String.operator_assign s (char_ptr.self k)).state = BaseString.ctor N ∧
    (String.operator_assign s (char_ptr.self k)).state.text = [] := by
  obtain ⟨h1, h2, h3, h4, h5, h6, h7, h8, h9⟩ := String.truncating_core N s t
  have hown := String.silent_own_assign s k
  refine ⟨h1, h2, h3, h4, h5, h6, h7, h8, h9, ?_, ?_, ?_⟩
  · rw [hown]
  · rw [hown]
  · rw [hown]
    exact BaseString.text_ctor N

/-- Witness for C13: `String<3>` from `"123"` holds `"12"`, of length `2`,
null-terminated; `String<8>("abc")` assigned the text at its own
`c_str() + 1` is empty. -/
theorem String.truncating_spec_witness :
    3 - 1 < strlen test_123 ∧
    (String.ctor_text 3 (char_ptr.ext test_123)).text = test_12 ∧
    (String.ctor_text 3 (char_ptr.ext test_123)).length = 3 - 1 ∧
    (String.ctor_text 3 (char_ptr.ext test_123)).terminated ∧
    (String.operator_assign (String.ctor_text 8 (char_ptr.ext test_abc))
      (char_ptr.self 1)).state.text = [] :=
  ⟨by decide,
    (String.truncating_spec 3 (BaseString.ctor 3) test_123 0).2.1.trans (by decide),
    ((String.truncating_spec 3 (BaseString.ctor 3) test_123 0).2.2.2.2.1 (by decide)).1,
    ((String.truncating_spec 3 (BaseString.ctor 3) test_123 0).2.2.2.2.2.1 (by decide)).1,
    (String.truncating_spec 8 (String.ctor_text 8 (char_ptr.ext test_abc)) test_abc
      1).2.2.2.2.2.2.2.2.2.2.2⟩

/-- C40, as stated, fails for `StringStrict`: for `StringStrict<8> s("abc")`
the statement `s = s` runs the implicitly-declared copy assignment, which
copies the buffer onto itself, and `s` still holds `"abc"`. -/
theorem StringStrict.self_assignment_counterexample :
    StringStrict.ctor_text 8 (char_ptr.ext test_abc) =
      Except.ok (String.ctor_text 8 (char_ptr.ext test_abc)) ∧
    (StringStrict.operator_assign_copy (String.ctor_text 8 (char_ptr.ext test_abc))
      (String.ctor_text 8 (char_ptr.ext test_abc))).state.text = test_abc ∧
    (StringStrict.operator_assign_copy (String.ctor_text 8 (char_ptr.ext test_abc))
      (String.ctor_text 8 (char_ptr.ext test_abc))).state.text ≠ [] := by
  refine ⟨rfl, ?_, ?_⟩ <;> decide

/-- C40, amended: self-assignment through a declared `operator=` loses the
content. For every `String<N>` object `s`, `s = s` (which calls
`operator=(const String &)`) leaves the whole buffer zero-filled, so `s`
empty, without a throw: `operator=` clears the destination before it reads
the source through `rhs.c_str()`. The declared assignment operators of
`StringStrict<N>` do the same when they are handed the object itself (as a
`const BaseString<N> &`, or as `s.c_str()`). The statement `s = s` on a
`StringStrict<N>` calls none of them but the implicitly-declared copy
assignment, and leaves `s` as it was. Self-append `s += s` on a
null-terminated `s` with `2 * length ≤ N - 1` doubles the content in both
variants. -/
theorem self_assignment_spec {N : Nat} (hN : 0 < N) (s : BaseString N) :
    String.operator_assign s s.c_str_self = { state := BaseString.ctor N, thrown := none } ∧
    StringStrict.operator_assign s s.c_str_self =
      { state := BaseString.ctor N, thrown := none } ∧
    (BaseString.ctor N).text = [] ∧
    StringStrict.operator_assign_copy s s = { state := s, thrown := none } ∧
    (s.terminated → 2 * s.length ≤ N - 1 →
      (String.operator_plus_eq s s.c_str_self).state.text = s.text ++ s.text ∧
      (StringStrict.operator_plus_eq s s.c_str_self).thrown = none ∧
      (StringStrict.operator_plus_eq s s.c_str_self).state.text = s.text ++ s.text) := by
  obtain ⟨h1, h2, h3, h4⟩ := self_assignment_core hN s
  exact ⟨h1, h2, h3, rfl, h4⟩

/-- Witness for C40 at `"abc"` in a buffer of eight bytes: `s = s` on the
`String<8>` leaves the empty string, `s = s` on the `StringStrict<8>` leaves
`"abc"`, and `s += s` leaves `"abcabc"`. -/
theorem self_assignment_spec_witness :
    0 < 8 ∧ (String.ctor_text 8 (char_ptr.ext test_abc)).terminated ∧
    2 * (String.ctor_text 8 (char_ptr.ext test_abc)).length ≤ 8 - 1 ∧
    (String.operator_assign (String.ctor_text 8 (char_ptr.ext test_abc))
      (String.ctor_text 8 (char_ptr.ext test_abc)).c_str_self).state.text = [] ∧
    (StringStrict.operator_assign_copy (String.ctor_text 8 (char_ptr.ext test_abc))
      (String.ctor_text 8 (char_ptr.ext test_abc))).state.text = test_abc ∧
    (String.operator_plus_eq (String.ctor_text 8 (char_ptr.ext test_abc))
      (String.ctor_text 8 (char_ptr.ext test_abc)).c_str_self).state.text =
      [97, 98, 99, 97, 98, 99] ∧
    (StringStrict.operator_plus_eq (String.ctor_text 8 (char_ptr.ext test_abc))
      (String.ctor_text 8 (char_ptr.ext test_abc)).c_str_self).state.text =
      [97, 98, 99, 97, 98, 99] :=
  ⟨by decide, by decide, by decide,
    (congrArg (fun o => o.state.text)
      (self_assignment_spec (by decide) (String.ctor_text 8 (char_ptr.ext test_abc))).1).trans
      (by decide),
    (congrArg (fun o => o.state.text)
      (self_assignment_spec (by decide)
        (String.ctor_text 8 (char_ptr.ext test_abc))).2.2.2.1).trans (by decide),
    ((self_assignment_spec (by decide) (String.ctor_text 8 (char_ptr.ext test_abc))).2.2.2.2
      (by decide) (by decide)).1.trans (by decide),
    ((self_assignment_spec (by decide) (String.ctor_text 8 (char_ptr.ext test_abc))).2.2.2.2
      (by decide) (by decide)).2.2.trans (by decide)⟩

end apex
